import Mathlib

/-!
Stored-alignment canonicalization in `AssemblerAlignments.cpp`.

A shallow embedding of `Assembler::getStoredAlignments` (both overloads), of the leading
parts of `Assembler::analyzeAlignments1` / `Assembler::analyzeAlignments3`, of the
coverage loops and the histogram loop of `analyzeAlignments1`, of the signature,
branch-matrix and edge-table steps of `Assembler::analyzeAlignments2`, of
`AnalyzeAlignments2Graph::removeLowCoverageVertices` and
`AnalyzeAlignments2Graph::createVertexCoverageHistograms`, of the sequences, the merge
passes, the branch tables and the bubble summary of `analyzeAlignments3`, and of
`InducedAlignment::sort`
(`InducedAlignment.hpp`), followed by the properties proved about them.

Conventions.
* `uint32_t` values are natural numbers; arithmetic that can wrap is written with an
  explicit `% 2 ^ 32`.
* A finite non-negative `double` `d` is the natural number `d * 2 ^ 1074`; a division of
  doubles rounds to the nearest double, ties to even (`roundQuotient`).
* A failed `SHASTA_ASSERT` is an `Except.error` carrying the place of the assertion.
* The memory-mapped containers of the `Assembler` are total functions of the index.
-/

namespace Shasta

/-! ## Data model -/

/-- The places where the embedded code can abort. -/
inductive Failure where
  /-- The check `checkMarkersAreOpen()`. -/
  | markersNotOpen
  /-- The check `checkAlignmentDataAreOpen()`. -/
  | alignmentDataNotOpen
  /-- The assertion `SHASTA_ASSERT(compressedAlignments.isOpen())`. -/
  | compressedAlignmentsNotOpen
  /-- The assertion `SHASTA_ASSERT(orientedReadIds1[i-1] < orientedReadIds1[i])`. -/
  | notSorted
  /-- The assertion `SHASTA_ASSERT(alignment.ordinals.size() == alignmentData.info.markerCount)`. -/
  | markerCountMismatch
  /-- The assertion `SHASTA_ASSERT(alignmentOrientedReadId0.getReadId() == orientedReadId0.getReadId())`. -/
  | readIdMismatch
  /-- The assertion `SHASTA_ASSERT(alignmentOrientedReadId0 == orientedReadId0)`. -/
  | orientedReadIdMismatch
  /-- The assertions of `Alignment::checkStrictlyIncreasing`. -/
  | notStrictlyIncreasing
  /-- The assertion `SHASTA_ASSERT(ordinal0 < markerCount0)`. -/
  | ordinalOutOfRange
  /-- The assertions `SHASTA_ASSERT(cSameStrand <= rcSameStrand)` and
  `SHASTA_ASSERT(cOppositeStrand <= rcOppositeStrand)` of the histogram loop. -/
  | coverageAboveRangeCoverage
  /-- The assertion `SHASTA_ASSERT(0)` of the signature construction. -/
  | sequenceInTwoBranches
  /-- The assertions that the two merged markers have the same `kmerId`. -/
  | kmerIdMismatch
  /-- The assertion `SHASTA_ASSERT(it != orientedReadIds.end())`. -/
  | sequenceNotFound
  /-- The assertion `SHASTA_ASSERT(coveragePerStrand[0] + coveragePerStrand[1] == totalCoverage)`. -/
  | coveragePerStrandMismatch
  /-- The assertion `SHASTA_ASSERT(value < 10)` of the branch tables. -/
  | branchIdTooLarge
deriving DecidableEq, Repr

/-- Modelled from the spec: class `OrientedReadId` (its header is not among the sources).
Spec §3: a (ReadId, Strand) pair with a canonical integer encoding; the encoding is
`value = 2 * readId + strand`, which is what `getValue` returns and what `operator<`
compares. -/
structure OrientedReadId where
  value : Nat
deriving DecidableEq, Repr

namespace OrientedReadId

/-- Modelled from the spec: the constructor `OrientedReadId(readId, strand)`. -/
def ofReadIdStrand (readId strand : Nat) : OrientedReadId := ⟨2 * readId + strand⟩

/-- Modelled from the spec: `getReadId`, the read of the pair. -/
def getReadId (o : OrientedReadId) : Nat := o.value / 2

/-- Modelled from the spec: `getStrand`, the strand of the pair (0 or 1). -/
def getStrand (o : OrientedReadId) : Nat := o.value % 2

/-- Modelled from the spec: `getValue`, the canonical integer encoding. -/
def getValue (o : OrientedReadId) : Nat := o.value

/-- Modelled from the spec: `flipStrand` toggles orientation without changing the
identity of the underlying read. -/
def flipStrand (o : OrientedReadId) : OrientedReadId :=
  ofReadIdStrand o.getReadId (1 - o.getStrand)

instance : LT OrientedReadId := ⟨fun a b => a.value < b.value⟩

instance (a b : OrientedReadId) : Decidable (a < b) :=
  inferInstanceAs (Decidable (a.value < b.value))

end OrientedReadId

/-- Subtraction of `uint32_t` values: the difference modulo `2 ^ 32`. -/
def sub32 (a b : Nat) : Nat := (a % 2 ^ 32 + (2 ^ 32 - b % 2 ^ 32)) % 2 ^ 32

/-- Modelled from the spec: class `Alignment` (its header is not among the sources).
Spec §3: an ordered sequence of ordinal pairs (ordinal0, ordinal1). -/
structure Alignment where
  ordinals : List (Nat × Nat)
deriving DecidableEq, Repr

namespace Alignment

/-- Modelled from the spec: `Alignment::swap`, swapping the two ordinal columns. -/
def swap (a : Alignment) : Alignment := ⟨a.ordinals.map fun o => (o.2, o.1)⟩

/-- Modelled from the spec: `Alignment::reverseComplement`, reflecting each ordinal
`o -> markerCount-1-o` independently per side (in `uint32_t` arithmetic) and reversing
pair order. -/
def reverseComplement (a : Alignment) (markerCount0 markerCount1 : Nat) : Alignment :=
  ⟨(a.ordinals.map fun o =>
      (sub32 (sub32 markerCount0 1) o.1, sub32 (sub32 markerCount1 1) o.2)).reverse⟩

/-- The loop of `checkStrictlyIncreasing` over consecutive entries. -/
def checkStrictlyIncreasingLoop : List (Nat × Nat) → Except Failure Unit
  | [] => .ok ()
  | [_] => .ok ()
  | previous :: current :: rest =>
    if previous.1 < current.1 then
      if previous.2 < current.2 then checkStrictlyIncreasingLoop (current :: rest)
      else .error .notStrictlyIncreasing
    else .error .notStrictlyIncreasing

/-- Modelled from the spec: `Alignment::checkStrictlyIncreasing`, which aborts unless
ordinal0 and ordinal1 are strictly increasing across consecutive entries. -/
def checkStrictlyIncreasing (a : Alignment) : Except Failure Unit :=
  checkStrictlyIncreasingLoop a.ordinals

end Alignment

/-- The part of `AlignmentData` that the embedded code reads. -/
structure AlignmentData where
  /-- The members `readIds[0]`, `readIds[1]`. -/
  readIds : Nat × Nat
  isSameStrand : Bool
  /-- The member `info.markerCount`. -/
  markerCount : Nat
deriving DecidableEq, Repr

/-- The query-relative view of one stored alignment. -/
structure StoredAlignmentInformation where
  alignmentId : Nat
  alignment : Alignment
  orientedReadId : OrientedReadId
deriving DecidableEq, Repr

/-- The members of `Assembler` that the embedded code reads. -/
structure Assembler where
  /-- What `checkMarkersAreOpen` tests. -/
  markersAreOpen : Bool
  /-- What `checkAlignmentDataAreOpen` tests. -/
  alignmentDataAreOpen : Bool
  /-- The value of `compressedAlignments.isOpen()`. -/
  compressedAlignmentsAreOpen : Bool
  /-- The value of `markers.size(i)`. -/
  markersSize : Nat → Nat
  /-- The span `alignmentTable[i]`. -/
  alignmentTable : Nat → List Nat
  /-- The entry `alignmentData[i]`. -/
  alignmentData : Nat → AlignmentData
  /-- The ordinal pairs that `decompress` produces from `compressedAlignments[i]`. -/
  decompressed : Nat → List (Nat × Nat)
  /-- The value of `markers[i][ordinal].kmerId`. -/
  markerKmerId : Nat → Nat → Nat := fun _ _ => 0

/-- The value `uint32_t(markers.size(orientedReadId.getValue()))`. -/
def Assembler.markerCount (assembler : Assembler) (orientedReadId : OrientedReadId) : Nat :=
  assembler.markersSize orientedReadId.getValue % 2 ^ 32

/-! ## `Assembler::getStoredAlignments` -/

/-- The two oriented reads of a stored alignment: the first read on strand 0, the second
on strand 0 or 1 according to `isSameStrand`. -/
def storedOrientedReadIds (alignmentData : AlignmentData) : OrientedReadId × OrientedReadId :=
  (OrientedReadId.ofReadIdStrand alignmentData.readIds.1 0,
   OrientedReadId.ofReadIdStrand alignmentData.readIds.2
     (if alignmentData.isSameStrand then 0 else 1))

/-- The swap decision: whether the stored first read differs from the read of the query. -/
def needsSwap (orientedReadId0 : OrientedReadId) (ids : OrientedReadId × OrientedReadId) : Bool :=
  decide (ids.1.getReadId ≠ orientedReadId0.getReadId)

/-- The two oriented reads after the optional swap. -/
def afterSwap (orientedReadId0 : OrientedReadId) (ids : OrientedReadId × OrientedReadId) :
    OrientedReadId × OrientedReadId :=
  if needsSwap orientedReadId0 ids then (ids.2, ids.1) else ids

/-- The reverse-complement decision, taken on the oriented reads after the swap. -/
def needsReverseComplement (orientedReadId0 : OrientedReadId)
    (ids : OrientedReadId × OrientedReadId) : Bool :=
  decide (ids.1.getStrand ≠ orientedReadId0.getStrand)

/-- The two oriented reads after the optional strand flip. -/
def afterReverseComplement (orientedReadId0 : OrientedReadId)
    (ids : OrientedReadId × OrientedReadId) : OrientedReadId × OrientedReadId :=
  if needsReverseComplement orientedReadId0 ids then (ids.1.flipStrand, ids.2.flipStrand)
  else ids

/-- The body of the loop of the first overload of `getStoredAlignments`, for one
alignment index. -/
def getStoredAlignmentsBody (assembler : Assembler) (orientedReadId0 : OrientedReadId)
    (alignmentIndex : Nat) : Except Failure StoredAlignmentInformation :=
  let alignmentData := assembler.alignmentData alignmentIndex
  let stored := storedOrientedReadIds alignmentData
  let alignment : Alignment := ⟨assembler.decompressed alignmentIndex⟩
  if alignment.ordinals.length ≠ alignmentData.markerCount then
    .error .markerCountMismatch
  else
    let alignment := if needsSwap orientedReadId0 stored then alignment.swap else alignment
    let swapped := afterSwap orientedReadId0 stored
    if swapped.1.getReadId ≠ orientedReadId0.getReadId then
      .error .readIdMismatch
    else
      let alignment :=
        if needsReverseComplement orientedReadId0 swapped then
          alignment.reverseComplement
            (assembler.markerCount swapped.1) (assembler.markerCount swapped.2)
        else alignment
      let final := afterReverseComplement orientedReadId0 swapped
      if final.1 ≠ orientedReadId0 then
        .error .orientedReadIdMismatch
      else
        .ok { alignmentId := alignmentIndex, alignment := alignment, orientedReadId := final.2 }

/-- The loop of the first overload of `getStoredAlignments` over the alignment indexes. -/
def getStoredAlignmentsLoop (assembler : Assembler) (orientedReadId0 : OrientedReadId) :
    List Nat → Except Failure (List StoredAlignmentInformation)
  | [] => .ok []
  | alignmentIndex :: rest =>
    match getStoredAlignmentsBody assembler orientedReadId0 alignmentIndex with
    | .error e => .error e
    | .ok info =>
      match getStoredAlignmentsLoop assembler orientedReadId0 rest with
      | .error e => .error e
      | .ok alignments => .ok (info :: alignments)

/-- The checks made on entry by both overloads of `getStoredAlignments`. -/
def checkOpen (assembler : Assembler) : Except Failure Unit :=
  if !assembler.markersAreOpen then .error .markersNotOpen
  else if !assembler.alignmentDataAreOpen then .error .alignmentDataNotOpen
  else if !assembler.compressedAlignmentsAreOpen then .error .compressedAlignmentsNotOpen
  else .ok ()

/-- The first overload, `Assembler::getStoredAlignments(orientedReadId0, alignments)`. -/
def getStoredAlignments (assembler : Assembler) (orientedReadId0 : OrientedReadId) :
    Except Failure (List StoredAlignmentInformation) :=
  match checkOpen assembler with
  | .error e => .error e
  | .ok _ =>
    getStoredAlignmentsLoop assembler orientedReadId0
      (assembler.alignmentTable orientedReadId0.getValue)

/-- The loop that checks that `orientedReadIds1` is sorted (second overload). -/
def checkSortedLoop : List OrientedReadId → Except Failure Unit
  | [] => .ok ()
  | [_] => .ok ()
  | previous :: current :: rest =>
    if previous < current then checkSortedLoop (current :: rest)
    else .error .notSorted

/-- The loop of `std::lower_bound` on `orientedReadIds1[first, first + len)`; `fuel` bounds
the number of iterations. -/
def lowerBoundLoop (orientedReadIds1 : List OrientedReadId) (x : OrientedReadId) :
    Nat → Nat → Nat → Nat
  | 0, first, _ => first
  | fuel + 1, first, len =>
    if len = 0 then first
    else
      let half := len / 2
      let middle := first + half
      if orientedReadIds1.getD middle ⟨0⟩ < x then
        lowerBoundLoop orientedReadIds1 x fuel (middle + 1) (len - half - 1)
      else
        lowerBoundLoop orientedReadIds1 x fuel first half

/-- The index returned by `std::lower_bound(begin, end, x)`; the loop halves `len`, so
`length` iterations are enough. -/
def lowerBound (orientedReadIds1 : List OrientedReadId) (x : OrientedReadId) : Nat :=
  lowerBoundLoop orientedReadIds1 x orientedReadIds1.length 0 orientedReadIds1.length

/-- The result of `std::binary_search(begin, end, x)`: the lower bound is not the end and
`x` is not less than the element there. -/
def binarySearch (orientedReadIds1 : List OrientedReadId) (x : OrientedReadId) : Bool :=
  let i := lowerBound orientedReadIds1 x
  decide (i ≠ orientedReadIds1.length) && !decide (x < orientedReadIds1.getD i ⟨0⟩)

/-- The body of the loop of the second overload of `getStoredAlignments`, for one
alignment id; `none` is the `continue` of an alignment whose partner is not wanted. -/
def getStoredAlignmentsFilteredBody (assembler : Assembler) (orientedReadId0 : OrientedReadId)
    (orientedReadIds1 : List OrientedReadId) (alignmentId : Nat) :
    Except Failure (Option StoredAlignmentInformation) :=
  let alignmentData := assembler.alignmentData alignmentId
  let stored := storedOrientedReadIds alignmentData
  let doSwap := needsSwap orientedReadId0 stored
  let swapped := afterSwap orientedReadId0 stored
  if swapped.1.getReadId ≠ orientedReadId0.getReadId then
    .error .readIdMismatch
  else
    let doReverseComplement := needsReverseComplement orientedReadId0 swapped
    let final := afterReverseComplement orientedReadId0 swapped
    if final.1 ≠ orientedReadId0 then
      .error .orientedReadIdMismatch
    else
      let orientedReadId1 := final.2
      if !binarySearch orientedReadIds1 orientedReadId1 then
        .ok none
      else
        let alignment : Alignment := ⟨assembler.decompressed alignmentId⟩
        if alignment.ordinals.length ≠ alignmentData.markerCount then
          .error .markerCountMismatch
        else
          let alignment := if doSwap then alignment.swap else alignment
          let alignment :=
            if doReverseComplement then
              alignment.reverseComplement
                (assembler.markerCount final.1) (assembler.markerCount final.2)
            else alignment
          .ok (some
            { alignmentId := alignmentId, alignment := alignment,
              orientedReadId := orientedReadId1 })

/-- The loop of the second overload of `getStoredAlignments` over the alignment ids. -/
def getStoredAlignmentsFilteredLoop (assembler : Assembler) (orientedReadId0 : OrientedReadId)
    (orientedReadIds1 : List OrientedReadId) :
    List Nat → Except Failure (List StoredAlignmentInformation)
  | [] => .ok []
  | alignmentId :: rest =>
    match getStoredAlignmentsFilteredBody assembler orientedReadId0 orientedReadIds1
        alignmentId with
    | .error e => .error e
    | .ok found =>
      match getStoredAlignmentsFilteredLoop assembler orientedReadId0 orientedReadIds1 rest with
      | .error e => .error e
      | .ok alignments =>
        match found with
        | none => .ok alignments
        | some info => .ok (info :: alignments)

/-- The second overload,
`Assembler::getStoredAlignments(orientedReadId0, orientedReadIds1, alignments)`. -/
def getStoredAlignmentsFiltered (assembler : Assembler) (orientedReadId0 : OrientedReadId)
    (orientedReadIds1 : List OrientedReadId) :
    Except Failure (List StoredAlignmentInformation) :=
  match checkSortedLoop orientedReadIds1 with
  | .error e => .error e
  | .ok _ =>
    match checkOpen assembler with
    | .error e => .error e
    | .ok _ =>
      getStoredAlignmentsFilteredLoop assembler orientedReadId0 orientedReadIds1
        (assembler.alignmentTable orientedReadId0.getValue)

/-! ## The leading parts of `analyzeAlignments1` and `analyzeAlignments3` -/

/-- The loop `for(const auto& p: alignments) p.alignment.checkStrictlyIncreasing();`. -/
def checkAllStrictlyIncreasing : List StoredAlignmentInformation → Except Failure Unit
  | [] => .ok ()
  | p :: rest =>
    match p.alignment.checkStrictlyIncreasing with
    | .error e => .error e
    | .ok _ => checkAllStrictlyIncreasing rest

/-- The value `std::numeric_limits<uint32_t>::max()`. -/
def invalidOrdinal : Nat := 2 ^ 32 - 1

/-- The inner loop that fills column `i` of the ordinal table from the pairs of one
alignment. -/
def fillOrdinalTableColumn (markerCount0 i : Nat) :
    List (Nat × Nat) → List (List Nat) → Except Failure (List (List Nat))
  | [], ordinalTable => .ok ordinalTable
  | o :: rest, ordinalTable =>
    if o.1 < markerCount0 then
      fillOrdinalTableColumn markerCount0 i rest
        (ordinalTable.set o.1 ((ordinalTable.getD o.1 []).set i o.2))
    else .error .ordinalOutOfRange

/-- The outer loop that fills the ordinal table, alignment after alignment, starting at
column `i`. -/
def fillOrdinalTable (markerCount0 : Nat) :
    List StoredAlignmentInformation → Nat → List (List Nat) → Except Failure (List (List Nat))
  | [], _, ordinalTable => .ok ordinalTable
  | p :: rest, i, ordinalTable =>
    match fillOrdinalTableColumn markerCount0 i p.alignment.ordinals ordinalTable with
    | .error e => .error e
    | .ok ordinalTable => fillOrdinalTable markerCount0 rest (i + 1) ordinalTable

/-- The leading part of `Assembler::analyzeAlignments1`, up to and including the
construction of the ordinal table: the canonical alignments, the strict-increase check and
the table. -/
def analyzeAlignments1 (assembler : Assembler) (readId0 strand0 : Nat) :
    Except Failure (List StoredAlignmentInformation × List (List Nat)) :=
  let orientedReadId0 := OrientedReadId.ofReadIdStrand readId0 strand0
  match getStoredAlignments assembler orientedReadId0 with
  | .error e => .error e
  | .ok alignments =>
    match checkAllStrictlyIncreasing alignments with
    | .error e => .error e
    | .ok _ =>
      let markerCount0 := assembler.markerCount orientedReadId0
      match fillOrdinalTable markerCount0 alignments 0
          (List.replicate markerCount0 (List.replicate alignments.length invalidOrdinal)) with
      | .error e => .error e
      | .ok ordinalTable => .ok (alignments, ordinalTable)

/-- The leading part of `Assembler::analyzeAlignments3`: the canonical alignments and the
strict-increase check. What follows the check (sequence extraction, the marker graph, the
reports) is the parameter `continuation`. -/
def analyzeAlignments3 {β : Type} (assembler : Assembler) (readId0 strand0 : Nat)
    (continuation : List StoredAlignmentInformation → Except Failure β) : Except Failure β :=
  let orientedReadId0 := OrientedReadId.ofReadIdStrand readId0 strand0
  match getStoredAlignments assembler orientedReadId0 with
  | .error e => .error e
  | .ok alignments =>
    match checkAllStrictlyIncreasing alignments with
    | .error e => .error e
    | .ok _ => continuation alignments

/-! ## Predicates used in the statements -/

/-- Both columns strictly increase across consecutive entries. -/
def StrictlyIncreasing : List (Nat × Nat) → Prop
  | [] => True
  | [_] => True
  | previous :: current :: rest =>
    (previous.1 < current.1 ∧ previous.2 < current.2) ∧ StrictlyIncreasing (current :: rest)

/-- Strict increase of both columns can be decided entry by entry. -/
def StrictlyIncreasing.decide : (ordinals : List (Nat × Nat)) →
    Decidable (StrictlyIncreasing ordinals)
  | [] => isTrue trivial
  | [_] => isTrue trivial
  | previous :: current :: rest =>
    have := StrictlyIncreasing.decide (current :: rest)
    inferInstanceAs (Decidable
      ((previous.1 < current.1 ∧ previous.2 < current.2) ∧
        StrictlyIncreasing (current :: rest)))

instance (ordinals : List (Nat × Nat)) : Decidable (StrictlyIncreasing ordinals) :=
  StrictlyIncreasing.decide ordinals

/-- The list of oriented reads is strictly increasing under `operator<`. -/
def SortedIds : List OrientedReadId → Prop
  | [] => True
  | [_] => True
  | previous :: current :: rest => previous < current ∧ SortedIds (current :: rest)

/-- Sortedness of a list of oriented reads can be decided entry by entry. -/
def SortedIds.decide : (orientedReadIds1 : List OrientedReadId) →
    Decidable (SortedIds orientedReadIds1)
  | [] => isTrue trivial
  | [_] => isTrue trivial
  | previous :: current :: rest =>
    have := SortedIds.decide (current :: rest)
    inferInstanceAs (Decidable (previous < current ∧ SortedIds (current :: rest)))

instance (orientedReadIds1 : List OrientedReadId) : Decidable (SortedIds orientedReadIds1) :=
  SortedIds.decide orientedReadIds1

/-- A small store used for the concrete instances: reads 0, 1, 2 with 5, 4 and 6 markers
on either strand, alignment 0 between reads 0 and 1 (same strand) and alignment 1 between
reads 2 and 0 (opposite strands). -/
def exampleAssembler : Assembler where
  markersAreOpen := true
  alignmentDataAreOpen := true
  compressedAlignmentsAreOpen := true
  markersSize := fun i => if i / 2 = 0 then 5 else if i / 2 = 1 then 4 else 6
  alignmentTable := fun i => if i / 2 = 0 then [0, 1] else if i / 2 = 1 then [0] else [1]
  alignmentData := fun i =>
    if i = 0 then { readIds := (0, 1), isSameStrand := true, markerCount := 3 }
    else { readIds := (2, 0), isSameStrand := false, markerCount := 2 }
  decompressed := fun i => if i = 0 then [(0, 1), (2, 2), (4, 3)] else [(1, 0), (5, 3)]

/-- Every pair of `ordinals` is below the marker counts `uint32_t(markers.size(...))` of
the two oriented reads `ids`, first coordinate against the first read and second against
the second. -/
def OrdinalsInRange (assembler : Assembler) (ids : OrientedReadId × OrientedReadId)
    (ordinals : List (Nat × Nat)) : Prop :=
  ∀ o ∈ ordinals, o.1 < assembler.markerCount ids.1 ∧ o.2 < assembler.markerCount ids.2

instance (assembler : Assembler) (ids : OrientedReadId × OrientedReadId)
    (ordinals : List (Nat × Nat)) : Decidable (OrdinalsInRange assembler ids ordinals) :=
  inferInstanceAs (Decidable (∀ o ∈ ordinals, _))

/-- The inverse of the transform computed by `getStoredAlignments`, in the words of the
round-trip property: undo the reverse complement with the same two marker counts if it
was applied, then undo the swap if it was applied. -/
def inverseTransform (doSwap doReverseComplement : Bool) (markerCount0 markerCount1 : Nat)
    (alignment : Alignment) : Alignment :=
  let alignment :=
    if doReverseComplement then alignment.reverseComplement markerCount0 markerCount1
    else alignment
  if doSwap then alignment.swap else alignment

/-- Every ordinal of the list fits in a `uint32_t`. -/
def OrdinalsAreUint32 (ordinals : List (Nat × Nat)) : Prop :=
  ∀ o ∈ ordinals, o.1 < 2 ^ 32 ∧ o.2 < 2 ^ 32

instance (ordinals : List (Nat × Nat)) : Decidable (OrdinalsAreUint32 ordinals) :=
  inferInstanceAs (Decidable (∀ o ∈ ordinals, _))

/-- The example store with a corrupted record: the metadata of alignment 0 says 4 markers
while its decompressed list has 3 pairs. -/
def mismatchAssembler : Assembler :=
  { exampleAssembler with
    alignmentData := fun i =>
      if i = 0 then { readIds := (0, 1), isSameStrand := true, markerCount := 4 }
      else { readIds := (2, 0), isSameStrand := false, markerCount := 2 } }

/-- The example store with a crossing record: the second and third pair of alignment 0
are out of order in the first coordinate. -/
def crossingAssembler : Assembler :=
  { exampleAssembler with
    decompressed := fun i => if i = 0 then [(0, 1), (4, 2), (2, 3)] else [(1, 0), (5, 3)] }

/-- The example store with an ordinal out of range: the last pair of alignment 0 refers to
marker 7 of read 0, which has 5 markers. -/
def outOfRangeAssembler : Assembler :=
  { exampleAssembler with
    decompressed := fun i => if i = 0 then [(0, 1), (2, 2), (7, 3)] else [(1, 0), (5, 3)] }

/-- The example store with a second ordinal out of range: the last pair of alignment 0
refers to marker 9 of read 1, which has 4 markers. -/
def secondOutOfRangeAssembler : Assembler :=
  { exampleAssembler with
    decompressed := fun i => if i = 0 then [(0, 1), (2, 2), (4, 9)] else [(1, 0), (5, 3)] }

/-- The example store with an out-of-order record whose first ordinal 7 is out of range:
reads of 5 markers, alignment 0 between reads 0 and 1 on the same strand, stored as
`[(7, 0), (2, 1)]`. -/
def wrapAssembler : Assembler where
  markersAreOpen := true
  alignmentDataAreOpen := true
  compressedAlignmentsAreOpen := true
  markersSize := fun _ => 5
  alignmentTable := fun _ => [0]
  alignmentData := fun _ => { readIds := (0, 1), isSameStrand := true, markerCount := 2 }
  decompressed := fun _ => [(7, 0), (2, 1)]

/-! ## `AnalyzeAlignments2Graph::removeLowCoverageVertices` -/

/-- A vertex of the De Bruijn graph, as far as the embedded code reads it: its id and its
occurrence list of (SequenceId, local ordinal). -/
structure DeBruijnVertex where
  vertexId : Nat
  occurrences : List (Nat × Nat)
deriving DecidableEq, Repr

/-- The graph `AnalyzeAlignments2Graph`: its vertices, and its edges as pairs of vertex
ids. -/
structure AnalyzeAlignments2Graph where
  vertices : List DeBruijnVertex
  edges : List (Nat × Nat)
deriving DecidableEq, Repr

/-- The array `coveragePerStrand` after the loop over the occurrences of a vertex: the
number of occurrences counted for strand 0 and for strand 1. -/
def coveragePerStrand (orientedReadIds : List OrientedReadId)
    (occurrences : List (Nat × Nat)) : Nat × Nat :=
  occurrences.foldl
    (fun coverage p =>
      let sequenceId := p.1
      let orientedReadId := orientedReadIds.getD sequenceId ⟨0⟩
      if orientedReadId.getStrand = 0 then (coverage.1 + 1, coverage.2)
      else (coverage.1, coverage.2 + 1))
    (0, 0)

/-- The entry `coveragePerStrand[strand]` of the two-entry array. -/
def coverageOfStrand (coverage : Nat × Nat) (strand : Nat) : Nat :=
  if strand = 0 then coverage.1 else coverage.2

/-- The test that puts a vertex in `verticesTobeRemoved`. -/
def isLowCoverageVertex (minTotalCoverage minSameStrandCoverage minOppositeStrandCoverage : Nat)
    (orientedReadIds : List OrientedReadId) (v : DeBruijnVertex) : Bool :=
  let strand0 := (orientedReadIds.getLastD ⟨0⟩).getStrand
  if v.occurrences.length < minTotalCoverage then true
  else
    let coverage := coveragePerStrand orientedReadIds v.occurrences
    decide (coverageOfStrand coverage strand0 < minSameStrandCoverage) ||
      decide (coverageOfStrand coverage (1 - strand0) < minOppositeStrandCoverage)

/-- The calls `clear_vertex(v, graph); remove_vertex(v, graph);`. -/
def removeVertex (graph : AnalyzeAlignments2Graph) (v : DeBruijnVertex) :
    AnalyzeAlignments2Graph :=
  { vertices := graph.vertices.erase v
    edges := graph.edges.filter fun e => e.1 ≠ v.vertexId ∧ e.2 ≠ v.vertexId }

/-- The method `AnalyzeAlignments2Graph::removeLowCoverageVertices`: gather the vertices
to be removed, then remove them one by one. -/
def removeLowCoverageVertices (graph : AnalyzeAlignments2Graph)
    (minTotalCoverage minSameStrandCoverage minOppositeStrandCoverage : Nat)
    (orientedReadIds : List OrientedReadId) : AnalyzeAlignments2Graph :=
  let verticesTobeRemoved :=
    graph.vertices.filter
      (isLowCoverageVertex minTotalCoverage minSameStrandCoverage minOppositeStrandCoverage
        orientedReadIds)
  verticesTobeRemoved.foldl removeVertex graph

/-- The number of occurrences of a vertex whose owning oriented read is on the given
strand. -/
def occurrencesOnStrand (orientedReadIds : List OrientedReadId) (strand : Nat)
    (v : DeBruijnVertex) : Nat :=
  (v.occurrences.filter fun p => (orientedReadIds.getD p.1 ⟨0⟩).getStrand = strand).length

/-- The strand of the query: the strand of the last entry of `orientedReadIds`. -/
def queryStrand (orientedReadIds : List OrientedReadId) : Nat :=
  (orientedReadIds.getLastD ⟨0⟩).getStrand

/-- A small graph for the concrete instances, for the oriented reads `[1, 3, 4, 0]` (two
neighbors on strand 1, one on strand 0, the query on strand 0): vertex 0 has
occurrences of both strands, vertex 1 only of the opposite strand, vertex 2 only of the
strand of the query. -/
def exampleGraph : AnalyzeAlignments2Graph where
  vertices :=
    [{ vertexId := 0, occurrences := [(0, 0), (1, 0), (2, 0), (3, 0)] },
     { vertexId := 1, occurrences := [(0, 1), (1, 1)] },
     { vertexId := 2, occurrences := [(2, 1), (3, 1)] }]
  edges := []

/-! ## `Assembler::analyzeAlignments2`: signatures, branch matrices, edge table -/

/-- The pairs `(sequenceId0, sequenceId1)` visited by the nested loops
`for(sequenceId0=0; sequenceId0<n; ...) for(sequenceId1=sequenceId0+1; sequenceId1<n; ...)`,
in the order of the visits. -/
def sequencePairs (n : Nat) : List (Nat × Nat) :=
  (List.range n).flatMap fun sequenceId0 =>
    (List.range' (sequenceId0 + 1) (n - (sequenceId0 + 1))).map fun sequenceId1 =>
      (sequenceId0, sequenceId1)

/-- The entry `signature[sequenceId]`; a signature has one entry per sequence, and an
index past its end reads as -1 (absent). -/
def signatureAt (signature : List Int) (sequenceId : Nat) : Int :=
  signature.getD sequenceId (-1)

/-- The loop over the signatures for one pair of sequences: the final
`(sameBranchCount, differentBranchCount)`. -/
def countBranches (signatures : List (List Int)) (sequenceId0 sequenceId1 : Nat) : Nat × Nat :=
  signatures.foldl
    (fun counts signature =>
      let s0 := signatureAt signature sequenceId0
      let s1 := signatureAt signature sequenceId1
      if s0 < 0 ∨ s1 < 0 then counts
      else if s0 = s1 then (counts.1 + 1, counts.2)
      else (counts.1, counts.2 + 1))
    (0, 0)

/-- The assignment `matrix[i][j] = value`. -/
def setEntry (matrix : List (List Nat)) (i j value : Nat) : List (List Nat) :=
  matrix.set i ((matrix.getD i []).set j value)

/-- The entry `matrix[i][j]`; outside the matrix it reads as 0. -/
def entry (matrix : List (List Nat)) (i j : Nat) : Nat :=
  (matrix.getD i []).getD j 0

/-- The body of the nested loops that fill `sameBranchMatrix` and
`differentBranchMatrix`, for one pair of sequences. -/
def branchMatricesStep (signatures : List (List Int))
    (matrices : List (List Nat) × List (List Nat)) (pair : Nat × Nat) :
    List (List Nat) × List (List Nat) :=
  let sequenceId0 := pair.1
  let sequenceId1 := pair.2
  let counts := countBranches signatures sequenceId0 sequenceId1
  (setEntry (setEntry matrices.1 sequenceId0 sequenceId1 counts.1)
      sequenceId1 sequenceId0 counts.1,
   setEntry (setEntry matrices.2 sequenceId0 sequenceId1 counts.2)
      sequenceId1 sequenceId0 counts.2)

/-- The pair `(sameBranchMatrix, differentBranchMatrix)` that `analyzeAlignments2`
computes from the signatures, for `n` sequences: two `n` by `n` matrices of zeros, filled
by the nested loops. -/
def branchMatrices (signatures : List (List Int)) (n : Nat) :
    List (List Nat) × List (List Nat) :=
  (sequencePairs n).foldl (branchMatricesStep signatures)
    (List.replicate n (List.replicate n 0), List.replicate n (List.replicate n 0))

/-- The number of bubbles in which both sequences have a non-negative branch index and the
two indices are equal. -/
def sameBranchCount (signatures : List (List Int)) (a b : Nat) : Nat :=
  (signatures.filter fun signature =>
    decide (0 ≤ signatureAt signature a ∧ 0 ≤ signatureAt signature b ∧
      signatureAt signature a = signatureAt signature b)).length

/-- The number of bubbles in which both sequences have a non-negative branch index and the
two indices differ. -/
def differentBranchCount (signatures : List (List Int)) (a b : Nat) : Nat :=
  (signatures.filter fun signature =>
    decide (0 ≤ signatureAt signature a ∧ 0 ≤ signatureAt signature b ∧
      signatureAt signature a ≠ signatureAt signature b)).length

/-- The value `double(sameBranchCount) / double(totalCount)` written to the similarity
matrix, in exact arithmetic; `none` stands for the not-a-number that the division of zero
by zero gives. -/
def similarity (sameBranchCount differentBranchCount : Nat) : Option ℚ :=
  let totalCount := sameBranchCount + differentBranchCount
  if totalCount = 0 then none else some ((sameBranchCount : ℚ) / (totalCount : ℚ))

/-- The matrix has `n` rows of `n` entries. -/
def IsSquare (n : Nat) (matrix : List (List Nat)) : Prop :=
  matrix.length = n ∧ ∀ row ∈ matrix, row.length = n

/-- The conversion `int64_t(x)` of a `uint64_t`. -/
def toInt64 (x : Nat) : Int :=
  if x % 2 ^ 64 < 2 ^ 63 then ((x % 2 ^ 64 : Nat) : Int)
  else ((x % 2 ^ 64 : Nat) : Int) - 2 ^ 64

/-- The value `delta = int64_t(sameBranchCount) - int64_t(differentBranchCount)` of a pair
of sequences. -/
def edgeDelta (sameBranchMatrix differentBranchMatrix : List (List Nat))
    (sequenceId0 sequenceId1 : Nat) : Int :=
  let sameBranchCount := entry sameBranchMatrix sequenceId0 sequenceId1
  let differentBranchCount := entry differentBranchMatrix sequenceId0 sequenceId1
  toInt64 sameBranchCount - toInt64 differentBranchCount

/-- The vector `edgeTable` after the nested loops, before it is sorted: one entry
`(delta, (sequenceId0, sequenceId1))` per visited pair. -/
def edgeTableUnsorted (sameBranchMatrix differentBranchMatrix : List (List Nat)) (n : Nat) :
    List (Int × (Nat × Nat)) :=
  (sequencePairs n).map fun pair =>
    (edgeDelta sameBranchMatrix differentBranchMatrix pair.1 pair.2, pair)

/-- The comparison `std::greater` of two entries of the edge table: `operator>` of
`std::pair`, which is lexicographic. -/
def edgeGreater (x y : Int × (Nat × Nat)) : Prop :=
  y.1 < x.1 ∨ (y.1 = x.1 ∧ (y.2.1 < x.2.1 ∨ (y.2.1 = x.2.1 ∧ y.2.2 < x.2.2)))

instance (x y : Int × (Nat × Nat)) : Decidable (edgeGreater x y) :=
  inferInstanceAs (Decidable (_ ∨ _))

/-- The order in which `std::sort` with `std::greater` leaves two entries: the second is
not greater than the first. -/
def edgeNotLess (x y : Int × (Nat × Nat)) : Prop := ¬ edgeGreater y x

instance (x y : Int × (Nat × Nat)) : Decidable (edgeNotLess x y) :=
  inferInstanceAs (Decidable (¬ _))

/-- The edge table after `std::sort(edgeTable.begin(), edgeTable.end(), std::greater())`.
The standard library only promises a sorted permutation; the entries are pairwise
different and the order is total, so there is exactly one, computed here by insertion. -/
def edgeTableSorted (sameBranchMatrix differentBranchMatrix : List (List Nat)) (n : Nat) :
    List (Int × (Nat × Nat)) :=
  List.insertionSort edgeNotLess (edgeTableUnsorted sameBranchMatrix differentBranchMatrix n)

/-- The edge table that `analyzeAlignments2` keeps: sorted, then cut to
`keepCount = neighborCount * n / 2` entries when it has more. -/
def edgeTable (neighborCount : Nat) (sameBranchMatrix differentBranchMatrix : List (List Nat))
    (n : Nat) : List (Int × (Nat × Nat)) :=
  let sorted := edgeTableSorted sameBranchMatrix differentBranchMatrix n
  let keepCount := neighborCount * n / 2
  if sorted.length > keepCount then sorted.take keepCount else sorted

/-- Two signatures over five sequences, for the concrete instances. -/
def exampleSignatures : List (List Int) := [[0, 0, 1, -1, 0], [1, 0, 1, 0, -1]]

/-! ## The coverage histograms of `Assembler::analyzeAlignments1` -/

/-- The scale of the representation of doubles: a finite non-negative IEEE 754 double `d`
is the natural number `d * 2^1074` (every such double is a multiple of `2^-1074`). -/
def doubleScale : Nat := 2 ^ 1074

/-- The loop that computes the position of the leading bit of `n`, with `fuel` steps. -/
def floorLog2Loop : Nat → Nat → Nat
  | 0, _ => 0
  | fuel + 1, n => if n < 2 then 0 else floorLog2Loop fuel (n / 2) + 1

/-- The position of the leading bit of `n` (0 for `n = 0`). -/
def floorLog2 (n : Nat) : Nat := floorLog2Loop n n

/-- The natural number nearest to `numerator / denominator` among those that represent a
double, ties to the even significand: the quotient is cut to 53 significant bits (to a
multiple of `unit`) and rounded. This is the rounding of every double operation whose
exact result is that quotient of scaled values; results above the largest double do not
occur in the embedded code. -/
def roundQuotient (numerator denominator : Nat) : Nat :=
  let unit := 2 ^ (floorLog2 (numerator / denominator) - 52)
  let divisor := denominator * unit
  let quotient := numerator / divisor
  let remainder := numerator % divisor
  (if 2 * remainder > divisor ∨ (2 * remainder = divisor ∧ quotient % 2 = 1) then quotient + 1
    else quotient) * unit

/-- The conversion `double(x)` of a `uint64_t`. -/
def toDouble (x : Nat) : Nat := roundQuotient (x * doubleScale) 1

/-- The division `x / y` of two doubles, for `y` not zero. -/
def doubleDiv (x y : Nat) : Nat := roundQuotient (x * doubleScale) y

/-- The conversion `uint64_t(x)` of a double below 2^64: the integer part. -/
def doubleToUint64 (x : Nat) : Nat := x / doubleScale

/-- The coverage ratio that the histogram loop computes, a double:
`(rc==0 ? 0. : double(c) / double(rc))`. -/
def coverageRatio (c rc : Nat) : Nat :=
  if rc = 0 then 0 else doubleDiv (toDouble c) (toDouble rc)

/-- The constant `binCount`. -/
def binCount : Nat := 10

/-- The constant `binSize = 1. / double(binCount)`, a double. -/
def binSize : Nat := doubleDiv (toDouble 1) (toDouble binCount)

/-- The bin index `uint64_t(r/binSize)` of a ratio. -/
def ratioBin (r : Nat) : Nat := doubleToUint64 (doubleDiv r binSize)

/-- The natural number represents a double: a significand below 2^53 times a power of
two. -/
def IsDouble (x : Nat) : Prop :=
  ∃ mantissa exponent, x = mantissa * 2 ^ exponent ∧ mantissa < 2 ^ 53

/-- The increment `++matrix[i][j]`. -/
def incrementEntry (matrix : List (List Nat)) (i j : Nat) : List (List Nat) :=
  setEntry matrix i j (entry matrix i j + 1)

/-- The body of the histogram loop for one ordinal, given its `coverage[ordinal0]` and
`rangeCoverage[ordinal0]` (entry 0: same strand, entry 1: opposite strands); the state is
`(histogram, ratioHistogram)`. -/
def histogramStep (state : List (List Nat) × List (List Nat))
    (coverage rangeCoverage : Nat × Nat) :
    Except Failure (List (List Nat) × List (List Nat)) :=
  let cSameStrand := coverage.1
  let cOppositeStrand := coverage.2
  let c := cSameStrand + cOppositeStrand
  let rcSameStrand := rangeCoverage.1
  let rcOppositeStrand := rangeCoverage.2
  let rc := rcSameStrand + rcOppositeStrand
  let rSameStrand := coverageRatio cSameStrand rcSameStrand
  let rOppositeStrand := coverageRatio cOppositeStrand rcOppositeStrand
  let r := coverageRatio c rc
  let irSameStrand := ratioBin rSameStrand
  let irOppositeStrand := ratioBin rOppositeStrand
  let ir := ratioBin r
  if ¬ cSameStrand ≤ rcSameStrand then .error .coverageAboveRangeCoverage
  else if ¬ cOppositeStrand ≤ rcOppositeStrand then .error .coverageAboveRangeCoverage
  else
    let histogram :=
      if state.1.length ≤ rc then
        state.1 ++ List.replicate (rc + 1 - state.1.length) [0, 0, 0, 0, 0, 0]
      else state.1
    let histogram := incrementEntry histogram c 0
    let histogram := incrementEntry histogram cSameStrand 1
    let histogram := incrementEntry histogram cOppositeStrand 2
    let histogram := incrementEntry histogram rc 3
    let histogram := incrementEntry histogram rcSameStrand 4
    let histogram := incrementEntry histogram rcOppositeStrand 5
    let ratioHistogram := incrementEntry state.2 ir 0
    let ratioHistogram := incrementEntry ratioHistogram irSameStrand 1
    let ratioHistogram := incrementEntry ratioHistogram irOppositeStrand 2
    .ok (histogram, ratioHistogram)

/-- The histogram loop over the ordinals of the query, given the two arrays `coverage` and
`rangeCoverage` (one entry per ordinal). -/
def histogramLoop :
    List ((Nat × Nat) × (Nat × Nat)) → List (List Nat) × List (List Nat) →
    Except Failure (List (List Nat) × List (List Nat))
  | [], state => .ok state
  | ordinal :: rest, state =>
    match histogramStep state ordinal.1 ordinal.2 with
    | .error e => .error e
    | .ok state => histogramLoop rest state

/-- The pair `(histogram, ratioHistogram)` that `analyzeAlignments1` computes from
`coverage` and `rangeCoverage`: `histogram` starts empty and `ratioHistogram` with
`binCount + 1` rows of zeros. -/
def coverageHistograms (coverage rangeCoverage : List (Nat × Nat)) :
    Except Failure (List (List Nat) × List (List Nat)) :=
  histogramLoop (coverage.zip rangeCoverage) ([], List.replicate (binCount + 1) [0, 0, 0])

/-! ## The signature of an incompatible vertex set -/

/-- The loop over the occurrences of the vertex `branch` of an incompatible vertex set,
which updates the signature. -/
def signatureVertexLoop (branch : Nat) :
    List (Nat × Nat) → List Int → Except Failure (List Int)
  | [], signature => .ok signature
  | p :: rest, signature =>
    let sequenceId := p.1
    let oldValue := signature.getD sequenceId (-1)
    if oldValue = -2 then signatureVertexLoop branch rest signature
    else if oldValue = -1 then
      signatureVertexLoop branch rest (signature.set sequenceId (branch : Int))
    else .error .sequenceInTwoBranches

/-- The loop over the vertices of an incompatible vertex set, given by their occurrence
lists, from the vertex of index `branch` on. -/
def signatureBranchLoop :
    Nat → List (List (Nat × Nat)) → List Int → Except Failure (List Int)
  | _, [], signature => .ok signature
  | branch, occurrences :: rest, signature =>
    match signatureVertexLoop branch occurrences signature with
    | .error e => .error e
    | .ok signature => signatureBranchLoop (branch + 1) rest signature

/-- The signature that `analyzeAlignments2` constructs for one incompatible vertex set and
`n` sequences: it starts with -1 everywhere. The number of vertices fits in `int64_t`. -/
def buildSignature (n : Nat) (incompatibleVertexVector : List (List (Nat × Nat))) :
    Except Failure (List Int) :=
  signatureBranchLoop 0 incompatibleVertexVector (List.replicate n (-1))

/-- The sequence ids met by the signature construction, in the order of the two nested
loops, each with the index of the vertex in which it is met, starting at index `branch`. -/
def taggedSequenceIds : Nat → List (List (Nat × Nat)) → List (Nat × Nat)
  | _, [] => []
  | branch, occurrences :: rest =>
    (occurrences.map fun p => (p.1, branch)) ++ taggedSequenceIds (branch + 1) rest

/-- The signature `signature` records exactly the visits `seen` (sequence id, vertex
index): -1 for a sequence that was not met, the vertex index for one that was. -/
def Records (n : Nat) (seen : List (Nat × Nat)) (signature : List Int) : Prop :=
  signature.length = n ∧
  ∀ s, s < n →
    (s ∉ seen.map Prod.fst → signature.getD s (-1) = -1) ∧
    (∀ branch, (s, branch) ∈ seen → signature.getD s (-1) = (branch : Int))

/-! ## `Assembler::analyzeAlignments3`: the sequences and the two merge passes -/

/-- The value `alignment.ordinals.front()[1]`; `front()` of an empty vector is undefined
and reads as 0 here. -/
def neighborFirstOrdinal (alignment : Alignment) : Nat :=
  (alignment.ordinals.head?.getD (0, 0)).2

/-- The value `alignment.ordinals.back()[1]`; `back()` of an empty vector is undefined
and reads as 0 here. -/
def neighborLastOrdinal (alignment : Alignment) : Nat :=
  (alignment.ordinals.getLast?.getD (0, 0)).2

/-- The sequence gathered for one aligned oriented read: `last1 + 1 - first1` marker
tokens (`uint32_t` arithmetic) of the partner, from ordinal `first1` on. -/
def neighborSequence (assembler : Assembler) (info : StoredAlignmentInformation) : List Nat :=
  let orientedReadId1 := info.orientedReadId
  let first1 := neighborFirstOrdinal info.alignment
  let last1 := neighborLastOrdinal info.alignment
  (List.range (sub32 (last1 + 1) first1)).map fun i =>
    assembler.markerKmerId orientedReadId1.getValue (first1 + i)

/-- The four vectors that `analyzeAlignments3` gathers before it creates the graph. -/
structure MiniAssemblySequences where
  sequences : List (List Nat)
  orientedReadIds : List OrientedReadId
  firstOrdinals : List Nat
  lastOrdinals : List Nat
deriving DecidableEq, Repr

/-- The gathering of the sequences in `analyzeAlignments3`: one entry per alignment, in
the order of the alignments, then the entry of the query, which holds all its markers
(their number fits in a `uint32_t`). -/
def gatherSequences (assembler : Assembler) (orientedReadId0 : OrientedReadId)
    (alignments : List StoredAlignmentInformation) : MiniAssemblySequences :=
  let markerCount0 := assembler.markersSize orientedReadId0.getValue
  { sequences :=
      alignments.map (neighborSequence assembler) ++
        [(List.range markerCount0).map fun ordinal =>
          assembler.markerKmerId orientedReadId0.getValue ordinal]
    orientedReadIds := alignments.map (fun info => info.orientedReadId) ++ [orientedReadId0]
    firstOrdinals := alignments.map (fun info => neighborFirstOrdinal info.alignment) ++ [0]
    lastOrdinals :=
      alignments.map (fun info => neighborLastOrdinal info.alignment) ++
        [sub32 markerCount0 1] }

/-- One call `graph.merge(sequenceId0, sequenceId1, v)`; the class
`MiniAssemblyMarkerGraph` is not embedded, its merges are recorded in order. -/
structure MergeCall where
  sequenceId0 : Nat
  sequenceId1 : Nat
  pairs : List (Nat × Nat)
deriving DecidableEq, Repr

/-- The test of the assertion that two markers carry the same `kmerId`. -/
def sameKmerId (assembler : Assembler) (orientedReadIds : List OrientedReadId)
    (sequenceIdA sequenceIdB ordinalA ordinalB : Nat) : Bool :=
  decide (assembler.markerKmerId (orientedReadIds.getD sequenceIdA ⟨0⟩).getValue ordinalA =
    assembler.markerKmerId (orientedReadIds.getD sequenceIdB ⟨0⟩).getValue ordinalB)

/-- The inner loop of the first merge pass: the vector `v` built from the ordinal pairs of
one alignment of the query, relative to the start of each sequence. -/
def pass1Pairs (assembler : Assembler) (orientedReadIds : List OrientedReadId)
    (firstOrdinals : List Nat) (sequenceId0 sequenceId1 : Nat) :
    List (Nat × Nat) → Except Failure (List (Nat × Nat))
  | [] => .ok []
  | ordinals :: rest =>
    if !sameKmerId assembler orientedReadIds sequenceId0 sequenceId1 ordinals.1 ordinals.2 then
      .error .kmerIdMismatch
    else
      match pass1Pairs assembler orientedReadIds firstOrdinals sequenceId0 sequenceId1 rest with
      | .error e => .error e
      | .ok v =>
        .ok ((sub32 ordinals.1 (firstOrdinals.getD sequenceId0 0),
              sub32 ordinals.2 (firstOrdinals.getD sequenceId1 0)) :: v)

/-- The first merge pass, from the alignment of index `sequenceId1` on: the query against
every aligned oriented read. -/
def pass1Loop (assembler : Assembler) (orientedReadIds : List OrientedReadId)
    (firstOrdinals : List Nat) (sequenceId0 : Nat) :
    List StoredAlignmentInformation → Nat → Except Failure (List MergeCall)
  | [], _ => .ok []
  | info :: rest, sequenceId1 =>
    match pass1Pairs assembler orientedReadIds firstOrdinals sequenceId0 sequenceId1
        info.alignment.ordinals with
    | .error e => .error e
    | .ok v =>
      match pass1Loop assembler orientedReadIds firstOrdinals sequenceId0 rest
          (sequenceId1 + 1) with
      | .error e => .error e
      | .ok merges => .ok (⟨sequenceId0, sequenceId1, v⟩ :: merges)

/-- The inner loop of the second merge pass: the vector `v` built from the ordinal pairs of
one alignment between two aligned oriented reads, without the pairs outside the portion of
either sequence. -/
def pass2Pairs (assembler : Assembler) (orientedReadIds : List OrientedReadId)
    (firstOrdinals lastOrdinals : List Nat) (sequenceId1 sequenceId2 : Nat) :
    List (Nat × Nat) → Except Failure (List (Nat × Nat))
  | [] => .ok []
  | ordinals :: rest =>
    if ordinals.1 < firstOrdinals.getD sequenceId1 0 then
      pass2Pairs assembler orientedReadIds firstOrdinals lastOrdinals sequenceId1 sequenceId2 rest
    else if ordinals.2 < firstOrdinals.getD sequenceId2 0 then
      pass2Pairs assembler orientedReadIds firstOrdinals lastOrdinals sequenceId1 sequenceId2 rest
    else if ordinals.1 > lastOrdinals.getD sequenceId1 0 then
      pass2Pairs assembler orientedReadIds firstOrdinals lastOrdinals sequenceId1 sequenceId2 rest
    else if ordinals.2 > lastOrdinals.getD sequenceId2 0 then
      pass2Pairs assembler orientedReadIds firstOrdinals lastOrdinals sequenceId1 sequenceId2 rest
    else if !sameKmerId assembler orientedReadIds sequenceId1 sequenceId2
        ordinals.1 ordinals.2 then
      .error .kmerIdMismatch
    else
      match pass2Pairs assembler orientedReadIds firstOrdinals lastOrdinals sequenceId1
          sequenceId2 rest with
      | .error e => .error e
      | .ok v =>
        .ok ((sub32 ordinals.1 (firstOrdinals.getD sequenceId1 0),
              sub32 ordinals.2 (firstOrdinals.getD sequenceId2 0)) :: v)

/-- The loop of the second merge pass over the alignments returned for the aligned
oriented read `sequenceId1`: look up the sequence of the partner, then merge. -/
def pass2Alignments (assembler : Assembler) (orientedReadIds : List OrientedReadId)
    (firstOrdinals lastOrdinals : List Nat) (sequenceId1 : Nat) :
    List StoredAlignmentInformation → Except Failure (List MergeCall)
  | [] => .ok []
  | storedAlignment :: rest =>
    let orientedReadId2 := storedAlignment.orientedReadId
    let sequenceId2 := lowerBound orientedReadIds orientedReadId2
    if sequenceId2 = orientedReadIds.length then .error .sequenceNotFound
    else
      match pass2Pairs assembler orientedReadIds firstOrdinals lastOrdinals sequenceId1
          sequenceId2 storedAlignment.alignment.ordinals with
      | .error e => .error e
      | .ok v =>
        match pass2Alignments assembler orientedReadIds firstOrdinals lastOrdinals
            sequenceId1 rest with
        | .error e => .error e
        | .ok merges => .ok (⟨sequenceId1, sequenceId2, v⟩ :: merges)

/-- The loop of the second merge pass, from `sequenceId1` on; `remaining` is
`orientedReadIds` from index `sequenceId1` on. The loop continues while
`sequenceId1 < alignments.size()`, where `alignments` is the vector that the call of
`getStoredAlignments` inside the loop overwrites. Past the end of `orientedReadIds` the
read `orientedReadIds[sequenceId1]` is undefined; the embedding stops there. -/
def pass2Loop (assembler : Assembler) (orientedReadIds : List OrientedReadId)
    (firstOrdinals lastOrdinals : List Nat) :
    List OrientedReadId → Nat → List StoredAlignmentInformation →
    Except Failure (List MergeCall)
  | [], _, _ => .ok []
  | orientedReadId1 :: remaining, sequenceId1, alignments =>
    if sequenceId1 < alignments.length then
      match getStoredAlignmentsFiltered assembler orientedReadId1 orientedReadIds with
      | .error e => .error e
      | .ok alignments =>
        match pass2Alignments assembler orientedReadIds firstOrdinals lastOrdinals
            sequenceId1 alignments with
        | .error e => .error e
        | .ok merges =>
          match pass2Loop assembler orientedReadIds firstOrdinals lastOrdinals remaining
              (sequenceId1 + 1) alignments with
          | .error e => .error e
          | .ok moreMerges => .ok (merges ++ moreMerges)
    else .ok []

/-- The second merge pass of `analyzeAlignments3`: `orientedReadIds` is cut to the aligned
oriented reads, then the loop runs from `sequenceId1 = 0` with the alignments of the
query. -/
def mergePass2 (assembler : Assembler) (sequences : MiniAssemblySequences)
    (alignments : List StoredAlignmentInformation) : Except Failure (List MergeCall) :=
  let orientedReadIds := sequences.orientedReadIds.take alignments.length
  pass2Loop assembler orientedReadIds sequences.firstOrdinals sequences.lastOrdinals
    orientedReadIds 0 alignments

/-- The part of `analyzeAlignments3` from the gathering of the sequences to the end of the
second merge pass, as the list of the calls of `merge` in order. -/
def mergePasses (assembler : Assembler) (orientedReadId0 : OrientedReadId)
    (alignments : List StoredAlignmentInformation) : Except Failure (List MergeCall) :=
  let sequences := gatherSequences assembler orientedReadId0 alignments
  let sequenceId0 := sequences.sequences.length - 1
  match pass1Loop assembler sequences.orientedReadIds sequences.firstOrdinals sequenceId0
      alignments 0 with
  | .error e => .error e
  | .ok merges1 =>
    match mergePass2 assembler sequences alignments with
    | .error e => .error e
    | .ok merges2 => .ok (merges1 ++ merges2)

/-- The second merge pass in the words of the merge protocol: every aligned oriented read
`sequenceId1` in `0..n-1` is queried in the store, restricted to the aligned oriented
reads, and each returned alignment is merged. -/
def pass2WholeNeighborSet (assembler : Assembler) (orientedReadIds : List OrientedReadId)
    (firstOrdinals lastOrdinals : List Nat) :
    List OrientedReadId → Nat → Except Failure (List MergeCall)
  | [], _ => .ok []
  | orientedReadId1 :: remaining, sequenceId1 =>
    match getStoredAlignmentsFiltered assembler orientedReadId1 orientedReadIds with
    | .error e => .error e
    | .ok alignments =>
      match pass2Alignments assembler orientedReadIds firstOrdinals lastOrdinals
          sequenceId1 alignments with
      | .error e => .error e
      | .ok merges =>
        match pass2WholeNeighborSet assembler orientedReadIds firstOrdinals lastOrdinals
            remaining (sequenceId1 + 1) with
        | .error e => .error e
        | .ok moreMerges => .ok (merges ++ moreMerges)

/-- A store for the second merge pass: read 0 is aligned with reads 1, 2 and 3
(alignments 0, 1, 2), reads 2 and 3 are aligned with each other (alignment 3), read 1 with
no other read; all on the same strand, 5 markers per read, all markers with the same
`kmerId`. -/
def neighborsAssembler : Assembler where
  markersAreOpen := true
  alignmentDataAreOpen := true
  compressedAlignmentsAreOpen := true
  markersSize := fun _ => 5
  alignmentTable := fun i =>
    if i / 2 = 0 then [0, 1, 2] else if i / 2 = 1 then [0]
    else if i / 2 = 2 then [1, 3] else [2, 3]
  alignmentData := fun i =>
    if i = 0 then { readIds := (0, 1), isSameStrand := true, markerCount := 2 }
    else if i = 1 then { readIds := (0, 2), isSameStrand := true, markerCount := 2 }
    else if i = 2 then { readIds := (0, 3), isSameStrand := true, markerCount := 2 }
    else { readIds := (2, 3), isSameStrand := true, markerCount := 2 }
  decompressed := fun i => if i = 3 then [(1, 2), (2, 3)] else [(0, 1), (2, 3)]

/-! ## The merge passes: windows and test stores -/

/-- The window of the second merge pass as one condition: the pair lies within the
extracted portion of both sequences. The loop itself (`pass2Pairs`) makes four separate
tests. -/
def inWindow (firstOrdinals lastOrdinals : List Nat) (sequenceId1 sequenceId2 : Nat)
    (ordinals : Nat × Nat) : Bool :=
  decide (firstOrdinals.getD sequenceId1 0 ≤ ordinals.1 ∧
    ordinals.1 ≤ lastOrdinals.getD sequenceId1 0 ∧
    firstOrdinals.getD sequenceId2 0 ≤ ordinals.2 ∧
    ordinals.2 ≤ lastOrdinals.getD sequenceId2 0)

/-- The alignment of the query with an aligned oriented read is not empty, is strictly
increasing, and has its second ordinals below the marker count of the partner. -/
def GoodNeighbor (assembler : Assembler) (info : StoredAlignmentInformation) : Prop :=
  info.alignment.ordinals ≠ [] ∧ StrictlyIncreasing info.alignment.ordinals ∧
  ∀ o ∈ info.alignment.ordinals, o.2 < assembler.markerCount info.orientedReadId

instance (assembler : Assembler) (info : StoredAlignmentInformation) :
    Decidable (GoodNeighbor assembler info) :=
  inferInstanceAs (Decidable (_ ∧ _ ∧ ∀ o ∈ info.alignment.ordinals, _))
/-- A store in which the markers of read 1 carry another `kmerId` than those of read 0:
read 0 is aligned with read 1 (alignment 0) on the same strand, 5 markers per read. -/
def mismatchKmerAssembler : Assembler where
  markersAreOpen := true
  alignmentDataAreOpen := true
  compressedAlignmentsAreOpen := true
  markersSize := fun _ => 5
  alignmentTable := fun _ => [0]
  alignmentData := fun _ => { readIds := (0, 1), isSameStrand := true, markerCount := 2 }
  decompressed := fun _ => [(0, 1), (2, 3)]
  markerKmerId := fun orientedReadId _ => orientedReadId / 2

/-! ## `AnalyzeAlignments2Graph::createVertexCoverageHistograms` -/

/-- The steps `if(c >= histogram.size()) histogram.resize(c + 1, 0); ++histogram[c];` on a
histogram of `uint64_t` counters. -/
def incrementHistogram (histogram : List Nat) (c : Nat) : List Nat :=
  let resized :=
    if c ≥ histogram.length then histogram ++ List.replicate (c + 1 - histogram.length) 0
    else histogram
  resized.set c (resized.getD c 0 + 1)

/-- The three output vectors of `createVertexCoverageHistograms`. -/
structure VertexCoverageHistograms where
  totalCoverageHistogram : List Nat
  sameStrandCoverageHistogram : List Nat
  oppositeStrandCoverageHistogram : List Nat
deriving DecidableEq, Repr

/-- The body of the loop over the vertices in `createVertexCoverageHistograms`. -/
def vertexCoverageHistogramsStep (orientedReadIds : List OrientedReadId) (strand0 : Nat)
    (histograms : VertexCoverageHistograms) (v : DeBruijnVertex) :
    Except Failure VertexCoverageHistograms :=
  let totalCoverage := v.occurrences.length
  let totalCoverageHistogram :=
    incrementHistogram histograms.totalCoverageHistogram totalCoverage
  let coverage := coveragePerStrand orientedReadIds v.occurrences
  if coverage.1 + coverage.2 ≠ totalCoverage then .error .coveragePerStrandMismatch
  else
    .ok
      { totalCoverageHistogram := totalCoverageHistogram
        sameStrandCoverageHistogram :=
          incrementHistogram histograms.sameStrandCoverageHistogram
            (coverageOfStrand coverage strand0)
        oppositeStrandCoverageHistogram :=
          incrementHistogram histograms.oppositeStrandCoverageHistogram
            (coverageOfStrand coverage (1 - strand0)) }

/-- The loop `BGL_FORALL_VERTICES_T(v, graph, Graph)` of `createVertexCoverageHistograms`. -/
def vertexCoverageHistogramsLoop (orientedReadIds : List OrientedReadId) (strand0 : Nat) :
    List DeBruijnVertex → VertexCoverageHistograms → Except Failure VertexCoverageHistograms
  | [], histograms => .ok histograms
  | v :: rest, histograms =>
    match vertexCoverageHistogramsStep orientedReadIds strand0 histograms v with
    | .error e => .error e
    | .ok histograms => vertexCoverageHistogramsLoop orientedReadIds strand0 rest histograms

/-- The method `AnalyzeAlignments2Graph::createVertexCoverageHistograms`: the three
histograms are cleared, then filled vertex by vertex. The method is `const` and reads
`orientedReadIds` only, so the three histograms are all that it produces. -/
def createVertexCoverageHistograms (graph : AnalyzeAlignments2Graph)
    (orientedReadIds : List OrientedReadId) : Except Failure VertexCoverageHistograms :=
  let strand0 := (orientedReadIds.getLastD ⟨0⟩).getStrand
  vertexCoverageHistogramsLoop orientedReadIds strand0 graph.vertices
    { totalCoverageHistogram := []
      sameStrandCoverageHistogram := []
      oppositeStrandCoverageHistogram := [] }

/-! ## `InducedAlignment` -/

/-- The class `InducedAlignmentData`: a marker graph vertex and the ordinals of its
markers in the two oriented reads (`uint32_t`). -/
structure InducedAlignmentData where
  vertexId : Nat
  ordinal0 : Nat
  ordinal1 : Nat
deriving DecidableEq, Repr

/-- The operator `InducedAlignmentData::operator<`:
`tie(ordinal0, ordinal1) < tie(that.ordinal0, that.ordinal1)`, the lexicographic
comparison of tuples. -/
def InducedAlignmentData.less (self that : InducedAlignmentData) : Bool :=
  decide (self.ordinal0 < that.ordinal0) ||
    (!decide (that.ordinal0 < self.ordinal0) && decide (self.ordinal1 < that.ordinal1))

/-- The class `InducedAlignment`. -/
structure InducedAlignment where
  data : List InducedAlignmentData
deriving DecidableEq, Repr

/-- The order in which `std::sort` with `operator<` leaves two consecutive entries: the
second is not less than the first. -/
def InducedAlignmentData.notGreater (x y : InducedAlignmentData) : Prop :=
  y.less x = false

instance (x y : InducedAlignmentData) : Decidable (x.notGreater y) :=
  inferInstanceAs (Decidable (y.less x = false))

/-- The method `InducedAlignment::sort`, which is `std::sort(data.begin(), data.end())`.
The standard leaves the relative order of equivalent entries open; the embedding is the
insertion sort, which keeps it. -/
def InducedAlignment.sort (alignment : InducedAlignment) : InducedAlignment :=
  { data := alignment.data.insertionSort InducedAlignmentData.notGreater }

/-! ## The bubble summary of `Assembler::analyzeAlignments3` -/

/-- The entry `bubble.branchTable[sequenceId]` (an `int64_t`, negative for a sequence that
is absent from the bubble); a branch table has one entry per sequence, and an index past
its end reads as -1. -/
def branchTableAt (branchTable : List Int) (sequenceId : Nat) : Int :=
  branchTable.getD sequenceId (-1)

/-- The loop over the bubbles for one aligned oriented read: the final
`(sameCount, differentCount)`. The bubbles are given by their branch tables. -/
def bubbleCounts (bubbles : List (List Int)) (sequenceId0 sequenceId1 : Nat) : Nat × Nat :=
  bubbles.foldl
    (fun counts branchTable =>
      let branchId0 := branchTableAt branchTable sequenceId0
      if branchId0 < 0 then counts
      else
        let branchId1 := branchTableAt branchTable sequenceId1
        if branchId1 < 0 then counts
        else if branchId0 = branchId1 then (counts.1 + 1, counts.2)
        else (counts.1, counts.2 + 1))
    (0, 0)

/-- One line of `BubbleSummary.csv`, without the two ratios. -/
structure BubbleSummaryLine where
  sequenceId1 : Nat
  orientedReadId : OrientedReadId
  sameCount : Nat
  differentCount : Nat
  totalCount : Nat
deriving DecidableEq, Repr

/-- The lines of `BubbleSummary.csv`: one per sequence `sequenceId1` below
`orientedReadIds.size() - 1`, where `orientedReadIds` ends with the query (it is never
empty there) and `sequenceId0` is the sequence of the query. -/
def bubbleSummary (bubbles : List (List Int)) (orientedReadIds : List OrientedReadId)
    (sequenceId0 : Nat) : List BubbleSummaryLine :=
  (List.range (orientedReadIds.length - 1)).map fun sequenceId1 =>
    let counts := bubbleCounts bubbles sequenceId0 sequenceId1
    let sameCount := counts.1
    let differentCount := counts.2
    let totalCount := sameCount + differentCount
    { sequenceId1 := sequenceId1
      orientedReadId := orientedReadIds.getD sequenceId1 ⟨0⟩
      sameCount := sameCount
      differentCount := differentCount
      totalCount := totalCount }

/-- Two bubbles over four sequences (three aligned reads, then the query): in the first
the query is on branch 0 with sequence 0, sequence 1 is on branch 1 and sequence 2 is
absent; in the second the query is on branch 1 with sequence 1, sequence 2 is on branch 0
and sequence 0 is absent. -/
def exampleBubbles : List (List Int) := [[0, 1, -1, 0], [-1, 1, 0, 1]]

/-! ## The coverage loops of `Assembler::analyzeAlignments1` -/

/-- The value `strandIndex` of an alignment: 0 when the aligned oriented read is on the
strand of the query, 1 otherwise. -/
def strandIndex (orientedReadId0 orientedReadId1 : OrientedReadId) : Nat :=
  if orientedReadId0.getStrand = orientedReadId1.getStrand then 0 else 1

/-- The increment `++coverage[ordinal0][strandIndex]` on a `vector< array<uint32_t, 2> >`:
the counter wraps at 2^32. -/
def incrementCoverage (coverage : List (Nat × Nat)) (ordinal0 index : Nat) :
    List (Nat × Nat) :=
  let old := coverage.getD ordinal0 (0, 0)
  coverage.set ordinal0
    (if index = 0 then ((old.1 + 1) % 2 ^ 32, old.2) else (old.1, (old.2 + 1) % 2 ^ 32))

/-- The loop that updates `coverage` for one alignment, with its assertion
`SHASTA_ASSERT(ordinal0 < markerCount0)`. -/
def coverageOrdinalsLoop (markerCount0 index : Nat) :
    List (Nat × Nat) → List (Nat × Nat) → Except Failure (List (Nat × Nat))
  | [], coverage => .ok coverage
  | o :: rest, coverage =>
    if o.1 < markerCount0 then
      coverageOrdinalsLoop markerCount0 index rest (incrementCoverage coverage o.1 index)
    else .error .ordinalOutOfRange

/-- The value `alignment.ordinals.front()[0]`; `front()` of an empty vector is undefined
and reads as 0 here. -/
def firstOrdinal0 (alignment : Alignment) : Nat :=
  (alignment.ordinals.head?.getD (0, 0)).1

/-- The value `alignment.ordinals.back()[0]`; `back()` of an empty vector is undefined
and reads as 0 here. -/
def lastOrdinal0 (alignment : Alignment) : Nat :=
  (alignment.ordinals.getLast?.getD (0, 0)).1

/-- The loop that updates `rangeCoverage` for one alignment: `ordinal0` runs from the first
to the last ordinal of the alignment, both included. The loop variable is a `uint32_t`; the
loop ends because the last ordinal is below `markerCount0`, itself a `uint32_t`. -/
def rangeCoverageLoop (index : Nat) (alignment : Alignment)
    (rangeCoverage : List (Nat × Nat)) : List (Nat × Nat) :=
  let first := firstOrdinal0 alignment
  let last := lastOrdinal0 alignment
  (List.range' first (last + 1 - first)).foldl
    (fun rangeCoverage ordinal0 => incrementCoverage rangeCoverage ordinal0 index)
    rangeCoverage

/-- The loop over the alignments that computes `coverage` and `rangeCoverage`; the state
is `(coverage, rangeCoverage)`. -/
def coverageLoop (orientedReadId0 : OrientedReadId) (markerCount0 : Nat) :
    List StoredAlignmentInformation → List (Nat × Nat) × List (Nat × Nat) →
    Except Failure (List (Nat × Nat) × List (Nat × Nat))
  | [], state => .ok state
  | p :: rest, state =>
    let orientedReadId1 := p.orientedReadId
    let index := strandIndex orientedReadId0 orientedReadId1
    match coverageOrdinalsLoop markerCount0 index p.alignment.ordinals state.1 with
    | .error e => .error e
    | .ok coverage =>
      coverageLoop orientedReadId0 markerCount0 rest
        (coverage, rangeCoverageLoop index p.alignment state.2)

/-- The pair `(coverage, rangeCoverage)` that `analyzeAlignments1` computes from the
canonical alignments: both start with `markerCount0` entries `{0, 0}`. -/
def computeCoverage (orientedReadId0 : OrientedReadId) (markerCount0 : Nat)
    (alignments : List StoredAlignmentInformation) :
    Except Failure (List (Nat × Nat) × List (Nat × Nat)) :=
  coverageLoop orientedReadId0 markerCount0 alignments
    (List.replicate markerCount0 (0, 0), List.replicate markerCount0 (0, 0))

/-- The number of pairs with first ordinal `o` in the alignments of strand class `s`. -/
def coverageCount (orientedReadId0 : OrientedReadId)
    (alignments : List StoredAlignmentInformation) (s o : Nat) : Nat :=
  ((alignments.filter fun p => strandIndex orientedReadId0 p.orientedReadId = s).map
    fun p => (p.alignment.ordinals.filter fun pair => pair.1 = o).length).sum

/-- The number of alignments of strand class `s` whose first ordinals range over `o`: the
first ordinal of the first pair is at most `o`, that of the last pair at least `o`. -/
def rangeCoverageCount (orientedReadId0 : OrientedReadId)
    (alignments : List StoredAlignmentInformation) (s o : Nat) : Nat :=
  (alignments.filter fun p =>
    decide (strandIndex orientedReadId0 p.orientedReadId = s ∧
      firstOrdinal0 p.alignment ≤ o ∧ o ≤ lastOrdinal0 p.alignment)).length

/-- Three canonical alignments of a query on strand 0 with 6 markers: two with oriented
reads on strand 0, one with an oriented read on strand 1. -/
def coverageAlignments : List StoredAlignmentInformation :=
  [⟨0, ⟨[(0, 1), (2, 3), (5, 6)]⟩, ⟨2⟩⟩, ⟨1, ⟨[(1, 0), (2, 2)]⟩, ⟨4⟩⟩,
    ⟨2, ⟨[(2, 0), (3, 1), (4, 2)]⟩, ⟨7⟩⟩]

/-! ## The branch tables written by `Assembler::analyzeAlignments3` -/

/-- The loop over the sequences that writes the branch table of one bubble: a dot for a
negative value, the value itself otherwise, after the assertion
`SHASTA_ASSERT(value < 10)`. The result is the characters written; the number of branches
that ends the line is left out. -/
def writeBranchTableLine (branchTable : List Int) : List Nat → Except Failure (List Char)
  | [] => .ok []
  | sequenceId :: rest =>
    let value := branchTableAt branchTable sequenceId
    if ¬ value < 10 then .error .branchIdTooLarge
    else
      match writeBranchTableLine branchTable rest with
      | .error e => .error e
      | .ok line => .ok ((if value < 0 then '.' else Nat.digitChar value.toNat) :: line)

/-- The loop over the bubbles that writes the branch tables, for `sequenceCount` sequences
(`orientedReadIds.size()`); the bubbles are given by their branch tables. -/
def writeBranchTables (sequenceCount : Nat) : List (List Int) → Except Failure (List (List Char))
  | [] => .ok []
  | branchTable :: rest =>
    match writeBranchTableLine branchTable (List.range sequenceCount) with
    | .error e => .error e
    | .ok line =>
      match writeBranchTables sequenceCount rest with
      | .error e => .error e
      | .ok lines => .ok (line :: lines)

/-- The store `neighborsAssembler` with one marker of another `kmerId`: marker 2 of read 3
on strand 0. The alignments of read 0 do not use it; the alignment between reads 2 and 3
joins it to marker 1 of read 2. -/
def kmerNeighborsAssembler : Assembler :=
  { neighborsAssembler with
    markerKmerId := fun orientedReadId ordinal =>
      if orientedReadId = 6 ∧ ordinal = 2 then 1 else 0 }

/-- The vector of a call of `merge` is made of the ordinal pairs `ordinals`, each taken
relative to the first ordinals of the two sequences of the call, and each of these pairs
joins two markers with the same `kmerId`. -/
def CheckedMerge (assembler : Assembler) (orientedReadIds : List OrientedReadId)
    (firstOrdinals : List Nat) (call : MergeCall) (ordinals : List (Nat × Nat)) : Prop :=
  (∀ o ∈ ordinals,
    assembler.markerKmerId (orientedReadIds.getD call.sequenceId0 ⟨0⟩).getValue o.1 =
      assembler.markerKmerId (orientedReadIds.getD call.sequenceId1 ⟨0⟩).getValue o.2) ∧
  call.pairs = ordinals.map fun o =>
    (sub32 o.1 (firstOrdinals.getD call.sequenceId0 0),
     sub32 o.2 (firstOrdinals.getD call.sequenceId1 0))

/-- A store in which the first aligned oriented read has a mismatching alignment: read 0
is aligned with reads 1 and 2 (alignments 0 and 1), reads 1 and 2 with each other
(alignment 2); all on the same strand, 5 markers per read; marker 2 of read 2 carries
another `kmerId` than all other markers, and only alignment 2 uses it. -/
def kmerFirstNeighborAssembler : Assembler where
  markersAreOpen := true
  alignmentDataAreOpen := true
  compressedAlignmentsAreOpen := true
  markersSize := fun _ => 5
  alignmentTable := fun i =>
    if i / 2 = 0 then [0, 1] else if i / 2 = 1 then [0, 2] else [1, 2]
  alignmentData := fun i =>
    if i = 0 then { readIds := (0, 1), isSameStrand := true, markerCount := 2 }
    else if i = 1 then { readIds := (0, 2), isSameStrand := true, markerCount := 2 }
    else { readIds := (1, 2), isSameStrand := true, markerCount := 2 }
  decompressed := fun i => if i = 2 then [(1, 2), (2, 3)] else [(0, 1), (2, 3)]
  markerKmerId := fun orientedReadId ordinal =>
    if orientedReadId = 4 ∧ ordinal = 2 then 1 else 0

/-! ## Oriented reads -/

theorem OrientedReadId.eq_of_getReadId_of_getStrand {a b : OrientedReadId}
    (hr : a.getReadId = b.getReadId) (hs : a.getStrand = b.getStrand) : a = b := by
  cases a with
  | mk x =>
    cases b with
    | mk y =>
      simp only [OrientedReadId.getReadId, OrientedReadId.getStrand] at hr hs
      have : x = y := by omega
      rw [this]

theorem OrientedReadId.getReadId_ofReadIdStrand (readId strand : Nat) (h : strand < 2) :
    (OrientedReadId.ofReadIdStrand readId strand).getReadId = readId := by
  simp only [OrientedReadId.getReadId, OrientedReadId.ofReadIdStrand]
  omega

theorem OrientedReadId.getStrand_ofReadIdStrand (readId strand : Nat) (h : strand < 2) :
    (OrientedReadId.ofReadIdStrand readId strand).getStrand = strand := by
  simp only [OrientedReadId.getStrand, OrientedReadId.ofReadIdStrand]
  omega

theorem OrientedReadId.getReadId_flipStrand (o : OrientedReadId) :
    o.flipStrand.getReadId = o.getReadId := by
  simp only [OrientedReadId.flipStrand, OrientedReadId.getReadId, OrientedReadId.getStrand,
    OrientedReadId.ofReadIdStrand]
  omega

theorem OrientedReadId.getStrand_flipStrand (o : OrientedReadId) :
    o.flipStrand.getStrand = 1 - o.getStrand := by
  simp only [OrientedReadId.flipStrand, OrientedReadId.getReadId, OrientedReadId.getStrand,
    OrientedReadId.ofReadIdStrand]
  omega

theorem OrientedReadId.flipStrand_flipStrand (o : OrientedReadId) :
    o.flipStrand.flipStrand = o := by
  apply OrientedReadId.eq_of_getReadId_of_getStrand
  · rw [OrientedReadId.getReadId_flipStrand, OrientedReadId.getReadId_flipStrand]
  · rw [OrientedReadId.getStrand_flipStrand, OrientedReadId.getStrand_flipStrand]
    simp only [OrientedReadId.getStrand]
    omega

theorem storedOrientedReadIds_getReadId (alignmentData : AlignmentData) :
    (storedOrientedReadIds alignmentData).1.getReadId = alignmentData.readIds.1 ∧
    (storedOrientedReadIds alignmentData).2.getReadId = alignmentData.readIds.2 := by
  constructor
  · exact OrientedReadId.getReadId_ofReadIdStrand _ _ (by decide)
  · apply OrientedReadId.getReadId_ofReadIdStrand
    split <;> decide

/-- After the strand flip decision the first oriented read is the query, as soon as its
read is the read of the query. -/
theorem afterReverseComplement_fst (orientedReadId0 : OrientedReadId)
    (ids : OrientedReadId × OrientedReadId)
    (h : ids.1.getReadId = orientedReadId0.getReadId) :
    (afterReverseComplement orientedReadId0 ids).1 = orientedReadId0 := by
  unfold afterReverseComplement needsReverseComplement
  by_cases hs : ids.1.getStrand = orientedReadId0.getStrand
  · simp only [hs, ne_eq, not_true_eq_false, decide_False, Bool.false_eq_true, if_false]
    exact OrientedReadId.eq_of_getReadId_of_getStrand h hs
  · simp only [ne_eq, hs, not_false_eq_true, decide_True, if_true]
    apply OrientedReadId.eq_of_getReadId_of_getStrand
    · rw [OrientedReadId.getReadId_flipStrand, h]
    · rw [OrientedReadId.getStrand_flipStrand]
      simp only [OrientedReadId.getStrand] at hs ⊢
      omega

/-- After the swap decision the first read is the read of the query, when one of the two
stored reads is. -/
theorem afterSwap_fst_getReadId (orientedReadId0 : OrientedReadId)
    (ids : OrientedReadId × OrientedReadId)
    (h : ids.1.getReadId = orientedReadId0.getReadId ∨
      ids.2.getReadId = orientedReadId0.getReadId) :
    (afterSwap orientedReadId0 ids).1.getReadId = orientedReadId0.getReadId := by
  unfold afterSwap needsSwap
  by_cases h1 : ids.1.getReadId = orientedReadId0.getReadId
  · simp [h1]
  · rcases h with h | h
    · exact absurd h h1
    · simp [h1, h]

/-- The first overload's loop body, once the two assertions on the first oriented read
are known to hold. -/
theorem getStoredAlignmentsBody_eq (assembler : Assembler) (orientedReadId0 : OrientedReadId)
    (alignmentIndex : Nat)
    (h : (afterSwap orientedReadId0
      (storedOrientedReadIds (assembler.alignmentData alignmentIndex))).1.getReadId =
        orientedReadId0.getReadId) :
    getStoredAlignmentsBody assembler orientedReadId0 alignmentIndex =
      if (assembler.decompressed alignmentIndex).length ≠
          (assembler.alignmentData alignmentIndex).markerCount then
        .error .markerCountMismatch
      else
        .ok
          { alignmentId := alignmentIndex
            alignment :=
              let stored := storedOrientedReadIds (assembler.alignmentData alignmentIndex)
              let swapped := afterSwap orientedReadId0 stored
              let alignment : Alignment := ⟨assembler.decompressed alignmentIndex⟩
              let alignment :=
                if needsSwap orientedReadId0 stored then alignment.swap else alignment
              if needsReverseComplement orientedReadId0 swapped then
                alignment.reverseComplement
                  (assembler.markerCount swapped.1) (assembler.markerCount swapped.2)
              else alignment
            orientedReadId :=
              (afterReverseComplement orientedReadId0
                (afterSwap orientedReadId0
                  (storedOrientedReadIds (assembler.alignmentData alignmentIndex)))).2 } := by
  have h2 := afterReverseComplement_fst orientedReadId0 _ h
  unfold getStoredAlignmentsBody
  simp only [h, h2, ne_eq, not_true_eq_false, if_false]

/-- The first overload's loop body fails on the first-read assertion when the read of
the query is not the first read after the swap. -/
theorem getStoredAlignmentsBody_of_ne (assembler : Assembler) (orientedReadId0 : OrientedReadId)
    (alignmentIndex : Nat)
    (h : (afterSwap orientedReadId0
      (storedOrientedReadIds (assembler.alignmentData alignmentIndex))).1.getReadId ≠
        orientedReadId0.getReadId) :
    getStoredAlignmentsBody assembler orientedReadId0 alignmentIndex =
      if (assembler.decompressed alignmentIndex).length ≠
          (assembler.alignmentData alignmentIndex).markerCount then
        .error .markerCountMismatch
      else .error .readIdMismatch := by
  unfold getStoredAlignmentsBody
  simp only [h, ne_eq, not_false_eq_true, if_true]

/-- The second overload's loop body, once the two assertions on the first oriented read
are known to hold. -/
theorem getStoredAlignmentsFilteredBody_eq (assembler : Assembler)
    (orientedReadId0 : OrientedReadId) (orientedReadIds1 : List OrientedReadId)
    (alignmentId : Nat)
    (h : (afterSwap orientedReadId0
      (storedOrientedReadIds (assembler.alignmentData alignmentId))).1.getReadId =
        orientedReadId0.getReadId) :
    getStoredAlignmentsFilteredBody assembler orientedReadId0 orientedReadIds1 alignmentId =
      let stored := storedOrientedReadIds (assembler.alignmentData alignmentId)
      let swapped := afterSwap orientedReadId0 stored
      let final := afterReverseComplement orientedReadId0 swapped
      if !binarySearch orientedReadIds1 final.2 then .ok none
      else if (assembler.decompressed alignmentId).length ≠
          (assembler.alignmentData alignmentId).markerCount then
        .error .markerCountMismatch
      else
        .ok (some
          { alignmentId := alignmentId
            alignment :=
              let alignment : Alignment := ⟨assembler.decompressed alignmentId⟩
              let alignment :=
                if needsSwap orientedReadId0 stored then alignment.swap else alignment
              if needsReverseComplement orientedReadId0 swapped then
                alignment.reverseComplement
                  (assembler.markerCount final.1) (assembler.markerCount final.2)
              else alignment
            orientedReadId := final.2 }) := by
  have h2 := afterReverseComplement_fst orientedReadId0 _ h
  unfold getStoredAlignmentsFilteredBody
  simp only [h, h2, ne_eq, not_true_eq_false, if_false]

/-- The second overload's loop body fails on the first-read assertion when the read of
the query is not the first read after the swap. -/
theorem getStoredAlignmentsFilteredBody_of_ne (assembler : Assembler)
    (orientedReadId0 : OrientedReadId) (orientedReadIds1 : List OrientedReadId)
    (alignmentId : Nat)
    (h : (afterSwap orientedReadId0
      (storedOrientedReadIds (assembler.alignmentData alignmentId))).1.getReadId ≠
        orientedReadId0.getReadId) :
    getStoredAlignmentsFilteredBody assembler orientedReadId0 orientedReadIds1 alignmentId =
      .error .readIdMismatch := by
  unfold getStoredAlignmentsFilteredBody
  simp only [h, ne_eq, not_false_eq_true, if_true]

/-! ## C1: the first oriented read is the query -/

/-- C1. For every query oriented read and every stored alignment record one of whose two
reads is the read of the query, the swap / reverse-complement decision ends with the first
oriented read equal to the query, and neither overload of `getStoredAlignments` fails on
one of its two assertions about the first oriented read for that record. -/
theorem getStoredAlignments_first_is_query (assembler : Assembler)
    (orientedReadId0 : OrientedReadId) (orientedReadIds1 : List OrientedReadId)
    (alignmentIndex : Nat)
    (h : (assembler.alignmentData alignmentIndex).readIds.1 = orientedReadId0.getReadId ∨
      (assembler.alignmentData alignmentIndex).readIds.2 = orientedReadId0.getReadId) :
    (afterReverseComplement orientedReadId0
      (afterSwap orientedReadId0
        (storedOrientedReadIds (assembler.alignmentData alignmentIndex)))).1 = orientedReadId0 ∧
    getStoredAlignmentsBody assembler orientedReadId0 alignmentIndex ≠
      .error .readIdMismatch ∧
    getStoredAlignmentsBody assembler orientedReadId0 alignmentIndex ≠
      .error .orientedReadIdMismatch ∧
    getStoredAlignmentsFilteredBody assembler orientedReadId0 orientedReadIds1 alignmentIndex ≠
      .error .readIdMismatch ∧
    getStoredAlignmentsFilteredBody assembler orientedReadId0 orientedReadIds1 alignmentIndex ≠
      .error .orientedReadIdMismatch := by
  have hids := storedOrientedReadIds_getReadId (assembler.alignmentData alignmentIndex)
  have hswap := afterSwap_fst_getReadId orientedReadId0
    (storedOrientedReadIds (assembler.alignmentData alignmentIndex))
    (by rw [hids.1, hids.2]; exact h)
  refine ⟨afterReverseComplement_fst orientedReadId0 _ hswap, ?_, ?_, ?_, ?_⟩
  · rw [getStoredAlignmentsBody_eq assembler orientedReadId0 alignmentIndex hswap]
    split <;> simp
  · rw [getStoredAlignmentsBody_eq assembler orientedReadId0 alignmentIndex hswap]
    split <;> simp
  · rw [getStoredAlignmentsFilteredBody_eq assembler orientedReadId0 orientedReadIds1
      alignmentIndex hswap]
    dsimp only
    split
    · simp
    · split <;> simp
  · rw [getStoredAlignmentsFilteredBody_eq assembler orientedReadId0 orientedReadIds1
      alignmentIndex hswap]
    dsimp only
    split
    · simp
    · split <;> simp

/-- C1 at a concrete record: alignment 1 of the example store (reads 2 and 0, opposite
strands) queried from read 0 on strand 1, which needs the swap but no reverse complement. -/
theorem getStoredAlignments_first_is_query_witness :
    ((exampleAssembler.alignmentData 1).readIds.1 = (⟨1⟩ : OrientedReadId).getReadId ∨
      (exampleAssembler.alignmentData 1).readIds.2 = (⟨1⟩ : OrientedReadId).getReadId) ∧
    ((afterReverseComplement ⟨1⟩
      (afterSwap ⟨1⟩ (storedOrientedReadIds (exampleAssembler.alignmentData 1)))).1 = ⟨1⟩ ∧
    getStoredAlignmentsBody exampleAssembler ⟨1⟩ 1 ≠ .error .readIdMismatch ∧
    getStoredAlignmentsBody exampleAssembler ⟨1⟩ 1 ≠ .error .orientedReadIdMismatch ∧
    getStoredAlignmentsFilteredBody exampleAssembler ⟨1⟩ [⟨4⟩] 1 ≠ .error .readIdMismatch ∧
    getStoredAlignmentsFilteredBody exampleAssembler ⟨1⟩ [⟨4⟩] 1 ≠
      .error .orientedReadIdMismatch) :=
  ⟨by decide, getStoredAlignments_first_is_query exampleAssembler ⟨1⟩ [⟨4⟩] 1 (by decide)⟩

/-! ## The loops of `getStoredAlignments` -/

/-- The first overload's loop returns `alignments` exactly when the body returns the
entries of `alignments`, index by index. -/
theorem getStoredAlignmentsLoop_ok_iff (assembler : Assembler) (orientedReadId0 : OrientedReadId)
    (alignmentIndexes : List Nat) (alignments : List StoredAlignmentInformation) :
    getStoredAlignmentsLoop assembler orientedReadId0 alignmentIndexes = .ok alignments ↔
      List.Forall₂
        (fun alignmentIndex info =>
          getStoredAlignmentsBody assembler orientedReadId0 alignmentIndex = .ok info)
        alignmentIndexes alignments := by
  induction alignmentIndexes generalizing alignments with
  | nil =>
    constructor
    · intro h
      simp only [getStoredAlignmentsLoop, Except.ok.injEq] at h
      subst h
      exact List.Forall₂.nil
    · intro h
      cases h
      rfl
  | cons i rest ih =>
    constructor
    · intro h
      unfold getStoredAlignmentsLoop at h
      cases hb : getStoredAlignmentsBody assembler orientedReadId0 i with
      | error e => rw [hb] at h; cases h
      | ok info =>
        rw [hb] at h
        cases hl : getStoredAlignmentsLoop assembler orientedReadId0 rest with
        | error e => rw [hl] at h; cases h
        | ok tail =>
          rw [hl] at h
          simp only [Except.ok.injEq] at h
          subst h
          exact List.Forall₂.cons hb ((ih tail).1 hl)
    · intro h
      cases h with
      | cons hhead htail =>
        unfold getStoredAlignmentsLoop
        rw [hhead, (ih _).2 htail]

/-- A failing body makes the first overload's loop fail. -/
theorem getStoredAlignmentsLoop_error_of_mem (assembler : Assembler)
    (orientedReadId0 : OrientedReadId) (alignmentIndexes : List Nat) (alignmentIndex : Nat)
    (e : Failure) (hmem : alignmentIndex ∈ alignmentIndexes)
    (hbody : getStoredAlignmentsBody assembler orientedReadId0 alignmentIndex = .error e) :
    ∃ e, getStoredAlignmentsLoop assembler orientedReadId0 alignmentIndexes = .error e := by
  cases hl : getStoredAlignmentsLoop assembler orientedReadId0 alignmentIndexes with
  | error e => exact ⟨e, rfl⟩
  | ok alignments =>
    exfalso
    have h := (getStoredAlignmentsLoop_ok_iff _ _ _ _).1 hl
    clear hl
    induction h with
    | nil => cases hmem
    | cons hhead _ ih =>
      rcases List.mem_cons.1 hmem with h | h
      · subst h
        rw [hbody] at hhead
        cases hhead
      · exact ih h

/-- Every entry returned by the first overload's loop comes from the body at its own
alignment id, which is one of the indexes. -/
theorem getStoredAlignmentsLoop_mem (assembler : Assembler) (orientedReadId0 : OrientedReadId)
    (alignmentIndexes : List Nat) (alignments : List StoredAlignmentInformation)
    (hret : getStoredAlignmentsLoop assembler orientedReadId0 alignmentIndexes = .ok alignments)
    (info : StoredAlignmentInformation) (hmem : info ∈ alignments) :
    info.alignmentId ∈ alignmentIndexes ∧
      getStoredAlignmentsBody assembler orientedReadId0 info.alignmentId = .ok info := by
  have h := (getStoredAlignmentsLoop_ok_iff _ _ _ _).1 hret
  clear hret
  induction h with
  | nil => cases hmem
  | @cons i info1 rest tail hhead _ ih =>
    have hid : info1.alignmentId = i := by
      unfold getStoredAlignmentsBody at hhead
      dsimp only at hhead
      split at hhead
      · cases hhead
      · split at hhead
        · cases hhead
        · split at hhead
          · cases hhead
          · simp only [Except.ok.injEq] at hhead
            rw [← hhead]
    rcases List.mem_cons.1 hmem with h | h
    · subst h
      rw [hid]
      exact ⟨List.mem_cons_self _ _, hhead⟩
    · exact ⟨List.mem_cons_of_mem _ (ih h).1, (ih h).2⟩

/-- The first overload returns the result of its loop when it returns. -/
theorem getStoredAlignments_ok (assembler : Assembler) (orientedReadId0 : OrientedReadId)
    (alignments : List StoredAlignmentInformation)
    (hret : getStoredAlignments assembler orientedReadId0 = .ok alignments) :
    getStoredAlignmentsLoop assembler orientedReadId0
      (assembler.alignmentTable orientedReadId0.getValue) = .ok alignments := by
  unfold getStoredAlignments at hret
  split at hret
  · cases hret
  · exact hret

/-- What the first overload's body returns, when it returns. -/
theorem getStoredAlignmentsBody_ok (assembler : Assembler) (orientedReadId0 : OrientedReadId)
    (alignmentIndex : Nat) (info : StoredAlignmentInformation)
    (hret : getStoredAlignmentsBody assembler orientedReadId0 alignmentIndex = .ok info) :
    (afterSwap orientedReadId0
      (storedOrientedReadIds (assembler.alignmentData alignmentIndex))).1.getReadId =
        orientedReadId0.getReadId ∧
    (assembler.decompressed alignmentIndex).length =
      (assembler.alignmentData alignmentIndex).markerCount ∧
    info.alignmentId = alignmentIndex ∧
    info.orientedReadId =
      (afterReverseComplement orientedReadId0
        (afterSwap orientedReadId0
          (storedOrientedReadIds (assembler.alignmentData alignmentIndex)))).2 ∧
    info.alignment =
      (let stored := storedOrientedReadIds (assembler.alignmentData alignmentIndex)
       let swapped := afterSwap orientedReadId0 stored
       let alignment : Alignment := ⟨assembler.decompressed alignmentIndex⟩
       let alignment := if needsSwap orientedReadId0 stored then alignment.swap else alignment
       if needsReverseComplement orientedReadId0 swapped then
         alignment.reverseComplement
           (assembler.markerCount swapped.1) (assembler.markerCount swapped.2)
       else alignment) := by
  by_cases h : (afterSwap orientedReadId0
      (storedOrientedReadIds (assembler.alignmentData alignmentIndex))).1.getReadId =
        orientedReadId0.getReadId
  · rw [getStoredAlignmentsBody_eq assembler orientedReadId0 alignmentIndex h] at hret
    split at hret
    · cases hret
    · rename_i hlen
      simp only [Except.ok.injEq] at hret
      rw [← hret]
      exact ⟨h, not_not.1 hlen, rfl, rfl, rfl⟩
  · rw [getStoredAlignmentsBody_of_ne assembler orientedReadId0 alignmentIndex h] at hret
    split at hret <;> cases hret

/-! ## Swap and reverse complement of an alignment -/

theorem Assembler.markerCount_lt (assembler : Assembler) (orientedReadId : OrientedReadId) :
    assembler.markerCount orientedReadId < 2 ^ 32 := by
  unfold Assembler.markerCount
  omega

theorem sub32_reflect (markerCount o : Nat) (hm : markerCount < 2 ^ 32) (ho : o < markerCount) :
    sub32 (sub32 markerCount 1) o = markerCount - 1 - o := by
  unfold sub32
  omega

theorem sub32_reflect_reflect (markerCount o : Nat) (ho : o < 2 ^ 32) :
    sub32 (sub32 markerCount 1) (sub32 (sub32 markerCount 1) o) = o := by
  unfold sub32
  omega

theorem strictlyIncreasing_iff_chain' (ordinals : List (Nat × Nat)) :
    StrictlyIncreasing ordinals ↔
      List.Chain' (fun previous current => previous.1 < current.1 ∧ previous.2 < current.2)
        ordinals := by
  induction ordinals with
  | nil => simp [StrictlyIncreasing]
  | cons a rest ih =>
    cases rest with
    | nil => simp [StrictlyIncreasing]
    | cons b rest => simp only [StrictlyIncreasing, List.chain'_cons, ih]

theorem sortedIds_iff_chain' (orientedReadIds1 : List OrientedReadId) :
    SortedIds orientedReadIds1 ↔
      List.Chain' (fun previous current => previous < current) orientedReadIds1 := by
  induction orientedReadIds1 with
  | nil => simp [SortedIds]
  | cons a rest ih =>
    cases rest with
    | nil => simp [SortedIds]
    | cons b rest => simp only [SortedIds, List.chain'_cons, ih]

theorem strictlyIncreasing_swap (ordinals : List (Nat × Nat))
    (h : StrictlyIncreasing ordinals) :
    StrictlyIncreasing (Alignment.swap ⟨ordinals⟩).ordinals := by
  rw [strictlyIncreasing_iff_chain'] at *
  unfold Alignment.swap
  rw [List.chain'_map]
  exact List.Chain'.imp (fun a b hab => ⟨hab.2, hab.1⟩) h

theorem strictlyIncreasing_reverseComplement (ordinals : List (Nat × Nat))
    (markerCount0 markerCount1 : Nat) (h0 : markerCount0 < 2 ^ 32) (h1 : markerCount1 < 2 ^ 32)
    (hrange : ∀ o ∈ ordinals, o.1 < markerCount0 ∧ o.2 < markerCount1)
    (h : StrictlyIncreasing ordinals) :
    StrictlyIncreasing
      (Alignment.reverseComplement ⟨ordinals⟩ markerCount0 markerCount1).ordinals := by
  rw [strictlyIncreasing_iff_chain'] at *
  unfold Alignment.reverseComplement
  rw [List.chain'_reverse, List.chain'_map]
  rw [List.Chain'.iff_mem] at h
  refine List.Chain'.imp ?_ h
  intro a b hab
  obtain ⟨ha, hb, hlt0, hlt1⟩ := hab
  have ra := hrange a ha
  have rb := hrange b hb
  simp only [flip]
  rw [sub32_reflect _ _ h0 ra.1, sub32_reflect _ _ h0 rb.1,
    sub32_reflect _ _ h1 ra.2, sub32_reflect _ _ h1 rb.2]
  omega

theorem ordinalsInRange_swap (assembler : Assembler) (ids : OrientedReadId × OrientedReadId)
    (ordinals : List (Nat × Nat)) (h : OrdinalsInRange assembler ids ordinals) :
    OrdinalsInRange assembler (ids.2, ids.1) (Alignment.swap ⟨ordinals⟩).ordinals := by
  intro o ho
  simp only [Alignment.swap, List.mem_map] at ho
  obtain ⟨p, hp, rfl⟩ := ho
  exact ⟨(h p hp).2, (h p hp).1⟩

/-- The pair of oriented reads and the ordinal pairs after the swap decision keep the
range property. -/
theorem ordinalsInRange_afterSwap (assembler : Assembler) (orientedReadId0 : OrientedReadId)
    (ids : OrientedReadId × OrientedReadId) (ordinals : List (Nat × Nat))
    (h : OrdinalsInRange assembler ids ordinals) :
    OrdinalsInRange assembler (afterSwap orientedReadId0 ids)
      (if needsSwap orientedReadId0 ids then Alignment.swap ⟨ordinals⟩
        else (⟨ordinals⟩ : Alignment)).ordinals := by
  unfold afterSwap
  split
  · exact ordinalsInRange_swap assembler ids ordinals h
  · exact h

theorem strictlyIncreasing_afterSwap (orientedReadId0 : OrientedReadId)
    (ids : OrientedReadId × OrientedReadId) (ordinals : List (Nat × Nat))
    (h : StrictlyIncreasing ordinals) :
    StrictlyIncreasing
      (if needsSwap orientedReadId0 ids then Alignment.swap ⟨ordinals⟩
        else (⟨ordinals⟩ : Alignment)).ordinals := by
  split
  · exact strictlyIncreasing_swap ordinals h
  · exact h

/-! ## C2: strict increase is preserved -/

/-- C2. Strict-increase preservation: every alignment returned by `getStoredAlignments`
whose stored ordinal pairs are strictly increasing in both coordinates, with every ordinal
below the marker count of its read, is again strictly increasing in ordinal0 and in
ordinal1 after the optional column swap and the optional reverse complement. -/
theorem getStoredAlignments_strictlyIncreasing (assembler : Assembler)
    (orientedReadId0 : OrientedReadId) (alignments : List StoredAlignmentInformation)
    (info : StoredAlignmentInformation)
    (hret : getStoredAlignments assembler orientedReadId0 = .ok alignments)
    (hmem : info ∈ alignments)
    (hincreasing : StrictlyIncreasing (assembler.decompressed info.alignmentId))
    (hrange : OrdinalsInRange assembler
      (storedOrientedReadIds (assembler.alignmentData info.alignmentId))
      (assembler.decompressed info.alignmentId)) :
    StrictlyIncreasing info.alignment.ordinals := by
  have hbody := (getStoredAlignmentsLoop_mem _ _ _ _
    (getStoredAlignments_ok _ _ _ hret) info hmem).2
  obtain ⟨-, -, -, -, halignment⟩ := getStoredAlignmentsBody_ok _ _ _ _ hbody
  rw [halignment]
  have hr := ordinalsInRange_afterSwap assembler orientedReadId0 _ _ hrange
  have hi := strictlyIncreasing_afterSwap orientedReadId0
    (storedOrientedReadIds (assembler.alignmentData info.alignmentId)) _ hincreasing
  dsimp only
  split
  · exact strictlyIncreasing_reverseComplement _ _ _ (assembler.markerCount_lt _)
      (assembler.markerCount_lt _) hr hi
  · exact hi

/-- C2 at a concrete alignment: alignment 1 of the example store seen from read 0 on
strand 0, which is swapped and reverse complemented into `[(1, 0), (4, 4)]`. -/
theorem getStoredAlignments_strictlyIncreasing_witness :
    StrictlyIncreasing
      (⟨1, ⟨[(1, 0), (4, 4)]⟩, ⟨5⟩⟩ : StoredAlignmentInformation).alignment.ordinals :=
  getStoredAlignments_strictlyIncreasing exampleAssembler ⟨0⟩
    [⟨0, ⟨[(0, 1), (2, 2), (4, 3)]⟩, ⟨2⟩⟩, ⟨1, ⟨[(1, 0), (4, 4)]⟩, ⟨5⟩⟩]
    ⟨1, ⟨[(1, 0), (4, 4)]⟩, ⟨5⟩⟩ (by rfl) (by decide) (by decide) (by decide)

/-! ## C3: round trip -/

theorem Alignment.swap_swap (a : Alignment) : a.swap.swap = a := by
  cases a with
  | mk ordinals =>
    simp only [Alignment.swap, List.map_map, Alignment.mk.injEq]
    rw [List.map_congr_left (g := id) (by intro o _; rfl), List.map_id]

theorem Alignment.reverseComplement_reverseComplement (a : Alignment)
    (markerCount0 markerCount1 : Nat) (h : OrdinalsAreUint32 a.ordinals) :
    (a.reverseComplement markerCount0 markerCount1).reverseComplement
      markerCount0 markerCount1 = a := by
  cases a with
  | mk ordinals =>
    simp only [Alignment.reverseComplement, List.map_reverse, List.reverse_reverse,
      List.map_map, Alignment.mk.injEq]
    rw [List.map_congr_left (g := id), List.map_id]
    intro o ho
    simp only [Function.comp_apply, id_eq]
    rw [sub32_reflect_reflect _ _ (h o ho).1, sub32_reflect_reflect _ _ (h o ho).2]

theorem ordinalsAreUint32_swap (ordinals : List (Nat × Nat)) (h : OrdinalsAreUint32 ordinals) :
    OrdinalsAreUint32 (Alignment.swap ⟨ordinals⟩).ordinals := by
  intro o ho
  simp only [Alignment.swap, List.mem_map] at ho
  obtain ⟨p, hp, rfl⟩ := ho
  exact ⟨(h p hp).2, (h p hp).1⟩

/-- C3. Canonicalization round trip: for every alignment returned by `getStoredAlignments`
(the query being either read of the stored alignment, on either strand), undoing the
reverse complement with the same two marker counts if it was applied and then undoing the
swap if it was applied gives back the decompressed ordinal-pair list exactly, and the
returned alignment has the length of the decompressed list. Ordinals are `uint32_t`. -/
theorem getStoredAlignments_roundTrip (assembler : Assembler)
    (orientedReadId0 : OrientedReadId) (alignments : List StoredAlignmentInformation)
    (info : StoredAlignmentInformation)
    (hret : getStoredAlignments assembler orientedReadId0 = .ok alignments)
    (hmem : info ∈ alignments)
    (h32 : OrdinalsAreUint32 (assembler.decompressed info.alignmentId)) :
    inverseTransform
      (needsSwap orientedReadId0
        (storedOrientedReadIds (assembler.alignmentData info.alignmentId)))
      (needsReverseComplement orientedReadId0
        (afterSwap orientedReadId0
          (storedOrientedReadIds (assembler.alignmentData info.alignmentId))))
      (assembler.markerCount
        (afterSwap orientedReadId0
          (storedOrientedReadIds (assembler.alignmentData info.alignmentId))).1)
      (assembler.markerCount
        (afterSwap orientedReadId0
          (storedOrientedReadIds (assembler.alignmentData info.alignmentId))).2)
      info.alignment = ⟨assembler.decompressed info.alignmentId⟩ ∧
    info.alignment.ordinals.length = (assembler.decompressed info.alignmentId).length := by
  have hbody := (getStoredAlignmentsLoop_mem _ _ _ _
    (getStoredAlignments_ok _ _ _ hret) info hmem).2
  obtain ⟨-, -, -, -, halignment⟩ := getStoredAlignmentsBody_ok _ _ _ _ hbody
  rw [halignment]
  unfold inverseTransform
  dsimp only
  cases hs : needsSwap orientedReadId0
      (storedOrientedReadIds (assembler.alignmentData info.alignmentId)) <;>
  cases hr : needsReverseComplement orientedReadId0
      (afterSwap orientedReadId0
        (storedOrientedReadIds (assembler.alignmentData info.alignmentId)))
  · simp
  · simp only [Bool.false_eq_true, if_false, if_true]
    rw [Alignment.reverseComplement_reverseComplement _ _ _ h32]
    simp [Alignment.reverseComplement]
  · simp only [Bool.false_eq_true, if_false, if_true]
    rw [Alignment.swap_swap]
    simp [Alignment.swap]
  · simp only [if_true]
    rw [Alignment.reverseComplement_reverseComplement _ _ _ (ordinalsAreUint32_swap _ h32),
      Alignment.swap_swap]
    simp [Alignment.reverseComplement, Alignment.swap]

/-- C3 at a concrete alignment: alignment 1 of the example store seen from read 0 on
strand 0 was swapped and reverse complemented with marker counts 5 and 6; undoing both
gives back the stored pairs `[(1, 0), (5, 3)]`. -/
theorem getStoredAlignments_roundTrip_witness :
    inverseTransform true true 5 6 ⟨[(1, 0), (4, 4)]⟩ = ⟨[(1, 0), (5, 3)]⟩ ∧
    ([(1, 0), (4, 4)] : List (Nat × Nat)).length = ([(1, 0), (5, 3)] : List (Nat × Nat)).length :=
  getStoredAlignments_roundTrip exampleAssembler ⟨0⟩
    [⟨0, ⟨[(0, 1), (2, 2), (4, 3)]⟩, ⟨2⟩⟩, ⟨1, ⟨[(1, 0), (4, 4)]⟩, ⟨5⟩⟩]
    ⟨1, ⟨[(1, 0), (4, 4)]⟩, ⟨5⟩⟩ (by rfl) (by decide) (by decide)

/-! ## C4: ordinal bounds -/

theorem ordinalsInRange_reverseComplement (ordinals : List (Nat × Nat))
    (markerCount0 markerCount1 : Nat) (h0 : markerCount0 < 2 ^ 32) (h1 : markerCount1 < 2 ^ 32)
    (hrange : ∀ o ∈ ordinals, o.1 < markerCount0 ∧ o.2 < markerCount1) :
    ∀ o ∈ (Alignment.reverseComplement ⟨ordinals⟩ markerCount0 markerCount1).ordinals,
      o.1 < markerCount0 ∧ o.2 < markerCount1 := by
  intro o ho
  simp only [Alignment.reverseComplement, List.mem_reverse, List.mem_map] at ho
  obtain ⟨p, hp, rfl⟩ := ho
  have hp' := hrange p hp
  dsimp only
  rw [sub32_reflect _ _ h0 hp'.1, sub32_reflect _ _ h1 hp'.2]
  omega

theorem Assembler.markerCount_flipStrand (assembler : Assembler)
    (hstrands : ∀ o : OrientedReadId,
      assembler.markersSize o.flipStrand.getValue = assembler.markersSize o.getValue)
    (o : OrientedReadId) : assembler.markerCount o.flipStrand = assembler.markerCount o := by
  unfold Assembler.markerCount
  rw [hstrands]

/-- C4. Ordinal bounds are preserved by canonicalization: if every stored pair (o0, o1)
has o0 below the marker count of the stored first read and o1 below that of the stored
second read, then every pair of the returned alignment has ordinal0 below the marker count
of the query and ordinal1 below the marker count of the returned partner. A read has the
same number of markers on both strands. -/
theorem getStoredAlignments_ordinalsInRange (assembler : Assembler)
    (orientedReadId0 : OrientedReadId) (alignments : List StoredAlignmentInformation)
    (info : StoredAlignmentInformation)
    (hstrands : ∀ o : OrientedReadId,
      assembler.markersSize o.flipStrand.getValue = assembler.markersSize o.getValue)
    (hret : getStoredAlignments assembler orientedReadId0 = .ok alignments)
    (hmem : info ∈ alignments)
    (hrange : OrdinalsInRange assembler
      (storedOrientedReadIds (assembler.alignmentData info.alignmentId))
      (assembler.decompressed info.alignmentId)) :
    OrdinalsInRange assembler (orientedReadId0, info.orientedReadId)
      info.alignment.ordinals := by
  have hbody := (getStoredAlignmentsLoop_mem _ _ _ _
    (getStoredAlignments_ok _ _ _ hret) info hmem).2
  obtain ⟨hread, -, -, hpartner, halignment⟩ := getStoredAlignmentsBody_ok _ _ _ _ hbody
  have hfirst := afterReverseComplement_fst orientedReadId0 _ hread
  have hr := ordinalsInRange_afterSwap assembler orientedReadId0 _ _ hrange
  rw [halignment, hpartner]
  dsimp only
  generalize afterSwap orientedReadId0
    (storedOrientedReadIds (assembler.alignmentData info.alignmentId)) = swapped at *
  generalize (if needsSwap orientedReadId0
      (storedOrientedReadIds (assembler.alignmentData info.alignmentId)) then
        Alignment.swap ⟨assembler.decompressed info.alignmentId⟩
      else (⟨assembler.decompressed info.alignmentId⟩ : Alignment)) = alignment at *
  unfold afterReverseComplement at hfirst ⊢
  split
  · rename_i hrc
    rw [if_pos hrc] at hfirst
    have h := ordinalsInRange_reverseComplement _ _ _ (assembler.markerCount_lt _)
      (assembler.markerCount_lt _) hr
    intro o ho
    have ho' := h o ho
    have h1 : assembler.markerCount orientedReadId0 = assembler.markerCount swapped.1 := by
      rw [← hfirst]
      exact assembler.markerCount_flipStrand hstrands _
    dsimp only
    rw [assembler.markerCount_flipStrand hstrands, h1]
    exact ho'
  · rename_i hrc
    rw [if_neg hrc] at hfirst
    intro o ho
    have ho' := hr o ho
    have h1 : assembler.markerCount orientedReadId0 = assembler.markerCount swapped.1 := by
      rw [← hfirst]
    dsimp only
    rw [h1]
    exact ho'

/-- C4 at a concrete alignment: alignment 1 of the example store seen from read 0 on
strand 0; the returned pairs `[(1, 0), (4, 4)]` are below the 5 markers of the query and
the 6 markers of the partner. -/
theorem getStoredAlignments_ordinalsInRange_witness :
    OrdinalsInRange exampleAssembler
      (⟨0⟩, (⟨1, ⟨[(1, 0), (4, 4)]⟩, ⟨5⟩⟩ : StoredAlignmentInformation).orientedReadId)
      (⟨1, ⟨[(1, 0), (4, 4)]⟩, ⟨5⟩⟩ : StoredAlignmentInformation).alignment.ordinals :=
  getStoredAlignments_ordinalsInRange exampleAssembler ⟨0⟩
    [⟨0, ⟨[(0, 1), (2, 2), (4, 3)]⟩, ⟨2⟩⟩, ⟨1, ⟨[(1, 0), (4, 4)]⟩, ⟨5⟩⟩]
    ⟨1, ⟨[(1, 0), (4, 4)]⟩, ⟨5⟩⟩
    (by
      intro o
      simp only [exampleAssembler, OrientedReadId.getReadId_flipStrand o,
        show o.flipStrand.getValue / 2 = o.flipStrand.getReadId from rfl,
        show o.getValue / 2 = o.getReadId from rfl])
    (by rfl) (by decide) (by decide)

/-! ## The sortedness check and the binary search of the second overload -/

theorem checkSortedLoop_ok_iff (orientedReadIds1 : List OrientedReadId) :
    checkSortedLoop orientedReadIds1 = .ok () ↔ SortedIds orientedReadIds1 := by
  induction orientedReadIds1 with
  | nil => simp [checkSortedLoop, SortedIds]
  | cons a rest ih =>
    cases rest with
    | nil => simp [checkSortedLoop, SortedIds]
    | cons b rest =>
      unfold checkSortedLoop SortedIds
      by_cases hab : a < b
      · simp only [hab, if_true, true_and]
        exact ih
      · simp only [hab, if_false, false_and]
        constructor
        · intro h
          cases h
        · intro h
          exact h.elim

theorem checkSortedLoop_error (orientedReadIds1 : List OrientedReadId) (e : Failure)
    (h : checkSortedLoop orientedReadIds1 = .error e) : e = .notSorted := by
  induction orientedReadIds1 with
  | nil => cases h
  | cons a rest ih =>
    cases rest with
    | nil => cases h
    | cons b rest =>
      unfold checkSortedLoop at h
      split at h
      · exact ih h
      · cases h
        rfl

/-- In a sorted list the encodings do not decrease with the index. -/
theorem sortedIds_getD_le (orientedReadIds1 : List OrientedReadId)
    (hsorted : SortedIds orientedReadIds1) (i j : Nat) (hij : i ≤ j)
    (hj : j < orientedReadIds1.length) :
    (orientedReadIds1.getD i ⟨0⟩).value ≤ (orientedReadIds1.getD j ⟨0⟩).value := by
  rw [sortedIds_iff_chain'] at hsorted
  have htrans : IsTrans OrientedReadId (fun previous current => previous < current) :=
    ⟨fun a b c (hab : a.value < b.value) (hbc : b.value < c.value) =>
      (Nat.lt_trans hab hbc : a.value < c.value)⟩
  have hp := (List.chain'_iff_pairwise).1 hsorted
  rw [List.pairwise_iff_getElem] at hp
  rcases Nat.eq_or_lt_of_le hij with h | h
  · subst h
    exact Nat.le_refl _
  · have hlt : orientedReadIds1[i] < orientedReadIds1[j] := hp i j (by omega) hj h
    rw [List.getD_eq_getElem _ _ (by omega : i < orientedReadIds1.length),
      List.getD_eq_getElem _ _ hj]
    exact Nat.le_of_lt hlt

/-- The invariant of the `std::lower_bound` loop on a sorted list: everything before the
result is less than `x`, nothing from the result on is. -/
theorem lowerBoundLoop_spec (orientedReadIds1 : List OrientedReadId) (x : OrientedReadId)
    (hsorted : SortedIds orientedReadIds1) (fuel : Nat) :
    ∀ first len : Nat, len ≤ fuel → first + len ≤ orientedReadIds1.length →
      (∀ i, i < first → (orientedReadIds1.getD i ⟨0⟩).value < x.value) →
      (∀ i, first + len ≤ i → i < orientedReadIds1.length →
        x.value ≤ (orientedReadIds1.getD i ⟨0⟩).value) →
      lowerBoundLoop orientedReadIds1 x fuel first len ≤ orientedReadIds1.length ∧
      (∀ i, i < lowerBoundLoop orientedReadIds1 x fuel first len →
        (orientedReadIds1.getD i ⟨0⟩).value < x.value) ∧
      (∀ i, lowerBoundLoop orientedReadIds1 x fuel first len ≤ i →
        i < orientedReadIds1.length → x.value ≤ (orientedReadIds1.getD i ⟨0⟩).value) := by
  induction fuel with
  | zero =>
    intro first len hfuel hlen hbelow habove
    have hl : len = 0 := by omega
    subst hl
    exact ⟨by simpa [lowerBoundLoop] using hlen, by simpa [lowerBoundLoop] using hbelow,
      by simpa [lowerBoundLoop] using habove⟩
  | succ fuel ih =>
    intro first len hfuel hlen hbelow habove
    unfold lowerBoundLoop
    by_cases hl : len = 0
    · subst hl
      simp only [if_true]
      exact ⟨by omega, hbelow, by simpa using habove⟩
    · simp only [hl, if_false]
      have hmid : first + len / 2 < orientedReadIds1.length := by omega
      by_cases hlt : orientedReadIds1.getD (first + len / 2) ⟨0⟩ < x
      · rw [if_pos hlt]
        apply ih
        · omega
        · omega
        · intro i hi
          have hle := sortedIds_getD_le orientedReadIds1 hsorted i (first + len / 2)
            (by omega) hmid
          have hlt' : (orientedReadIds1.getD (first + len / 2) ⟨0⟩).value < x.value := hlt
          omega
        · intro i hi hin
          exact habove i (by omega) hin
      · rw [if_neg hlt]
        apply ih
        · omega
        · omega
        · exact hbelow
        · intro i hi hin
          have hle := sortedIds_getD_le orientedReadIds1 hsorted (first + len / 2) i hi hin
          have hge : ¬ (orientedReadIds1.getD (first + len / 2) ⟨0⟩).value < x.value := hlt
          omega

/-- On a sorted list `std::binary_search` decides membership. -/
theorem binarySearch_eq_decide_mem (orientedReadIds1 : List OrientedReadId)
    (x : OrientedReadId) (hsorted : SortedIds orientedReadIds1) :
    binarySearch orientedReadIds1 x = decide (x ∈ orientedReadIds1) := by
  obtain ⟨hle, hbelow, habove⟩ := lowerBoundLoop_spec orientedReadIds1 x hsorted
    orientedReadIds1.length 0 orientedReadIds1.length (Nat.le_refl _) (by omega)
    (fun i hi => absurd hi (Nat.not_lt_zero i)) (fun i hi hin => by omega)
  unfold binarySearch
  change lowerBound orientedReadIds1 x ≤ _ at hle
  change ∀ i, i < lowerBound orientedReadIds1 x → _ at hbelow
  change ∀ i, lowerBound orientedReadIds1 x ≤ i → _ at habove
  generalize lowerBound orientedReadIds1 x = r at hle hbelow habove
  dsimp only
  by_cases hmem : x ∈ orientedReadIds1
  · rw [decide_eq_true hmem]
    obtain ⟨j, hj, hjx⟩ := List.getElem_of_mem hmem
    have hjx' : orientedReadIds1.getD j ⟨0⟩ = x := by
      rw [List.getD_eq_getElem _ _ hj]
      exact hjx
    have hrj : r ≤ j := by
      by_contra hcon
      have := hbelow j (by omega)
      rw [hjx'] at this
      omega
    have hrn : r ≠ orientedReadIds1.length := by omega
    have hmono := sortedIds_getD_le orientedReadIds1 hsorted r j hrj hj
    rw [hjx'] at hmono
    have hnlt : ¬ x < orientedReadIds1.getD r ⟨0⟩ := by
      intro hcon
      have hcon' : x.value < (orientedReadIds1.getD r ⟨0⟩).value := hcon
      omega
    rw [decide_eq_true hrn, decide_eq_false hnlt]
    rfl
  · rw [decide_eq_false hmem]
    by_cases hrn : r = orientedReadIds1.length
    · simp [hrn]
    · have hr : r < orientedReadIds1.length := by omega
      have hge := habove r (Nat.le_refl _) hr
      have hne : orientedReadIds1.getD r ⟨0⟩ ≠ x := by
        intro hcon
        apply hmem
        rw [← hcon, List.getD_eq_getElem _ _ hr]
        exact List.getElem_mem _
      have hlt : x < orientedReadIds1.getD r ⟨0⟩ := by
        show x.value < (orientedReadIds1.getD r ⟨0⟩).value
        rcases Nat.eq_or_lt_of_le hge with h | h
        · exfalso
          apply hne
          cases hx : x with
          | mk v =>
            cases hy : orientedReadIds1.getD r ⟨0⟩ with
            | mk w =>
              rw [hx, hy] at h
              simp only at h
              rw [h]
        · exact h
      rw [decide_eq_true hrn, decide_eq_true hlt]
      rfl

/-! ## C5: the second overload filters the result of the first -/

/-- When the first overload's body returns an entry, the second overload's body returns
the same entry or skips it, according to the binary search of its partner. -/
theorem getStoredAlignmentsFilteredBody_of_body (assembler : Assembler)
    (orientedReadId0 : OrientedReadId) (orientedReadIds1 : List OrientedReadId)
    (alignmentId : Nat) (info : StoredAlignmentInformation)
    (hstrands : ∀ o : OrientedReadId,
      assembler.markersSize o.flipStrand.getValue = assembler.markersSize o.getValue)
    (hbody : getStoredAlignmentsBody assembler orientedReadId0 alignmentId = .ok info) :
    getStoredAlignmentsFilteredBody assembler orientedReadId0 orientedReadIds1 alignmentId =
      .ok (if binarySearch orientedReadIds1 info.orientedReadId then some info else none) := by
  obtain ⟨hread, hlen, hid, hpartner, halignment⟩ := getStoredAlignmentsBody_ok _ _ _ _ hbody
  rw [getStoredAlignmentsFilteredBody_eq assembler orientedReadId0 orientedReadIds1
    alignmentId hread]
  dsimp only
  rw [← hpartner]
  cases hb : binarySearch orientedReadIds1 info.orientedReadId
  · simp
  · simp only [Bool.not_true, Bool.false_eq_true, if_false, hlen, ne_eq, not_true_eq_false,
      if_true, Except.ok.injEq, Option.some.injEq]
    cases info with
    | mk infoId infoAlignment infoPartner =>
      simp only at hid hpartner halignment
      rw [hid, halignment]
      dsimp only
      simp only [StoredAlignmentInformation.mk.injEq, true_and, and_true]
      split
      · rename_i hrc
        rw [hpartner]
        unfold afterReverseComplement
        rw [if_pos hrc]
        dsimp only
        rw [assembler.markerCount_flipStrand hstrands, assembler.markerCount_flipStrand hstrands]
      · rfl

/-- The loop of the second overload returns the filtered result of the loop of the
first, when the latter returns. -/
theorem getStoredAlignmentsFilteredLoop_of_loop (assembler : Assembler)
    (orientedReadId0 : OrientedReadId) (orientedReadIds1 : List OrientedReadId)
    (hstrands : ∀ o : OrientedReadId,
      assembler.markersSize o.flipStrand.getValue = assembler.markersSize o.getValue)
    (alignmentIds : List Nat) (alignments : List StoredAlignmentInformation)
    (hret : getStoredAlignmentsLoop assembler orientedReadId0 alignmentIds = .ok alignments) :
    getStoredAlignmentsFilteredLoop assembler orientedReadId0 orientedReadIds1 alignmentIds =
      .ok (alignments.filter fun info => binarySearch orientedReadIds1 info.orientedReadId) := by
  have h := (getStoredAlignmentsLoop_ok_iff _ _ _ _).1 hret
  clear hret
  induction h with
  | nil => rfl
  | @cons i info rest tail hhead _ ih =>
    unfold getStoredAlignmentsFilteredLoop
    rw [getStoredAlignmentsFilteredBody_of_body assembler orientedReadId0 orientedReadIds1 i
      info hstrands hhead, ih]
    dsimp only
    cases hb : binarySearch orientedReadIds1 info.orientedReadId
    · simp [List.filter_cons, hb]
    · simp [List.filter_cons, hb]

/-- C5. For every store, query and strictly sorted allow-list, the second (filtered)
overload of `getStoredAlignments` returns exactly the sub-sequence, in the same order, of
the result of the first overload whose partner oriented read is in the allow-list, with
the same alignmentId, partner and canonicalized ordinal pairs, provided a read has the
same marker count on both strands. -/
theorem getStoredAlignmentsFiltered_eq_filter (assembler : Assembler)
    (orientedReadId0 : OrientedReadId) (orientedReadIds1 : List OrientedReadId)
    (alignments : List StoredAlignmentInformation)
    (hsorted : SortedIds orientedReadIds1)
    (hstrands : ∀ o : OrientedReadId,
      assembler.markersSize o.flipStrand.getValue = assembler.markersSize o.getValue)
    (hret : getStoredAlignments assembler orientedReadId0 = .ok alignments) :
    getStoredAlignmentsFiltered assembler orientedReadId0 orientedReadIds1 =
      .ok (alignments.filter fun info => decide (info.orientedReadId ∈ orientedReadIds1)) := by
  have hloop := getStoredAlignments_ok _ _ _ hret
  unfold getStoredAlignments at hret
  unfold getStoredAlignmentsFiltered
  rw [(checkSortedLoop_ok_iff orientedReadIds1).2 hsorted]
  dsimp only
  cases hopen : checkOpen assembler with
  | error e =>
    rw [hopen] at hret
    cases hret
  | ok u =>
    dsimp only
    rw [getStoredAlignmentsFilteredLoop_of_loop assembler orientedReadId0 orientedReadIds1
      hstrands _ _ hloop]
    congr 2
    funext info
    exact binarySearch_eq_decide_mem orientedReadIds1 info.orientedReadId hsorted

/-- C5 at a concrete query: read 0 on strand 1 of the example store with the allow-list
`[4]` (read 2 on strand 0) keeps the second of the two alignments. -/
theorem getStoredAlignmentsFiltered_eq_filter_witness :
    getStoredAlignmentsFiltered exampleAssembler ⟨1⟩ [⟨4⟩] =
      .ok (([⟨0, ⟨[(0, 0), (2, 1), (4, 2)]⟩, ⟨3⟩⟩, ⟨1, ⟨[(0, 1), (3, 5)]⟩, ⟨4⟩⟩] :
        List StoredAlignmentInformation).filter
          fun info => decide (info.orientedReadId ∈ [(⟨4⟩ : OrientedReadId)])) :=
  getStoredAlignmentsFiltered_eq_filter exampleAssembler ⟨1⟩ [⟨4⟩]
    [⟨0, ⟨[(0, 0), (2, 1), (4, 2)]⟩, ⟨3⟩⟩, ⟨1, ⟨[(0, 1), (3, 5)]⟩, ⟨4⟩⟩]
    (by decide)
    (by
      intro o
      simp only [exampleAssembler, OrientedReadId.getReadId_flipStrand o,
        show o.flipStrand.getValue / 2 = o.flipStrand.getReadId from rfl,
        show o.getValue / 2 = o.getReadId from rfl])
    (by rfl)

/-! ## C6: the sortedness check of the second overload -/

theorem checkOpen_error (assembler : Assembler) (e : Failure)
    (h : checkOpen assembler = .error e) : e ≠ .notSorted := by
  unfold checkOpen at h
  split at h
  · cases h; decide
  · split at h
    · cases h; decide
    · split at h
      · cases h; decide
      · cases h

theorem getStoredAlignmentsFilteredBody_error (assembler : Assembler)
    (orientedReadId0 : OrientedReadId) (orientedReadIds1 : List OrientedReadId)
    (alignmentId : Nat) (e : Failure)
    (h : getStoredAlignmentsFilteredBody assembler orientedReadId0 orientedReadIds1
      alignmentId = .error e) : e ≠ .notSorted := by
  unfold getStoredAlignmentsFilteredBody at h
  dsimp only at h
  split at h
  · cases h; decide
  · split at h
    · cases h; decide
    · split at h
      · cases h
      · split at h
        · cases h; decide
        · cases h

theorem getStoredAlignmentsFilteredLoop_error (assembler : Assembler)
    (orientedReadId0 : OrientedReadId) (orientedReadIds1 : List OrientedReadId)
    (alignmentIds : List Nat) (e : Failure)
    (h : getStoredAlignmentsFilteredLoop assembler orientedReadId0 orientedReadIds1
      alignmentIds = .error e) : e ≠ .notSorted := by
  induction alignmentIds with
  | nil => cases h
  | cons i rest ih =>
    unfold getStoredAlignmentsFilteredLoop at h
    cases hb : getStoredAlignmentsFilteredBody assembler orientedReadId0 orientedReadIds1 i with
    | error e1 =>
      rw [hb] at h
      cases h
      exact getStoredAlignmentsFilteredBody_error _ _ _ _ _ hb
    | ok found =>
      rw [hb] at h
      cases hl : getStoredAlignmentsFilteredLoop assembler orientedReadId0 orientedReadIds1
          rest with
      | error e2 =>
        rw [hl] at h
        cases h
        exact ih hl
      | ok tail =>
        rw [hl] at h
        cases found <;> cases h

/-- The claim C6 as stated fails: with the sorted allow-list `[2]` the second overload
still fails on the corrupted record of `mismatchAssembler`, so failure does not imply an
unsorted list. -/
theorem getStoredAlignmentsFiltered_fails_iff_unsorted_counterexample :
    ¬ ((∃ e, getStoredAlignmentsFiltered mismatchAssembler ⟨0⟩ [⟨2⟩] = .error e) ↔
      ¬ SortedIds [⟨2⟩]) := by
  intro h
  exact h.1 ⟨.markerCountMismatch, by rfl⟩ (by decide)

/-- C6, amended. The second overload of `getStoredAlignments` fails in its sortedness
check if and only if its allow-list is not strictly increasing under the `OrientedReadId`
order; the check comes first, so an unsorted list is rejected with that failure whatever
the store holds, while a sorted list can only fail through the later assertions. -/
theorem getStoredAlignmentsFiltered_notSorted_iff (assembler : Assembler)
    (orientedReadId0 : OrientedReadId) (orientedReadIds1 : List OrientedReadId) :
    getStoredAlignmentsFiltered assembler orientedReadId0 orientedReadIds1 =
      .error .notSorted ↔ ¬ SortedIds orientedReadIds1 := by
  unfold getStoredAlignmentsFiltered
  constructor
  · intro h hsorted
    rw [(checkSortedLoop_ok_iff orientedReadIds1).2 hsorted] at h
    dsimp only at h
    cases hopen : checkOpen assembler with
    | error e =>
      rw [hopen] at h
      dsimp only at h
      cases h
      exact checkOpen_error _ _ hopen rfl
    | ok u =>
      rw [hopen] at h
      exact getStoredAlignmentsFilteredLoop_error _ _ _ _ _ h rfl
  · intro hns
    cases hc : checkSortedLoop orientedReadIds1 with
    | error e =>
      dsimp only
      rw [checkSortedLoop_error _ _ hc]
    | ok u =>
      exact absurd ((checkSortedLoop_ok_iff orientedReadIds1).1 hc) hns

/-! ## C7: the marker-count assertion -/

theorem Alignment.length_swap (a : Alignment) : a.swap.ordinals.length = a.ordinals.length := by
  simp [Alignment.swap]

theorem Alignment.length_reverseComplement (a : Alignment) (markerCount0 markerCount1 : Nat) :
    (a.reverseComplement markerCount0 markerCount1).ordinals.length = a.ordinals.length := by
  simp [Alignment.reverseComplement]

/-- The swap and the reverse complement, applied or not, keep the number of pairs. -/
theorem length_transformed (ordinals : List (Nat × Nat)) (doSwap doReverseComplement : Bool)
    (markerCount0 markerCount1 : Nat) :
    (if doReverseComplement = true then
        (if doSwap = true then Alignment.swap ⟨ordinals⟩
          else (⟨ordinals⟩ : Alignment)).reverseComplement markerCount0 markerCount1
      else
        (if doSwap = true then Alignment.swap ⟨ordinals⟩
          else (⟨ordinals⟩ : Alignment))).ordinals.length = ordinals.length := by
  cases doSwap <;> cases doReverseComplement <;>
    simp [Alignment.length_swap, Alignment.length_reverseComplement]

/-- What the second overload's body returns, when it returns an entry. -/
theorem getStoredAlignmentsFilteredBody_ok (assembler : Assembler)
    (orientedReadId0 : OrientedReadId) (orientedReadIds1 : List OrientedReadId)
    (alignmentId : Nat) (info : StoredAlignmentInformation)
    (hret : getStoredAlignmentsFilteredBody assembler orientedReadId0 orientedReadIds1
      alignmentId = .ok (some info)) :
    info.alignmentId = alignmentId ∧
    info.alignment.ordinals.length = (assembler.alignmentData alignmentId).markerCount := by
  by_cases h : (afterSwap orientedReadId0
      (storedOrientedReadIds (assembler.alignmentData alignmentId))).1.getReadId =
        orientedReadId0.getReadId
  · rw [getStoredAlignmentsFilteredBody_eq assembler orientedReadId0 orientedReadIds1
      alignmentId h] at hret
    dsimp only at hret
    split at hret
    · cases hret
    · split at hret
      · cases hret
      · rename_i hlen
        simp only [Except.ok.injEq, Option.some.injEq] at hret
        rw [← hret]
        refine ⟨rfl, ?_⟩
        dsimp only
        rw [length_transformed]
        exact not_not.1 hlen
  · rw [getStoredAlignmentsFilteredBody_of_ne assembler orientedReadId0 orientedReadIds1
      alignmentId h] at hret
    cases hret

/-- Every body of the second overload's loop returned, and every returned entry comes
from the body at one of the alignment ids, when the loop returns. -/
theorem getStoredAlignmentsFilteredLoop_ok (assembler : Assembler)
    (orientedReadId0 : OrientedReadId) (orientedReadIds1 : List OrientedReadId)
    (alignmentIds : List Nat) :
    ∀ alignments : List StoredAlignmentInformation,
      getStoredAlignmentsFilteredLoop assembler orientedReadId0 orientedReadIds1
        alignmentIds = .ok alignments →
      (∀ i ∈ alignmentIds, ∃ found,
        getStoredAlignmentsFilteredBody assembler orientedReadId0 orientedReadIds1 i =
          .ok found) ∧
      (∀ info ∈ alignments, ∃ i ∈ alignmentIds,
        getStoredAlignmentsFilteredBody assembler orientedReadId0 orientedReadIds1 i =
          .ok (some info)) := by
  induction alignmentIds with
  | nil =>
    intro alignments h
    simp only [getStoredAlignmentsFilteredLoop, Except.ok.injEq] at h
    subst h
    exact ⟨fun i hi => (by cases hi), fun info hinfo => (by cases hinfo)⟩
  | cons i rest ih =>
    intro alignments h
    unfold getStoredAlignmentsFilteredLoop at h
    cases hb : getStoredAlignmentsFilteredBody assembler orientedReadId0 orientedReadIds1 i with
    | error e => rw [hb] at h; cases h
    | ok found =>
      rw [hb] at h
      cases hl : getStoredAlignmentsFilteredLoop assembler orientedReadId0 orientedReadIds1
          rest with
      | error e => rw [hl] at h; cases h
      | ok tail =>
        rw [hl] at h
        obtain ⟨ih1, ih2⟩ := ih tail hl
        constructor
        · intro j hj
          rcases List.mem_cons.1 hj with hji | hji
          · subst hji
            exact ⟨found, hb⟩
          · exact ih1 j hji
        · intro info hinfo
          cases found with
          | none =>
            simp only [Except.ok.injEq] at h
            subst h
            obtain ⟨j, hj, hjb⟩ := ih2 info hinfo
            exact ⟨j, List.mem_cons_of_mem _ hj, hjb⟩
          | some info1 =>
            simp only [Except.ok.injEq] at h
            subst h
            rcases List.mem_cons.1 hinfo with hi1 | hi1
            · subst hi1
              exact ⟨i, List.mem_cons_self _ _, hb⟩
            · obtain ⟨j, hj, hjb⟩ := ih2 info hi1
              exact ⟨j, List.mem_cons_of_mem _ hj, hjb⟩

/-- The second overload returns the result of its loop when it returns. -/
theorem getStoredAlignmentsFiltered_ok (assembler : Assembler)
    (orientedReadId0 : OrientedReadId) (orientedReadIds1 : List OrientedReadId)
    (alignments : List StoredAlignmentInformation)
    (hret : getStoredAlignmentsFiltered assembler orientedReadId0 orientedReadIds1 =
      .ok alignments) :
    getStoredAlignmentsFilteredLoop assembler orientedReadId0 orientedReadIds1
      (assembler.alignmentTable orientedReadId0.getValue) = .ok alignments := by
  unfold getStoredAlignmentsFiltered at hret
  split at hret
  · cases hret
  · split at hret
    · cases hret
    · exact hret

/-- C7. Both overloads of `getStoredAlignments` fail whenever the decompressed ordinal-pair
list of an alignment they are about to return (for the second overload: one whose partner
is found by the binary search) has a length different from the markerCount of the stored
metadata; consequently every alignment they return has exactly markerCount pairs. -/
theorem getStoredAlignments_markerCount (assembler : Assembler)
    (orientedReadId0 : OrientedReadId) (orientedReadIds1 : List OrientedReadId) :
    (∀ i ∈ assembler.alignmentTable orientedReadId0.getValue,
      (assembler.decompressed i).length ≠ (assembler.alignmentData i).markerCount →
      ∃ e, getStoredAlignments assembler orientedReadId0 = .error e) ∧
    (∀ i ∈ assembler.alignmentTable orientedReadId0.getValue,
      (assembler.decompressed i).length ≠ (assembler.alignmentData i).markerCount →
      binarySearch orientedReadIds1
        (afterReverseComplement orientedReadId0
          (afterSwap orientedReadId0
            (storedOrientedReadIds (assembler.alignmentData i)))).2 = true →
      ∃ e, getStoredAlignmentsFiltered assembler orientedReadId0 orientedReadIds1 =
        .error e) ∧
    (∀ alignments, getStoredAlignments assembler orientedReadId0 = .ok alignments →
      ∀ info ∈ alignments,
        info.alignment.ordinals.length =
          (assembler.alignmentData info.alignmentId).markerCount) ∧
    (∀ alignments,
      getStoredAlignmentsFiltered assembler orientedReadId0 orientedReadIds1 =
        .ok alignments →
      ∀ info ∈ alignments,
        info.alignment.ordinals.length =
          (assembler.alignmentData info.alignmentId).markerCount) := by
  refine ⟨?_, ?_, ?_, ?_⟩
  · intro i hi hlen
    cases hret : getStoredAlignments assembler orientedReadId0 with
    | error e => exact ⟨e, rfl⟩
    | ok alignments =>
      exfalso
      have hloop := getStoredAlignments_ok _ _ _ hret
      have hbody : getStoredAlignmentsBody assembler orientedReadId0 i =
          .error .markerCountMismatch := by
        unfold getStoredAlignmentsBody
        simp only [ne_eq, hlen, not_false_eq_true, if_true]
      obtain ⟨e, he⟩ := getStoredAlignmentsLoop_error_of_mem _ _ _ i _ hi hbody
      rw [he] at hloop
      cases hloop
  · intro i hi hlen hfound
    cases hret : getStoredAlignmentsFiltered assembler orientedReadId0 orientedReadIds1 with
    | error e => exact ⟨e, rfl⟩
    | ok alignments =>
      exfalso
      have hloop := getStoredAlignmentsFiltered_ok _ _ _ _ hret
      obtain ⟨found, hb⟩ := (getStoredAlignmentsFilteredLoop_ok _ _ _ _ _ hloop).1 i hi
      by_cases h : (afterSwap orientedReadId0
          (storedOrientedReadIds (assembler.alignmentData i))).1.getReadId =
            orientedReadId0.getReadId
      · rw [getStoredAlignmentsFilteredBody_eq assembler orientedReadId0 orientedReadIds1
          i h] at hb
        dsimp only at hb
        rw [hfound] at hb
        simp only [Bool.not_true, Bool.false_eq_true, if_false, ne_eq, hlen,
          not_false_eq_true, if_true] at hb
        cases hb
      · rw [getStoredAlignmentsFilteredBody_of_ne assembler orientedReadId0 orientedReadIds1
          i h] at hb
        cases hb
  · intro alignments hret info hmem
    have hbody := (getStoredAlignmentsLoop_mem _ _ _ _
      (getStoredAlignments_ok _ _ _ hret) info hmem).2
    obtain ⟨-, hlen, -, -, halignment⟩ := getStoredAlignmentsBody_ok _ _ _ _ hbody
    rw [halignment]
    dsimp only
    rw [length_transformed]
    exact hlen
  · intro alignments hret info hmem
    have hloop := getStoredAlignmentsFiltered_ok _ _ _ _ hret
    obtain ⟨i, -, hb⟩ := (getStoredAlignmentsFilteredLoop_ok _ _ _ _ _ hloop).2 info hmem
    obtain ⟨hid, hlen⟩ := getStoredAlignmentsFilteredBody_ok _ _ _ _ _ hb
    rw [hid]
    exact hlen

/-- C7 at a concrete store: the corrupted record of `mismatchAssembler` makes both
overloads fail for read 0 on strand 0. -/
theorem getStoredAlignments_markerCount_witness :
    (∃ e, getStoredAlignments mismatchAssembler ⟨0⟩ = .error e) ∧
    (∃ e, getStoredAlignmentsFiltered mismatchAssembler ⟨0⟩ [⟨2⟩] = .error e) :=
  ⟨(getStoredAlignments_markerCount mismatchAssembler ⟨0⟩ [⟨2⟩]).1 0 (by decide) (by decide),
   (getStoredAlignments_markerCount mismatchAssembler ⟨0⟩ [⟨2⟩]).2.1 0 (by decide) (by decide)
     (by rfl)⟩

/-! ## C8, C9: where strict increase is re-validated -/

theorem checkStrictlyIncreasingLoop_eq (ordinals : List (Nat × Nat)) :
    Alignment.checkStrictlyIncreasingLoop ordinals =
      if StrictlyIncreasing ordinals then .ok () else .error .notStrictlyIncreasing := by
  induction ordinals with
  | nil => simp [Alignment.checkStrictlyIncreasingLoop, StrictlyIncreasing]
  | cons a rest ih =>
    cases rest with
    | nil => simp [Alignment.checkStrictlyIncreasingLoop, StrictlyIncreasing]
    | cons b rest =>
      unfold Alignment.checkStrictlyIncreasingLoop StrictlyIncreasing
      rw [ih]
      by_cases h1 : a.1 < b.1
      · by_cases h2 : a.2 < b.2
        · simp [h1, h2]
        · simp [h1, h2]
      · simp [h1]

/-- The loop over the canonical alignments accepts them exactly when all of them are
strictly increasing, and otherwise fails in `checkStrictlyIncreasing`. -/
theorem checkAllStrictlyIncreasing_eq (alignments : List StoredAlignmentInformation) :
    checkAllStrictlyIncreasing alignments =
      if ∀ info ∈ alignments, StrictlyIncreasing info.alignment.ordinals then .ok ()
      else .error .notStrictlyIncreasing := by
  induction alignments with
  | nil => simp [checkAllStrictlyIncreasing]
  | cons p rest ih =>
    unfold checkAllStrictlyIncreasing Alignment.checkStrictlyIncreasing
    rw [checkStrictlyIncreasingLoop_eq, ih]
    by_cases hp : StrictlyIncreasing p.alignment.ordinals
    · by_cases hrest : ∀ info ∈ rest, StrictlyIncreasing info.alignment.ordinals
      · simp [hp, hrest]
      · simp [hp, hrest]
    · simp [hp]

theorem getStoredAlignmentsLoop_error (assembler : Assembler) (orientedReadId0 : OrientedReadId)
    (alignmentIndexes : List Nat) (e : Failure)
    (h : getStoredAlignmentsLoop assembler orientedReadId0 alignmentIndexes = .error e) :
    e = .markerCountMismatch ∨ e = .readIdMismatch ∨ e = .orientedReadIdMismatch := by
  induction alignmentIndexes with
  | nil => cases h
  | cons i rest ih =>
    unfold getStoredAlignmentsLoop at h
    cases hb : getStoredAlignmentsBody assembler orientedReadId0 i with
    | error e1 =>
      rw [hb] at h
      cases h
      unfold getStoredAlignmentsBody at hb
      dsimp only at hb
      split at hb
      · cases hb; exact Or.inl rfl
      · split at hb
        · cases hb; exact Or.inr (Or.inl rfl)
        · split at hb
          · cases hb; exact Or.inr (Or.inr rfl)
          · cases hb
    | ok info =>
      rw [hb] at h
      cases hl : getStoredAlignmentsLoop assembler orientedReadId0 rest with
      | error e2 =>
        rw [hl] at h
        cases h
        exact ih hl
      | ok tail =>
        rw [hl] at h
        cases h

/-- The claim C8 as stated fails: for read 0 on strand 0 of `crossingAssembler` the first
overload returns the crossing alignment, which is not strictly increasing. -/
theorem getStoredAlignments_revalidates_counterexample :
    getStoredAlignments crossingAssembler ⟨0⟩ =
      .ok [⟨0, ⟨[(0, 1), (4, 2), (2, 3)]⟩, ⟨2⟩⟩, ⟨1, ⟨[(1, 0), (4, 4)]⟩, ⟨5⟩⟩] ∧
    ¬ StrictlyIncreasing [(0, 1), (4, 2), (2, 3)] :=
  ⟨by rfl, by decide⟩

/-- C8, amended. Strict increase is re-validated after the swap / reverse complement, not
by `getStoredAlignments`, which never fails for that reason, but by the
`checkStrictlyIncreasing` loop that `analyzeAlignments1` and `analyzeAlignments3` run on
its result: that loop fails exactly when some returned alignment is not strictly increasing
in both coordinates. -/
theorem strictIncrease_revalidated_by_callers (assembler : Assembler)
    (orientedReadId0 : OrientedReadId) (alignments : List StoredAlignmentInformation) :
    getStoredAlignments assembler orientedReadId0 ≠ .error .notStrictlyIncreasing ∧
    (checkAllStrictlyIncreasing alignments = .error .notStrictlyIncreasing ↔
      ∃ info ∈ alignments, ¬ StrictlyIncreasing info.alignment.ordinals) := by
  constructor
  · intro h
    unfold getStoredAlignments at h
    cases hopen : checkOpen assembler with
    | error e =>
      rw [hopen] at h
      dsimp only at h
      unfold checkOpen at hopen
      split at hopen
      · cases hopen; cases h
      · split at hopen
        · cases hopen; cases h
        · split at hopen
          · cases hopen; cases h
          · cases hopen
    | ok u =>
      rw [hopen] at h
      rcases getStoredAlignmentsLoop_error _ _ _ _ h with h1 | h1 | h1 <;> cases h1
  · rw [checkAllStrictlyIncreasing_eq]
    by_cases hall : ∀ info ∈ alignments, StrictlyIncreasing info.alignment.ordinals
    · rw [if_pos hall]
      constructor
      · intro h
        cases h
      · rintro ⟨info, hmem, hbad⟩
        exact absurd (hall info hmem) hbad
    · rw [if_neg hall]
      simp only [true_iff]
      by_contra hcon
      apply hall
      intro info hmem
      by_contra hbad
      exact hcon ⟨info, hmem, hbad⟩

/-- A returned alignment that is strictly increasing comes from a stored list that is
strictly increasing, when the stored ordinals are within the marker counts: the swap and
the reverse complement are undone by themselves. -/
theorem strictlyIncreasing_stored_of_returned (assembler : Assembler)
    (orientedReadId0 : OrientedReadId) (alignmentIndex : Nat)
    (info : StoredAlignmentInformation)
    (hbody : getStoredAlignmentsBody assembler orientedReadId0 alignmentIndex = .ok info)
    (hrange : OrdinalsInRange assembler
      (storedOrientedReadIds (assembler.alignmentData alignmentIndex))
      (assembler.decompressed alignmentIndex))
    (hinfo : StrictlyIncreasing info.alignment.ordinals) :
    StrictlyIncreasing (assembler.decompressed alignmentIndex) := by
  obtain ⟨-, -, -, -, halignment⟩ := getStoredAlignmentsBody_ok _ _ _ _ hbody
  rw [halignment] at hinfo
  dsimp only at hinfo
  have hr := ordinalsInRange_afterSwap assembler orientedReadId0 _ _ hrange
  have hswapped : StrictlyIncreasing
      (if needsSwap orientedReadId0
          (storedOrientedReadIds (assembler.alignmentData alignmentIndex)) then
        Alignment.swap ⟨assembler.decompressed alignmentIndex⟩
      else (⟨assembler.decompressed alignmentIndex⟩ : Alignment)).ordinals := by
    generalize (if needsSwap orientedReadId0
        (storedOrientedReadIds (assembler.alignmentData alignmentIndex)) then
          Alignment.swap ⟨assembler.decompressed alignmentIndex⟩
        else (⟨assembler.decompressed alignmentIndex⟩ : Alignment)) = alignment at *
    split at hinfo
    · have h32 : OrdinalsAreUint32 alignment.ordinals := by
        intro o ho
        have h1 := assembler.markerCount_lt (afterSwap orientedReadId0
          (storedOrientedReadIds (assembler.alignmentData alignmentIndex))).1
        have h2 := assembler.markerCount_lt (afterSwap orientedReadId0
          (storedOrientedReadIds (assembler.alignmentData alignmentIndex))).2
        have h3 := hr o ho
        exact ⟨by omega, by omega⟩
      have h := strictlyIncreasing_reverseComplement _ _ _ (assembler.markerCount_lt _)
        (assembler.markerCount_lt _)
        (ordinalsInRange_reverseComplement _ _ _ (assembler.markerCount_lt _)
          (assembler.markerCount_lt _) hr) hinfo
      rw [show (⟨(alignment.reverseComplement _ _).ordinals⟩ : Alignment) =
        alignment.reverseComplement _ _ from rfl,
        Alignment.reverseComplement_reverseComplement _ _ _ h32] at h
      exact h
    · exact hinfo
  split at hswapped
  · have h := strictlyIncreasing_swap _ hswapped
    rw [show (⟨(Alignment.swap ⟨assembler.decompressed alignmentIndex⟩).ordinals⟩ :
        Alignment) = Alignment.swap ⟨assembler.decompressed alignmentIndex⟩ from rfl,
      Alignment.swap_swap] at h
    exact h
  · exact hswapped

/-- The claim C9 as stated fails: the list `[(7, 0), (2, 1)]` stored in `wrapAssembler` is
out of order, but for read 0 on strand 1 its reflection wraps around 2^32 and the returned
alignment is strictly increasing, so the strict-increase check passes: `analyzeAlignments3`
goes on with the alignment, and `analyzeAlignments1` aborts only later, in the range
assertion of the ordinal table. -/
theorem analyzeAlignments_out_of_order_counterexample :
    ¬ StrictlyIncreasing (wrapAssembler.decompressed 0) ∧
    getStoredAlignments wrapAssembler (OrientedReadId.ofReadIdStrand 0 1) =
      .ok [⟨0, ⟨[(2, 3), (4294967293, 4)]⟩, ⟨3⟩⟩] ∧
    checkAllStrictlyIncreasing [⟨0, ⟨[(2, 3), (4294967293, 4)]⟩, ⟨3⟩⟩] = .ok () ∧
    analyzeAlignments1 wrapAssembler 0 1 = .error .ordinalOutOfRange ∧
    ∀ (β : Type) (continuation : List StoredAlignmentInformation → Except Failure β),
      analyzeAlignments3 wrapAssembler 0 1 continuation =
        continuation [⟨0, ⟨[(2, 3), (4294967293, 4)]⟩, ⟨3⟩⟩] :=
  ⟨by decide, by rfl, by rfl, by rfl, fun _ _ => by rfl⟩

/-- C9, amended. Scenario B at invocation level: when an alignment that canonicalization
returns for the query has an out-of-order ordinal pair, or comes from a stored list with an
out-of-order ordinal pair whose ordinals are within the marker counts, `analyzeAlignments1`
and `analyzeAlignments3` abort in their strict-increase check, directly after
`getStoredAlignments` and before the ordinal table or anything that follows the check
(whatever it is) is built. -/
theorem analyzeAlignments_abort_out_of_order (assembler : Assembler) (readId0 strand0 : Nat)
    (alignments : List StoredAlignmentInformation)
    (hret : getStoredAlignments assembler (OrientedReadId.ofReadIdStrand readId0 strand0) =
      .ok alignments)
    (hbad : ∃ info ∈ alignments,
      ¬ StrictlyIncreasing info.alignment.ordinals ∨
      (¬ StrictlyIncreasing (assembler.decompressed info.alignmentId) ∧
        OrdinalsInRange assembler
          (storedOrientedReadIds (assembler.alignmentData info.alignmentId))
          (assembler.decompressed info.alignmentId))) :
    analyzeAlignments1 assembler readId0 strand0 = .error .notStrictlyIncreasing ∧
    ∀ (β : Type) (continuation : List StoredAlignmentInformation → Except Failure β),
      analyzeAlignments3 assembler readId0 strand0 continuation =
        .error .notStrictlyIncreasing := by
  have hcheck : checkAllStrictlyIncreasing alignments = .error .notStrictlyIncreasing := by
    rw [checkAllStrictlyIncreasing_eq]
    obtain ⟨info, hmem, hinfo⟩ := hbad
    rw [if_neg]
    intro hall
    rcases hinfo with hinfo | ⟨hstored, hrange⟩
    · exact hinfo (hall info hmem)
    · have hbody := (getStoredAlignmentsLoop_mem _ _ _ _
        (getStoredAlignments_ok _ _ _ hret) info hmem).2
      exact hstored
        (strictlyIncreasing_stored_of_returned _ _ _ _ hbody hrange (hall info hmem))
  constructor
  · unfold analyzeAlignments1
    dsimp only
    rw [hret]
    dsimp only
    rw [hcheck]
  · intro β continuation
    unfold analyzeAlignments3
    dsimp only
    rw [hret]
    dsimp only
    rw [hcheck]

/-- C9 at a concrete store: the crossing alignment of `crossingAssembler` makes both
analyses of read 0 on strand 0 abort in the strict-increase check. -/
theorem analyzeAlignments_abort_out_of_order_witness :
    analyzeAlignments1 crossingAssembler 0 0 = .error .notStrictlyIncreasing ∧
    ∀ (β : Type) (continuation : List StoredAlignmentInformation → Except Failure β),
      analyzeAlignments3 crossingAssembler 0 0 continuation = .error .notStrictlyIncreasing :=
  analyzeAlignments_abort_out_of_order crossingAssembler 0 0
    [⟨0, ⟨[(0, 1), (4, 2), (2, 3)]⟩, ⟨2⟩⟩, ⟨1, ⟨[(1, 0), (4, 4)]⟩, ⟨5⟩⟩]
    (by rfl)
    ⟨⟨0, ⟨[(0, 1), (4, 2), (2, 3)]⟩, ⟨2⟩⟩, by decide, Or.inr ⟨by decide, by decide⟩⟩

/-! ## C10: out-of-range ordinals -/

theorem fillOrdinalTableColumn_error (markerCount0 i : Nat) (ordinals : List (Nat × Nat)) :
    ∀ (ordinalTable : List (List Nat)) (e : Failure),
      fillOrdinalTableColumn markerCount0 i ordinals ordinalTable = .error e →
      e = .ordinalOutOfRange := by
  induction ordinals with
  | nil =>
    intro ordinalTable e h
    cases h
  | cons o rest ih =>
    intro ordinalTable e h
    unfold fillOrdinalTableColumn at h
    split at h
    · exact ih _ _ h
    · cases h
      rfl

theorem fillOrdinalTableColumn_of_out_of_range (markerCount0 i : Nat)
    (ordinals : List (Nat × Nat)) (hbad : ∃ o ∈ ordinals, ¬ o.1 < markerCount0) :
    ∀ ordinalTable : List (List Nat),
      fillOrdinalTableColumn markerCount0 i ordinals ordinalTable =
        .error .ordinalOutOfRange := by
  induction ordinals with
  | nil =>
    obtain ⟨o, ho, -⟩ := hbad
    cases ho
  | cons p rest ih =>
    intro ordinalTable
    unfold fillOrdinalTableColumn
    by_cases hp : p.1 < markerCount0
    · rw [if_pos hp]
      apply ih
      obtain ⟨o, ho, hlt⟩ := hbad
      rcases List.mem_cons.1 ho with h | h
      · subst h
        exact absurd hp hlt
      · exact ⟨o, h, hlt⟩
    · rw [if_neg hp]

theorem fillOrdinalTable_of_out_of_range (markerCount0 : Nat)
    (alignments : List StoredAlignmentInformation)
    (hbad : ∃ info ∈ alignments, ∃ o ∈ info.alignment.ordinals, ¬ o.1 < markerCount0) :
    ∀ (i : Nat) (ordinalTable : List (List Nat)),
      fillOrdinalTable markerCount0 alignments i ordinalTable = .error .ordinalOutOfRange := by
  induction alignments with
  | nil =>
    obtain ⟨info, hinfo, -⟩ := hbad
    cases hinfo
  | cons p rest ih =>
    intro i ordinalTable
    unfold fillOrdinalTable
    cases hc : fillOrdinalTableColumn markerCount0 i p.alignment.ordinals ordinalTable with
    | error e =>
      dsimp only
      rw [fillOrdinalTableColumn_error _ _ _ _ _ hc]
    | ok filled =>
      dsimp only
      apply ih
      obtain ⟨info, hinfo, o, ho, hlt⟩ := hbad
      rcases List.mem_cons.1 hinfo with h | h
      · subst h
        rw [fillOrdinalTableColumn_of_out_of_range _ _ _ ⟨o, ho, hlt⟩] at hc
        cases hc
      · exact ⟨info, h, o, ho, hlt⟩

/-- The claim C10 as stated fails: alignment 0 of `outOfRangeAssembler` refers to marker 7
of a read with 5 markers, and the first overload returns it for read 0 on strand 0. -/
theorem getStoredAlignments_out_of_range_counterexample :
    getStoredAlignments outOfRangeAssembler ⟨0⟩ =
      .ok [⟨0, ⟨[(0, 1), (2, 2), (7, 3)]⟩, ⟨2⟩⟩, ⟨1, ⟨[(1, 0), (4, 4)]⟩, ⟨5⟩⟩] ∧
    ¬ OrdinalsInRange outOfRangeAssembler
      (storedOrientedReadIds (outOfRangeAssembler.alignmentData 0))
      (outOfRangeAssembler.decompressed 0) :=
  ⟨by rfl, by decide⟩

theorem fillOrdinalTableColumn_ok (markerCount0 i : Nat) (ordinals : List (Nat × Nat))
    (hrange : ∀ o ∈ ordinals, o.1 < markerCount0) :
    ∀ ordinalTable : List (List Nat),
      ∃ filled, fillOrdinalTableColumn markerCount0 i ordinals ordinalTable = .ok filled := by
  induction ordinals with
  | nil => exact fun ordinalTable => ⟨ordinalTable, rfl⟩
  | cons o rest ih =>
    intro ordinalTable
    unfold fillOrdinalTableColumn
    rw [if_pos (hrange o (List.mem_cons_self _ _))]
    exact ih (fun x hx => hrange x (List.mem_cons_of_mem _ hx)) _

theorem fillOrdinalTable_ok (markerCount0 : Nat) (alignments : List StoredAlignmentInformation)
    (hrange : ∀ info ∈ alignments, ∀ o ∈ info.alignment.ordinals, o.1 < markerCount0) :
    ∀ (i : Nat) (ordinalTable : List (List Nat)),
      ∃ filled, fillOrdinalTable markerCount0 alignments i ordinalTable = .ok filled := by
  induction alignments with
  | nil => exact fun _ ordinalTable => ⟨ordinalTable, rfl⟩
  | cons p rest ih =>
    intro i ordinalTable
    obtain ⟨column, hcolumn⟩ := fillOrdinalTableColumn_ok markerCount0 i p.alignment.ordinals
      (hrange p (List.mem_cons_self _ _)) ordinalTable
    unfold fillOrdinalTable
    rw [hcolumn]
    exact ih (fun q hq => hrange q (List.mem_cons_of_mem _ hq)) _ _

/-- The body of the first overload returns for a record whatever ordinals are stored in
it, as long as their number is the same. -/
theorem getStoredAlignmentsBody_of_same_length (assembler : Assembler)
    (decompressed : Nat → List (Nat × Nat)) (orientedReadId0 : OrientedReadId)
    (alignmentIndex : Nat) (info : StoredAlignmentInformation)
    (hlength : (decompressed alignmentIndex).length =
      (assembler.decompressed alignmentIndex).length)
    (hret : getStoredAlignmentsBody assembler orientedReadId0 alignmentIndex = .ok info) :
    ∃ info', getStoredAlignmentsBody { assembler with decompressed := decompressed }
        orientedReadId0 alignmentIndex = .ok info' ∧
      info'.alignmentId = info.alignmentId ∧ info'.orientedReadId = info.orientedReadId := by
  obtain ⟨hread, hcount, hid, hpartner, -⟩ := getStoredAlignmentsBody_ok _ _ _ _ hret
  have hbody := getStoredAlignmentsBody_eq { assembler with decompressed := decompressed }
    orientedReadId0 alignmentIndex hread
  rw [if_neg (by
    intro hne
    apply hne
    show (decompressed alignmentIndex).length = _
    rw [hlength]
    exact hcount)] at hbody
  exact ⟨_, hbody, hid.symm, hpartner.symm⟩

theorem getStoredAlignmentsLoop_of_same_length (assembler : Assembler)
    (decompressed : Nat → List (Nat × Nat)) (orientedReadId0 : OrientedReadId)
    (hlength : ∀ i, (decompressed i).length = (assembler.decompressed i).length)
    (alignmentIndexes : List Nat) (alignments : List StoredAlignmentInformation)
    (hret : getStoredAlignmentsLoop assembler orientedReadId0 alignmentIndexes =
      .ok alignments) :
    ∃ alignments', getStoredAlignmentsLoop { assembler with decompressed := decompressed }
        orientedReadId0 alignmentIndexes = .ok alignments' ∧
      alignments'.map (fun info => (info.alignmentId, info.orientedReadId)) =
        alignments.map (fun info => (info.alignmentId, info.orientedReadId)) := by
  induction alignmentIndexes generalizing alignments with
  | nil =>
    simp only [getStoredAlignmentsLoop, Except.ok.injEq] at hret
    rw [← hret]
    exact ⟨[], rfl, rfl⟩
  | cons i rest ih =>
    unfold getStoredAlignmentsLoop at hret
    split at hret
    · cases hret
    · rename_i info hinfo
      split at hret
      · cases hret
      · rename_i tail htail
        simp only [Except.ok.injEq] at hret
        obtain ⟨info', hinfo', hid, hpartner⟩ :=
          getStoredAlignmentsBody_of_same_length assembler decompressed orientedReadId0 i info
            (hlength i) hinfo
        obtain ⟨tail', htail', hmap⟩ := ih tail htail
        refine ⟨info' :: tail', ?_, ?_⟩
        · unfold getStoredAlignmentsLoop
          rw [hinfo', htail']
        · rw [← hret, List.map_cons, List.map_cons, hmap, hid, hpartner]

/-- C10, amended. `getStoredAlignments` makes no range check: every alignment it returns
is the stored list as it is, swapped, or reflected modulo 2^32, and the call returns the
same alignments of the same partners whatever ordinals are stored (in the same number),
so an alignment with an ordinal that is not below the marker count of its read is
returned. The range check is the assertion `ordinal0 < markerCount0` of
`analyzeAlignments1`: once the strict-increase check has passed, `analyzeAlignments1`
fails in that assertion when a returned alignment contains a first ordinal that is not
below the marker count of the query, and builds the ordinal table when there is none;
second ordinals are not compared with any marker count. -/
theorem analyzeAlignments1_fails_out_of_range (assembler : Assembler) (readId0 strand0 : Nat)
    (alignments : List StoredAlignmentInformation)
    (hret : getStoredAlignments assembler (OrientedReadId.ofReadIdStrand readId0 strand0) =
      .ok alignments) :
    (∀ info ∈ alignments,
      info.alignment =
        (let stored := storedOrientedReadIds (assembler.alignmentData info.alignmentId)
         let swapped := afterSwap (OrientedReadId.ofReadIdStrand readId0 strand0) stored
         let alignment : Alignment := ⟨assembler.decompressed info.alignmentId⟩
         let alignment :=
           if needsSwap (OrientedReadId.ofReadIdStrand readId0 strand0) stored then
             alignment.swap
           else alignment
         if needsReverseComplement (OrientedReadId.ofReadIdStrand readId0 strand0) swapped then
           alignment.reverseComplement
             (assembler.markerCount swapped.1) (assembler.markerCount swapped.2)
         else alignment)) ∧
    (∀ decompressed : Nat → List (Nat × Nat),
      (∀ i, (decompressed i).length = (assembler.decompressed i).length) →
      ∃ alignments',
        getStoredAlignments { assembler with decompressed := decompressed }
          (OrientedReadId.ofReadIdStrand readId0 strand0) = .ok alignments' ∧
        alignments'.map (fun info => (info.alignmentId, info.orientedReadId)) =
          alignments.map (fun info => (info.alignmentId, info.orientedReadId))) ∧
    ((∃ info ∈ alignments, ¬ StrictlyIncreasing info.alignment.ordinals) →
      analyzeAlignments1 assembler readId0 strand0 = .error .notStrictlyIncreasing) ∧
    ((∀ info ∈ alignments, StrictlyIncreasing info.alignment.ordinals) →
      (∃ info ∈ alignments, ∃ o ∈ info.alignment.ordinals,
        ¬ o.1 < assembler.markerCount (OrientedReadId.ofReadIdStrand readId0 strand0)) →
      analyzeAlignments1 assembler readId0 strand0 = .error .ordinalOutOfRange) ∧
    ((∀ info ∈ alignments, StrictlyIncreasing info.alignment.ordinals) →
      (∀ info ∈ alignments, ∀ o ∈ info.alignment.ordinals,
        o.1 < assembler.markerCount (OrientedReadId.ofReadIdStrand readId0 strand0)) →
      ∃ ordinalTable,
        analyzeAlignments1 assembler readId0 strand0 = .ok (alignments, ordinalTable)) := by
  have hloop := getStoredAlignments_ok _ _ _ hret
  refine ⟨?_, ?_, ?_, ?_, ?_⟩
  · intro info hinfo
    obtain ⟨-, hbody⟩ := getStoredAlignmentsLoop_mem _ _ _ _ hloop info hinfo
    exact (getStoredAlignmentsBody_ok _ _ _ _ hbody).2.2.2.2
  · intro decompressed hlength
    obtain ⟨alignments', hret', hmap⟩ := getStoredAlignmentsLoop_of_same_length assembler
      decompressed _ hlength _ _ hloop
    refine ⟨alignments', ?_, hmap⟩
    unfold getStoredAlignments at hret ⊢
    have hopen : checkOpen { assembler with decompressed := decompressed } =
        checkOpen assembler := rfl
    rw [hopen]
    split
    · rename_i e he
      rw [he] at hret
      cases hret
    · exact hret'
  · intro hbad
    unfold analyzeAlignments1
    dsimp only
    rw [hret]
    dsimp only
    rw [checkAllStrictlyIncreasing_eq, if_neg]
    intro hall
    obtain ⟨info, hinfo, hnot⟩ := hbad
    exact hnot (hall info hinfo)
  · intro hall hbad
    unfold analyzeAlignments1
    dsimp only
    rw [hret]
    dsimp only
    rw [checkAllStrictlyIncreasing_eq, if_pos hall]
    dsimp only
    rw [fillOrdinalTable_of_out_of_range _ _ hbad]
  · intro hall hrange
    obtain ⟨ordinalTable, htable⟩ := fillOrdinalTable_ok _ alignments hrange 0
      (List.replicate (assembler.markerCount (OrientedReadId.ofReadIdStrand readId0 strand0))
        (List.replicate alignments.length invalidOrdinal))
    refine ⟨ordinalTable, ?_⟩
    unfold analyzeAlignments1
    dsimp only
    rw [hret]
    dsimp only
    rw [checkAllStrictlyIncreasing_eq, if_pos hall]
    dsimp only
    rw [htable]

/-- C10 at concrete stores: the analysis of read 0 on strand 0 of `outOfRangeAssembler`
fails in the range assertion, on the first ordinal 7; that of `secondOutOfRangeAssembler`
builds the ordinal table although the second ordinal 9 refers to a read of 4 markers. -/
theorem analyzeAlignments1_fails_out_of_range_witness :
    analyzeAlignments1 outOfRangeAssembler 0 0 = .error .ordinalOutOfRange ∧
    ¬ OrdinalsInRange secondOutOfRangeAssembler
      (storedOrientedReadIds (secondOutOfRangeAssembler.alignmentData 0))
      (secondOutOfRangeAssembler.decompressed 0) ∧
    ∃ ordinalTable,
      analyzeAlignments1 secondOutOfRangeAssembler 0 0 =
        .ok ([⟨0, ⟨[(0, 1), (2, 2), (4, 9)]⟩, ⟨2⟩⟩, ⟨1, ⟨[(1, 0), (4, 4)]⟩, ⟨5⟩⟩],
          ordinalTable) :=
  ⟨(analyzeAlignments1_fails_out_of_range outOfRangeAssembler 0 0
      [⟨0, ⟨[(0, 1), (2, 2), (7, 3)]⟩, ⟨2⟩⟩, ⟨1, ⟨[(1, 0), (4, 4)]⟩, ⟨5⟩⟩]
      (by rfl)).2.2.2.1 (by decide)
      ⟨⟨0, ⟨[(0, 1), (2, 2), (7, 3)]⟩, ⟨2⟩⟩, by decide, (7, 3), by decide, by decide⟩,
    by decide,
    (analyzeAlignments1_fails_out_of_range secondOutOfRangeAssembler 0 0
      [⟨0, ⟨[(0, 1), (2, 2), (4, 9)]⟩, ⟨2⟩⟩, ⟨1, ⟨[(1, 0), (4, 4)]⟩, ⟨5⟩⟩]
      (by rfl)).2.2.2.2 (by decide) (by decide)⟩

/-! ## C11, C12: the coverage filter -/

theorem getStrand_lt_two (o : OrientedReadId) : o.getStrand < 2 := by
  unfold OrientedReadId.getStrand
  omega

/-- The general form of the loop that fills `coveragePerStrand`, from any start. -/
theorem coveragePerStrand_foldl (orientedReadIds : List OrientedReadId)
    (occurrences : List (Nat × Nat)) (start : Nat × Nat) :
    occurrences.foldl
      (fun coverage p =>
        let sequenceId := p.1
        let orientedReadId := orientedReadIds.getD sequenceId ⟨0⟩
        if orientedReadId.getStrand = 0 then (coverage.1 + 1, coverage.2)
        else (coverage.1, coverage.2 + 1))
      start =
    (start.1 +
        (occurrences.filter fun p => (orientedReadIds.getD p.1 ⟨0⟩).getStrand = 0).length,
      start.2 +
        (occurrences.filter fun p => (orientedReadIds.getD p.1 ⟨0⟩).getStrand = 1).length) := by
  induction occurrences generalizing start with
  | nil => simp
  | cons p rest ih =>
    rw [List.foldl_cons, ih]
    have h2 := getStrand_lt_two (orientedReadIds.getD p.1 ⟨0⟩)
    by_cases h : (orientedReadIds.getD p.1 ⟨0⟩).getStrand = 0
    · simp only [h, if_true, List.filter_cons, decide_True, zero_ne_one, decide_False,
        List.length_cons, Bool.false_eq_true, if_false]
      ext
      · simp only
        omega
      · simp only
    · have h1 : (orientedReadIds.getD p.1 ⟨0⟩).getStrand = 1 := by omega
      simp only [h1, one_ne_zero, if_false, List.filter_cons, decide_True, decide_False,
        List.length_cons, Bool.false_eq_true, if_true]
      ext
      · simp only
      · simp only
        omega

/-- The entries of `coveragePerStrand` are the numbers of occurrences on each strand. -/
theorem coverageOfStrand_coveragePerStrand (orientedReadIds : List OrientedReadId)
    (v : DeBruijnVertex) (strand : Nat) (hstrand : strand < 2) :
    coverageOfStrand (coveragePerStrand orientedReadIds v.occurrences) strand =
      occurrencesOnStrand orientedReadIds strand v := by
  unfold coveragePerStrand
  rw [coveragePerStrand_foldl]
  unfold coverageOfStrand occurrencesOnStrand
  by_cases h : strand = 0
  · subst h
    simp
  · have h1 : strand = 1 := by omega
    subst h1
    simp

/-- The test for removal, in terms of the three coverages of the vertex. -/
theorem isLowCoverageVertex_eq_false_iff
    (minTotalCoverage minSameStrandCoverage minOppositeStrandCoverage : Nat)
    (orientedReadIds : List OrientedReadId) (v : DeBruijnVertex) :
    isLowCoverageVertex minTotalCoverage minSameStrandCoverage minOppositeStrandCoverage
        orientedReadIds v = false ↔
      minTotalCoverage ≤ v.occurrences.length ∧
      minSameStrandCoverage ≤
        occurrencesOnStrand orientedReadIds (queryStrand orientedReadIds) v ∧
      minOppositeStrandCoverage ≤
        occurrencesOnStrand orientedReadIds (1 - queryStrand orientedReadIds) v := by
  have h2 := getStrand_lt_two (orientedReadIds.getLastD ⟨0⟩)
  unfold isLowCoverageVertex queryStrand
  dsimp only
  rw [coverageOfStrand_coveragePerStrand _ _ _ h2,
    coverageOfStrand_coveragePerStrand _ _ _ (by omega)]
  by_cases ht : v.occurrences.length < minTotalCoverage
  · simp only [ht, if_true, Bool.true_eq_false, false_iff]
    omega
  · simp only [ht, if_false, Bool.or_eq_false_iff, decide_eq_false_iff_not]
    omega

/-- Removing the vertices of a list one by one lowers the multiplicity of each vertex by
its multiplicity in the list. -/
theorem count_foldl_removeVertex (removed : List DeBruijnVertex)
    (graph : AnalyzeAlignments2Graph) (v : DeBruijnVertex) :
    (removed.foldl removeVertex graph).vertices.count v =
      graph.vertices.count v - removed.count v := by
  induction removed generalizing graph with
  | nil => simp
  | cons r rest ih =>
    rw [List.foldl_cons, ih]
    unfold removeVertex
    dsimp only
    by_cases h : v = r
    · subst h
      rw [List.count_erase_self, List.count_cons_self]
      omega
    · rw [List.count_erase_of_ne h, List.count_cons_of_ne h]

/-- C11. Coverage-filter soundness and completeness: after `removeLowCoverageVertices` a
vertex of the input graph is still present if and only if its occurrence count is at least
`minTotalCoverage`, its number of occurrences whose owning oriented read is on the strand
of the query (the last entry of `orientedReadIds`) is at least `minSameStrandCoverage`,
and its number of occurrences on the other strand is at least
`minOppositeStrandCoverage`. -/
theorem removeLowCoverageVertices_mem_iff (graph : AnalyzeAlignments2Graph)
    (minTotalCoverage minSameStrandCoverage minOppositeStrandCoverage : Nat)
    (orientedReadIds : List OrientedReadId) (v : DeBruijnVertex) :
    v ∈ (removeLowCoverageVertices graph minTotalCoverage minSameStrandCoverage
        minOppositeStrandCoverage orientedReadIds).vertices ↔
      v ∈ graph.vertices ∧
      minTotalCoverage ≤ v.occurrences.length ∧
      minSameStrandCoverage ≤
        occurrencesOnStrand orientedReadIds (queryStrand orientedReadIds) v ∧
      minOppositeStrandCoverage ≤
        occurrencesOnStrand orientedReadIds (1 - queryStrand orientedReadIds) v := by
  rw [← isLowCoverageVertex_eq_false_iff, ← List.count_pos_iff]
  unfold removeLowCoverageVertices
  dsimp only
  rw [count_foldl_removeVertex]
  cases hlow : isLowCoverageVertex minTotalCoverage minSameStrandCoverage
      minOppositeStrandCoverage orientedReadIds v
  · have hnot : v ∉ graph.vertices.filter
        (isLowCoverageVertex minTotalCoverage minSameStrandCoverage
          minOppositeStrandCoverage orientedReadIds) := by
      intro hmem
      rw [List.mem_filter] at hmem
      rw [hlow] at hmem
      exact Bool.false_ne_true hmem.2
    rw [List.count_eq_zero_of_not_mem hnot, Nat.sub_zero, List.count_pos_iff]
    simp
  · rw [List.count_filter hlow]
    simp

theorem occurrencesOnStrand_of_all (orientedReadIds : List OrientedReadId)
    (v : DeBruijnVertex) (strand : Nat)
    (hall : ∀ p ∈ v.occurrences, (orientedReadIds.getD p.1 ⟨0⟩).getStrand = strand) :
    occurrencesOnStrand orientedReadIds strand v = v.occurrences.length := by
  unfold occurrencesOnStrand
  rw [List.filter_eq_self.2]
  intro p hp
  exact decide_eq_true (hall p hp)

theorem occurrencesOnStrand_of_none (orientedReadIds : List OrientedReadId)
    (v : DeBruijnVertex) (strand : Nat)
    (hnone : ∀ p ∈ v.occurrences, (orientedReadIds.getD p.1 ⟨0⟩).getStrand ≠ strand) :
    occurrencesOnStrand orientedReadIds strand v = 0 := by
  unfold occurrencesOnStrand
  rw [List.length_eq_zero, List.filter_eq_nil_iff]
  intro p hp
  simpa using hnone p hp

/-- The claim C12 as stated fails: with `minOppositeStrandCoverage = 2` and the other two
thresholds 0, vertex 1 of `exampleGraph`, whose two occurrences are both on the strand
opposite to the query, is kept. -/
theorem removeLowCoverageVertices_single_strand_counterexample :
    (∀ p ∈ [((0 : Nat), (1 : Nat)), (1, 1)],
      (([⟨1⟩, ⟨3⟩, ⟨4⟩, ⟨0⟩] : List OrientedReadId).getD p.1 ⟨0⟩).getStrand =
        1 - queryStrand [⟨1⟩, ⟨3⟩, ⟨4⟩, ⟨0⟩]) ∧
    (⟨1, [(0, 1), (1, 1)]⟩ : DeBruijnVertex) ∈
      (removeLowCoverageVertices exampleGraph 0 0 2 [⟨1⟩, ⟨3⟩, ⟨4⟩, ⟨0⟩]).vertices := by
  decide

/-- C12, amended. Scenario C: `removeLowCoverageVertices` called with
`minOppositeStrandCoverage = 2` removes every vertex all of whose occurrences are on the
strand of the query, whatever the other two thresholds are; a vertex all of whose
occurrences are on the opposite strand is removed unless `minSameStrandCoverage` is 0 and
it has at least `minTotalCoverage` and at least 2 occurrences. -/
theorem removeLowCoverageVertices_single_strand (graph : AnalyzeAlignments2Graph)
    (minTotalCoverage minSameStrandCoverage : Nat)
    (orientedReadIds : List OrientedReadId) (v : DeBruijnVertex)
    (hsingle :
      (∀ p ∈ v.occurrences,
        (orientedReadIds.getD p.1 ⟨0⟩).getStrand = queryStrand orientedReadIds) ∨
      (∀ p ∈ v.occurrences,
        (orientedReadIds.getD p.1 ⟨0⟩).getStrand = 1 - queryStrand orientedReadIds)) :
    v ∈ (removeLowCoverageVertices graph minTotalCoverage minSameStrandCoverage 2
        orientedReadIds).vertices ↔
      v ∈ graph.vertices ∧
      (∀ p ∈ v.occurrences,
        (orientedReadIds.getD p.1 ⟨0⟩).getStrand = 1 - queryStrand orientedReadIds) ∧
      minSameStrandCoverage = 0 ∧
      minTotalCoverage ≤ v.occurrences.length ∧
      2 ≤ v.occurrences.length := by
  have hq : queryStrand orientedReadIds < 2 := getStrand_lt_two _
  rw [removeLowCoverageVertices_mem_iff]
  rcases hsingle with hsame | hopposite
  · rw [occurrencesOnStrand_of_all _ _ _ hsame,
      occurrencesOnStrand_of_none _ _ _ (fun p hp => by rw [hsame p hp]; omega)]
    constructor
    · intro h
      omega
    · rintro ⟨_, hopp, _, _, hlen⟩
      exfalso
      cases hocc : v.occurrences with
      | nil => rw [hocc] at hlen; simp at hlen
      | cons p rest =>
        have h1 := hsame p (by rw [hocc]; exact List.mem_cons_self _ _)
        have h2 := hopp p (by rw [hocc]; exact List.mem_cons_self _ _)
        omega
  · rw [occurrencesOnStrand_of_all _ _ _ hopposite,
      occurrencesOnStrand_of_none _ _ _ (fun p hp => by rw [hopposite p hp]; omega)]
    constructor
    · rintro ⟨hmem, htotal, hsame, hopp⟩
      exact ⟨hmem, hopposite, by omega, htotal, hopp⟩
    · rintro ⟨hmem, _, hsame, htotal, hlen⟩
      exact ⟨hmem, htotal, by omega, hlen⟩

/-- C12 at a concrete graph: vertex 2 of `exampleGraph`, whose occurrences are all on the
strand of the query, is removed with the thresholds 0, 0, 2. -/
theorem removeLowCoverageVertices_single_strand_witness :
    (⟨2, [(2, 1), (3, 1)]⟩ : DeBruijnVertex) ∉
      (removeLowCoverageVertices exampleGraph 0 0 2 [⟨1⟩, ⟨3⟩, ⟨4⟩, ⟨0⟩]).vertices := by
  intro h
  have h1 := ((removeLowCoverageVertices_single_strand exampleGraph 0 0
    [⟨1⟩, ⟨3⟩, ⟨4⟩, ⟨0⟩] ⟨2, [(2, 1), (3, 1)]⟩ (Or.inl (by decide))).1 h).2.1
  exact absurd (h1 (2, 1) (by decide)) (by decide)

/-! ## C13, C14: the branch matrices -/

theorem mem_sequencePairs (n a b : Nat) : (a, b) ∈ sequencePairs n ↔ a < b ∧ b < n := by
  unfold sequencePairs
  simp only [List.mem_flatMap, List.mem_range, List.mem_map, List.mem_range'_1, Prod.mk.injEq]
  constructor
  · rintro ⟨s0, hs0, s1, hs1, rfl, rfl⟩
    omega
  · rintro ⟨hab, hbn⟩
    exact ⟨a, by omega, b, by omega, rfl, rfl⟩

theorem mem_sequencePairs' (n : Nat) (p : Nat × Nat) :
    p ∈ sequencePairs n ↔ p.1 < p.2 ∧ p.2 < n := by
  cases p with
  | mk a b => exact mem_sequencePairs n a b

theorem isSquare_replicate (n : Nat) : IsSquare n (List.replicate n (List.replicate n 0)) := by
  constructor
  · simp
  · intro row hrow
    rw [List.eq_of_mem_replicate hrow]
    simp

theorem getD_set_eq {α : Type} (l : List α) (i j : Nat) (a d : α) :
    (l.set i a).getD j d = if i = j ∧ i < l.length then a else l.getD j d := by
  simp only [List.getD_eq_getElem?_getD, List.getElem?_set]
  by_cases hij : i = j
  · subst hij
    by_cases hi : i < l.length
    · simp [hi]
    · simp only [hi, if_false, and_false, if_true]
      rw [List.getElem?_eq_none (by omega)]
  · simp [hij]

theorem entry_replicate (n x y : Nat) :
    entry (List.replicate n (List.replicate n 0)) x y = 0 := by
  unfold entry
  simp only [List.getD_eq_getElem?_getD, List.getElem?_replicate]
  by_cases hx : x < n
  · simp only [hx, if_true, Option.getD_some, List.getElem?_replicate]
    by_cases hy : y < n
    · simp [hy]
    · simp [hy]
  · simp [hx]

theorem length_getD_of_isSquare (n : Nat) (matrix : List (List Nat)) (i : Nat)
    (h : IsSquare n matrix) (hi : i < n) : (matrix.getD i []).length = n := by
  obtain ⟨hlen, hrows⟩ := h
  have hi' : i < matrix.length := by omega
  rw [List.getD_eq_getElem _ _ hi']
  exact hrows _ (List.getElem_mem _)

theorem isSquare_setEntry (n : Nat) (matrix : List (List Nat)) (i j value : Nat)
    (h : IsSquare n matrix) (hi : i < n) : IsSquare n (setEntry matrix i j value) := by
  have hrow := length_getD_of_isSquare n matrix i h hi
  obtain ⟨hlen, hrows⟩ := h
  unfold setEntry
  constructor
  · simp [hlen]
  · intro row hrow'
    rcases List.mem_or_eq_of_mem_set hrow' with hmem | heq
    · exact hrows row hmem
    · rw [heq, List.length_set]
      exact hrow

theorem entry_setEntry (n : Nat) (matrix : List (List Nat)) (i j value x y : Nat)
    (h : IsSquare n matrix) (hi : i < n) (hj : j < n) :
    entry (setEntry matrix i j value) x y =
      if x = i ∧ y = j then value else entry matrix x y := by
  have hrow := length_getD_of_isSquare n matrix i h hi
  obtain ⟨hlen, hrows⟩ := h
  unfold entry setEntry
  rw [getD_set_eq]
  by_cases hx : i = x
  · subst hx
    rw [if_pos ⟨rfl, by omega⟩, getD_set_eq]
    by_cases hy : j = y
    · subst hy
      rw [if_pos ⟨rfl, by omega⟩, if_pos ⟨rfl, rfl⟩]
    · rw [if_neg (fun hc => hy hc.1), if_neg (fun hc => hy hc.2.symm)]
  · rw [if_neg (fun hc => hx hc.1), if_neg (fun hc => hx hc.1.symm)]

/-- The nested loops over a list of pairs `(s0, s1)` with `s0 < s1 < n`: both matrices stay
square, and an entry holds the count of its pair if the pair or its mirror image was
visited, and its old value otherwise. -/
theorem entry_foldl_branchMatricesStep (signatures : List (List Int)) (n : Nat)
    (pairs : List (Nat × Nat)) (hpairs : ∀ p ∈ pairs, p.1 < p.2 ∧ p.2 < n) :
    ∀ (matrices : List (List Nat) × List (List Nat)),
      IsSquare n matrices.1 → IsSquare n matrices.2 → ∀ x y : Nat,
      entry (pairs.foldl (branchMatricesStep signatures) matrices).1 x y =
        (if (x, y) ∈ pairs then (countBranches signatures x y).1
          else if (y, x) ∈ pairs then (countBranches signatures y x).1
          else entry matrices.1 x y) ∧
      entry (pairs.foldl (branchMatricesStep signatures) matrices).2 x y =
        (if (x, y) ∈ pairs then (countBranches signatures x y).2
          else if (y, x) ∈ pairs then (countBranches signatures y x).2
          else entry matrices.2 x y) := by
  induction pairs with
  | nil =>
    intro matrices _ _ x y
    simp
  | cons p rest ih =>
    intro matrices h1 h2 x y
    have hp := hpairs p (List.mem_cons_self _ _)
    have hrest : ∀ q ∈ rest, q.1 < q.2 ∧ q.2 < n :=
      fun q hq => hpairs q (List.mem_cons_of_mem _ hq)
    have hs1 : IsSquare n (branchMatricesStep signatures matrices p).1 :=
      isSquare_setEntry n _ _ _ _ (isSquare_setEntry n _ _ _ _ h1 (by omega)) (by omega)
    have hs2 : IsSquare n (branchMatricesStep signatures matrices p).2 :=
      isSquare_setEntry n _ _ _ _ (isSquare_setEntry n _ _ _ _ h2 (by omega)) (by omega)
    rw [List.foldl_cons]
    obtain ⟨e1, e2⟩ := ih hrest _ hs1 hs2 x y
    rw [e1, e2]
    have hstep1 : entry (branchMatricesStep signatures matrices p).1 x y =
        if (x, y) = p then (countBranches signatures x y).1
        else if (y, x) = p then (countBranches signatures y x).1
        else entry matrices.1 x y := by
      unfold branchMatricesStep
      dsimp only
      rw [entry_setEntry n _ _ _ _ _ _ (isSquare_setEntry n _ _ _ _ h1 (by omega))
        (by omega) (by omega), entry_setEntry n _ _ _ _ _ _ h1 (by omega) (by omega)]
      cases p with
      | mk p1 p2 =>
        simp only [Prod.mk.injEq]
        by_cases ha : x = p1 ∧ y = p2
        · obtain ⟨rfl, rfl⟩ := ha
          have : ¬ (x = y ∧ y = x) := by
            simp only at hp
            omega
          simp [this]
        · by_cases hb : y = p1 ∧ x = p2
          · obtain ⟨rfl, rfl⟩ := hb
            simp [ha]
          · have hb' : ¬ (x = p2 ∧ y = p1) := fun h => hb ⟨h.2, h.1⟩
            simp [ha, hb, hb']
    have hstep2 : entry (branchMatricesStep signatures matrices p).2 x y =
        if (x, y) = p then (countBranches signatures x y).2
        else if (y, x) = p then (countBranches signatures y x).2
        else entry matrices.2 x y := by
      unfold branchMatricesStep
      dsimp only
      rw [entry_setEntry n _ _ _ _ _ _ (isSquare_setEntry n _ _ _ _ h2 (by omega))
        (by omega) (by omega), entry_setEntry n _ _ _ _ _ _ h2 (by omega) (by omega)]
      cases p with
      | mk p1 p2 =>
        simp only [Prod.mk.injEq]
        by_cases ha : x = p1 ∧ y = p2
        · obtain ⟨rfl, rfl⟩ := ha
          have : ¬ (x = y ∧ y = x) := by
            simp only at hp
            omega
          simp [this]
        · by_cases hb : y = p1 ∧ x = p2
          · obtain ⟨rfl, rfl⟩ := hb
            simp [ha]
          · have hb' : ¬ (x = p2 ∧ y = p1) := fun h => hb ⟨h.2, h.1⟩
            simp [ha, hb, hb']
    rw [hstep1, hstep2]
    have hxy : (x, y) ∈ rest → ¬ (y, x) = p := by
      intro hmem heq
      have hq := hrest _ hmem
      rw [← heq] at hp
      simp only at hp hq
      omega
    have hyx : (y, x) ∈ rest → ¬ (x, y) = p := by
      intro hmem heq
      have hq := hrest _ hmem
      rw [← heq] at hp
      simp only at hp hq
      omega
    simp only [List.mem_cons]
    by_cases m1 : (x, y) ∈ rest
    · simp [m1]
    · by_cases m2 : (x, y) = p
      · have m3 : (y, x) ∉ rest := fun hmem => hyx hmem m2
        rw [if_neg m1, if_neg m3, if_pos m2, if_neg m1, if_neg m3, if_pos m2,
          if_pos (Or.inl m2), if_pos (Or.inl m2)]
        exact ⟨rfl, rfl⟩
      · by_cases m3 : (y, x) ∈ rest
        · simp [m1, m2, m3]
        · simp [m1, m2, m3]

/-- The general form of the loop over the signatures, from any start. -/
theorem countBranches_foldl (signatures : List (List Int)) (a b : Nat) (start : Nat × Nat) :
    signatures.foldl
      (fun counts signature =>
        let s0 := signatureAt signature a
        let s1 := signatureAt signature b
        if s0 < 0 ∨ s1 < 0 then counts
        else if s0 = s1 then (counts.1 + 1, counts.2)
        else (counts.1, counts.2 + 1))
      start =
    (start.1 + sameBranchCount signatures a b, start.2 + differentBranchCount signatures a b) := by
  induction signatures generalizing start with
  | nil => simp [sameBranchCount, differentBranchCount]
  | cons signature rest ih =>
    rw [List.foldl_cons, ih]
    unfold sameBranchCount differentBranchCount
    dsimp only
    by_cases hneg : signatureAt signature a < 0 ∨ signatureAt signature b < 0
    · have h1 : ¬ (0 ≤ signatureAt signature a ∧ 0 ≤ signatureAt signature b ∧
          signatureAt signature a = signatureAt signature b) := by omega
      have h2 : ¬ (0 ≤ signatureAt signature a ∧ 0 ≤ signatureAt signature b ∧
          signatureAt signature a ≠ signatureAt signature b) := by omega
      rw [if_pos hneg, List.filter_cons_of_neg (by simpa using h1),
        List.filter_cons_of_neg (by simpa using h2)]
    · rw [if_neg hneg]
      by_cases heq : signatureAt signature a = signatureAt signature b
      · have h1 : 0 ≤ signatureAt signature a ∧ 0 ≤ signatureAt signature b ∧
            signatureAt signature a = signatureAt signature b := by omega
        have h2 : ¬ (0 ≤ signatureAt signature a ∧ 0 ≤ signatureAt signature b ∧
            signatureAt signature a ≠ signatureAt signature b) := by omega
        rw [if_pos heq, List.filter_cons_of_pos (by simpa using h1),
          List.filter_cons_of_neg (by simpa using h2), List.length_cons]
        ext
        · simp only
          omega
        · simp only
      · have h1 : ¬ (0 ≤ signatureAt signature a ∧ 0 ≤ signatureAt signature b ∧
            signatureAt signature a = signatureAt signature b) := by omega
        have h2 : 0 ≤ signatureAt signature a ∧ 0 ≤ signatureAt signature b ∧
            signatureAt signature a ≠ signatureAt signature b := by omega
        rw [if_neg heq, List.filter_cons_of_neg (by simpa using h1),
          List.filter_cons_of_pos (by simpa using h2), List.length_cons]
        ext
        · simp only
        · simp only
          omega

theorem countBranches_eq (signatures : List (List Int)) (a b : Nat) :
    countBranches signatures a b =
      (sameBranchCount signatures a b, differentBranchCount signatures a b) := by
  unfold countBranches
  rw [countBranches_foldl]
  simp

theorem sameBranchCount_comm (signatures : List (List Int)) (a b : Nat) :
    sameBranchCount signatures a b = sameBranchCount signatures b a := by
  unfold sameBranchCount
  congr 1
  apply List.filter_congr
  intro signature _
  rw [decide_eq_decide]
  constructor
  · rintro ⟨h1, h2, h3⟩
    exact ⟨h2, h1, h3.symm⟩
  · rintro ⟨h1, h2, h3⟩
    exact ⟨h2, h1, h3.symm⟩

theorem differentBranchCount_comm (signatures : List (List Int)) (a b : Nat) :
    differentBranchCount signatures a b = differentBranchCount signatures b a := by
  unfold differentBranchCount
  congr 1
  apply List.filter_congr
  intro signature _
  rw [decide_eq_decide]
  constructor
  · rintro ⟨h1, h2, h3⟩
    exact ⟨h2, h1, Ne.symm h3⟩
  · rintro ⟨h1, h2, h3⟩
    exact ⟨h2, h1, Ne.symm h3⟩

/-- The entries of the two matrices after the nested loops: the counts of the pair for
two different sequences, and 0 on the diagonal and outside the matrices. -/
theorem entry_branchMatrices (signatures : List (List Int)) (n x y : Nat) :
    entry (branchMatrices signatures n).1 x y =
      (if x ≠ y ∧ x < n ∧ y < n then sameBranchCount signatures x y else 0) ∧
    entry (branchMatrices signatures n).2 x y =
      (if x ≠ y ∧ x < n ∧ y < n then differentBranchCount signatures x y else 0) := by
  unfold branchMatrices
  obtain ⟨e1, e2⟩ := entry_foldl_branchMatricesStep signatures n (sequencePairs n)
    (fun p hp => (mem_sequencePairs' n p).1 hp)
    (List.replicate n (List.replicate n 0), List.replicate n (List.replicate n 0))
    (isSquare_replicate n) (isSquare_replicate n) x y
  rw [e1, e2]
  simp only [mem_sequencePairs, entry_replicate, countBranches_eq]
  by_cases hxy : x < y ∧ y < n
  · rw [if_pos hxy, if_pos hxy, if_pos (by omega), if_pos (by omega)]
    exact ⟨rfl, rfl⟩
  · rw [if_neg hxy, if_neg hxy]
    by_cases hyx : y < x ∧ x < n
    · rw [if_pos hyx, if_pos hyx, if_pos (by omega), if_pos (by omega)]
      exact ⟨sameBranchCount_comm _ _ _, differentBranchCount_comm _ _ _⟩
    · rw [if_neg hyx, if_neg hyx, if_neg (by omega), if_neg (by omega)]
      exact ⟨rfl, rfl⟩

/-- C13. For every pair of distinct sequences (a, b) and every list of branch signatures,
`analyzeAlignments2` sets `sameBranchMatrix[a][b]` to the number of bubbles in which both
a and b have a non-negative branch index and the indices are equal, and
`differentBranchMatrix[a][b]` to the number in which both are non-negative and differ; a
bubble in which either sequence is absent is counted in neither. -/
theorem branchMatrices_entries (signatures : List (List Int)) (n a b : Nat)
    (hab : a ≠ b) (ha : a < n) (hb : b < n) :
    entry (branchMatrices signatures n).1 a b = sameBranchCount signatures a b ∧
    entry (branchMatrices signatures n).2 a b = differentBranchCount signatures a b := by
  obtain ⟨e1, e2⟩ := entry_branchMatrices signatures n a b
  rw [e1, e2, if_pos ⟨hab, ha, hb⟩, if_pos ⟨hab, ha, hb⟩]
  exact ⟨rfl, rfl⟩

/-- C13 on Scenario A: four neighbors N1..N4 (sequences 0..3) and the query R (sequence 4)
with the single signature R:0, N1:0, N2:1, N3 and N4 absent. The bubble adds 1 to
same[R][N1], 1 to different[R][N2], and nothing to the pair of R and N3. -/
theorem branchMatrices_entries_witness :
    entry (branchMatrices [[0, 1, -1, -1, 0]] 5).1 4 0 = 1 ∧
    entry (branchMatrices [[0, 1, -1, -1, 0]] 5).2 4 1 = 1 ∧
    entry (branchMatrices [[0, 1, -1, -1, 0]] 5).1 4 2 = 0 ∧
    entry (branchMatrices [[0, 1, -1, -1, 0]] 5).2 4 2 = 0 :=
  ⟨(branchMatrices_entries [[0, 1, -1, -1, 0]] 5 4 0 (by decide) (by decide)
      (by decide)).1.trans (by decide),
   (branchMatrices_entries [[0, 1, -1, -1, 0]] 5 4 1 (by decide) (by decide)
      (by decide)).2.trans (by decide),
   (branchMatrices_entries [[0, 1, -1, -1, 0]] 5 4 2 (by decide) (by decide)
      (by decide)).1.trans (by decide),
   (branchMatrices_entries [[0, 1, -1, -1, 0]] 5 4 2 (by decide) (by decide)
      (by decide)).2.trans (by decide)⟩

/-- C14. Similarity symmetry: for every signature list and all sequence ids a, b, the
entries `[a][b]` and `[b][a]` of `sameBranchMatrix` are equal, so are those of
`differentBranchMatrix`, hence the similarity computed for (a, b) equals the one computed
for (b, a). -/
theorem branchMatrices_symmetric (signatures : List (List Int)) (n a b : Nat) :
    entry (branchMatrices signatures n).1 a b = entry (branchMatrices signatures n).1 b a ∧
    entry (branchMatrices signatures n).2 a b = entry (branchMatrices signatures n).2 b a ∧
    similarity (entry (branchMatrices signatures n).1 a b)
        (entry (branchMatrices signatures n).2 a b) =
      similarity (entry (branchMatrices signatures n).1 b a)
        (entry (branchMatrices signatures n).2 b a) := by
  obtain ⟨e1, e2⟩ := entry_branchMatrices signatures n a b
  obtain ⟨f1, f2⟩ := entry_branchMatrices signatures n b a
  have h1 : entry (branchMatrices signatures n).1 a b =
      entry (branchMatrices signatures n).1 b a := by
    rw [e1, f1]
    by_cases h : a ≠ b ∧ a < n ∧ b < n
    · rw [if_pos h, if_pos ⟨Ne.symm h.1, h.2.2, h.2.1⟩]
      exact sameBranchCount_comm _ _ _
    · rw [if_neg h, if_neg (fun hc => h ⟨Ne.symm hc.1, hc.2.2, hc.2.1⟩)]
  have h2 : entry (branchMatrices signatures n).2 a b =
      entry (branchMatrices signatures n).2 b a := by
    rw [e2, f2]
    by_cases h : a ≠ b ∧ a < n ∧ b < n
    · rw [if_pos h, if_pos ⟨Ne.symm h.1, h.2.2, h.2.1⟩]
      exact differentBranchCount_comm _ _ _
    · rw [if_neg h, if_neg (fun hc => h ⟨Ne.symm hc.1, hc.2.2, hc.2.1⟩)]
  exact ⟨h1, h2, by rw [h1, h2]⟩

/-! ## C15, C16: the edge table -/

theorem nodup_sequencePairs (n : Nat) : (sequencePairs n).Nodup := by
  unfold sequencePairs
  rw [List.nodup_flatMap]
  constructor
  · intro a _
    apply List.Nodup.map
    · intro x y hxy
      simpa using hxy
    · exact List.nodup_range' _ _
  · apply List.Nodup.pairwise_of_forall_ne (List.nodup_range n)
    intro a _ b _ hab
    simp only [Function.onFun]
    intro p hp1 hp2
    simp only [List.mem_map] at hp1 hp2
    obtain ⟨x, _, rfl⟩ := hp1
    obtain ⟨y, _, hy⟩ := hp2
    simp only [Prod.mk.injEq] at hy
    exact hab hy.1.symm

theorem edgeNotLess_total (x y : Int × (Nat × Nat)) : edgeNotLess x y ∨ edgeNotLess y x := by
  unfold edgeNotLess edgeGreater
  omega

theorem edgeNotLess_trans (x y z : Int × (Nat × Nat)) (hxy : edgeNotLess x y)
    (hyz : edgeNotLess y z) : edgeNotLess x z := by
  unfold edgeNotLess edgeGreater at *
  omega

theorem edgeNotLess_delta (x y : Int × (Nat × Nat)) (h : edgeNotLess x y) : y.1 ≤ x.1 := by
  unfold edgeNotLess edgeGreater at h
  omega

theorem perm_edgeTableSorted (sameBranchMatrix differentBranchMatrix : List (List Nat))
    (n : Nat) :
    (edgeTableSorted sameBranchMatrix differentBranchMatrix n).Perm
      (edgeTableUnsorted sameBranchMatrix differentBranchMatrix n) :=
  List.perm_insertionSort _ _

theorem sorted_edgeTableSorted (sameBranchMatrix differentBranchMatrix : List (List Nat))
    (n : Nat) :
    (edgeTableSorted sameBranchMatrix differentBranchMatrix n).Pairwise edgeNotLess := by
  haveI : IsTotal (Int × (Nat × Nat)) edgeNotLess := ⟨edgeNotLess_total⟩
  haveI : IsTrans (Int × (Nat × Nat)) edgeNotLess := ⟨edgeNotLess_trans⟩
  exact List.sorted_insertionSort edgeNotLess _

/-- The kept edge table is the sorted table cut to `keepCount` entries. -/
theorem edgeTable_eq_take (neighborCount : Nat)
    (sameBranchMatrix differentBranchMatrix : List (List Nat)) (n : Nat) :
    edgeTable neighborCount sameBranchMatrix differentBranchMatrix n =
      (edgeTableSorted sameBranchMatrix differentBranchMatrix n).take
        (neighborCount * n / 2) := by
  unfold edgeTable
  dsimp only
  split
  · rfl
  · rw [List.take_of_length_le (by omega)]

theorem mem_edgeTableSorted (sameBranchMatrix differentBranchMatrix : List (List Nat))
    (n : Nat) (e : Int × (Nat × Nat)) :
    e ∈ edgeTableSorted sameBranchMatrix differentBranchMatrix n ↔
      e.2.1 < e.2.2 ∧ e.2.2 < n ∧
      e.1 = edgeDelta sameBranchMatrix differentBranchMatrix e.2.1 e.2.2 := by
  rw [(perm_edgeTableSorted _ _ _).mem_iff]
  unfold edgeTableUnsorted
  rw [List.mem_map]
  constructor
  · rintro ⟨p, hp, rfl⟩
    have := (mem_sequencePairs' n p).1 hp
    exact ⟨this.1, this.2, rfl⟩
  · rintro ⟨h1, h2, h3⟩
    refine ⟨e.2, (mem_sequencePairs' n e.2).2 ⟨h1, h2⟩, ?_⟩
    rw [← h3]

/-- C16. The kept similarity edges are the top-ranked ones: for every pair (a, b),
a < b < n, that the truncation drops and every pair (c, d) that it keeps, the delta of the
dropped pair, `int64_t(sameBranchMatrix[a][b]) - int64_t(differentBranchMatrix[a][b])`, is
at most the delta of the kept pair, and the kept pair is stored with that delta. -/
theorem edgeTable_dropped_le_kept (neighborCount : Nat)
    (sameBranchMatrix differentBranchMatrix : List (List Nat)) (n a b c d : Nat)
    (hab : a < b) (hbn : b < n)
    (hdropped : (a, b) ∉
      (edgeTable neighborCount sameBranchMatrix differentBranchMatrix n).map fun e => e.2)
    (hkept : (c, d) ∈
      (edgeTable neighborCount sameBranchMatrix differentBranchMatrix n).map fun e => e.2) :
    toInt64 (entry sameBranchMatrix a b) - toInt64 (entry differentBranchMatrix a b) ≤
      toInt64 (entry sameBranchMatrix c d) - toInt64 (entry differentBranchMatrix c d) ∧
    (toInt64 (entry sameBranchMatrix c d) - toInt64 (entry differentBranchMatrix c d), (c, d)) ∈
      edgeTable neighborCount sameBranchMatrix differentBranchMatrix n := by
  rw [List.mem_map] at hkept
  obtain ⟨e, he, hpair⟩ := hkept
  have hsub : e ∈ edgeTableSorted sameBranchMatrix differentBranchMatrix n := by
    rw [edgeTable_eq_take] at he
    exact List.mem_of_mem_take he
  have hdelta : e.1 = toInt64 (entry sameBranchMatrix c d) -
      toInt64 (entry differentBranchMatrix c d) := by
    have h := ((mem_edgeTableSorted _ _ _ e).1 hsub).2.2
    rw [hpair] at h
    exact h
  have hentry : e = (toInt64 (entry sameBranchMatrix c d) -
      toInt64 (entry differentBranchMatrix c d), (c, d)) := Prod.ext hdelta hpair
  refine ⟨?_, by rw [← hentry]; exact he⟩
  rw [← hdelta]
  rw [edgeTable_eq_take] at he hdropped
  have hx : (edgeDelta sameBranchMatrix differentBranchMatrix a b, (a, b)) ∈
      edgeTableSorted sameBranchMatrix differentBranchMatrix n :=
    (mem_edgeTableSorted _ _ _ _).2 ⟨hab, hbn, rfl⟩
  have hsorted := sorted_edgeTableSorted sameBranchMatrix differentBranchMatrix n
  rw [← List.take_append_drop (neighborCount * n / 2)
    (edgeTableSorted sameBranchMatrix differentBranchMatrix n)] at hx hsorted
  rw [List.pairwise_append] at hsorted
  rcases List.mem_append.1 hx with hx1 | hx2
  · exfalso
    apply hdropped
    rw [List.mem_map]
    exact ⟨_, hx1, rfl⟩
  · exact edgeNotLess_delta _ _ (hsorted.2.2 e he _ hx2)

/-- C16 at a concrete table: with the two signatures of `exampleSignatures` over five
sequences, seven of the ten pairs are kept; the dropped pair (1, 2) has delta 0 - 2 = -2,
the kept pair (1, 4) has delta 1 - 0 = 1 and is stored with it. -/
theorem edgeTable_dropped_le_kept_witness :
    entry (branchMatrices exampleSignatures 5).1 1 2 = 0 ∧
    entry (branchMatrices exampleSignatures 5).2 1 2 = 2 ∧
    entry (branchMatrices exampleSignatures 5).1 1 4 = 1 ∧
    entry (branchMatrices exampleSignatures 5).2 1 4 = 0 ∧
    edgeTable 3 (branchMatrices exampleSignatures 5).1 (branchMatrices exampleSignatures 5).2 5 =
      [(1, (1, 4)), (1, (1, 3)), (1, (0, 4)), (0, (3, 4)), (0, (0, 2)), (0, (0, 1)),
        (-1, (2, 4))] ∧
    (toInt64 0 - toInt64 2 ≤ toInt64 1 - toInt64 0 ∧
      (toInt64 1 - toInt64 0, (1, 4)) ∈
        edgeTable 3 (branchMatrices exampleSignatures 5).1
          (branchMatrices exampleSignatures 5).2 5) :=
  ⟨by decide, by decide, by decide, by decide, by decide,
    edgeTable_dropped_le_kept 3 (branchMatrices exampleSignatures 5).1
      (branchMatrices exampleSignatures 5).2 5 1 2 1 4 (by decide) (by decide) (by decide)
      (by decide)⟩

/-! ## C17: ratios with a zero denominator -/

theorem coverageRatio_zero (c : Nat) : coverageRatio c 0 = 0 := by
  simp [coverageRatio]

theorem ratioBin_zero : ratioBin 0 = 0 := by decide!

/-- The claim C17 as stated fails: for a query with a single ordinal of coverage 0 and
range coverage 0, the histogram loop counts that ordinal in bin 0 of the three ratio
histograms. -/
theorem zero_denominator_counterexample :
    coverageHistograms [(0, 0)] [(0, 0)] =
      .ok ([[1, 1, 1, 1, 1, 1]],
        [[1, 1, 1], [0, 0, 0], [0, 0, 0], [0, 0, 0], [0, 0, 0], [0, 0, 0], [0, 0, 0],
          [0, 0, 0], [0, 0, 0], [0, 0, 0], [0, 0, 0]]) := by
  unfold coverageHistograms
  simp only [List.zip_cons_cons, List.zip_nil_right, histogramLoop, histogramStep,
    Nat.add_zero, coverageRatio_zero, ratioBin_zero]
  rfl

/-- C17, amended. The similarity same/(same+different) of the similarity matrix is an
undefined value exactly when its denominator is zero, and is then not coerced to 0. The
coverage ratios that `analyzeAlignments1` bins into the coverage-ratio histogram are
guarded instead: with a zero range coverage the ratio is taken as 0, and an ordinal whose
range coverages are zero is counted in bin 0 of the three ratio histograms. -/
theorem zero_denominator_ratios :
    (∀ sameCount differentCount : Nat,
      similarity sameCount differentCount = none ↔ sameCount + differentCount = 0) ∧
    (∀ c : Nat, coverageRatio c 0 = 0 ∧ ratioBin (coverageRatio c 0) = 0) ∧
    (∀ (state state' : List (List Nat) × List (List Nat)) (coverage : Nat × Nat),
      histogramStep state coverage (0, 0) = .ok state' →
      state'.2 = incrementEntry (incrementEntry (incrementEntry state.2 0 0) 0 1) 0 2) := by
  refine ⟨?_, ?_, ?_⟩
  · intro sameCount differentCount
    unfold similarity
    dsimp only
    split
    · rename_i h
      simp [h]
    · rename_i h
      simp [h]
  · intro c
    rw [coverageRatio_zero]
    exact ⟨rfl, ratioBin_zero⟩
  · intro state state' coverage h
    unfold histogramStep at h
    simp only [Nat.add_zero, coverageRatio_zero, ratioBin_zero] at h
    split at h
    · cases h
    · split at h
      · cases h
      · simp only [Except.ok.injEq] at h
        rw [← h]

/-! ## C18: the signature of an incompatible vertex set -/

theorem records_replicate (n : Nat) : Records n [] (List.replicate n (-1)) := by
  constructor
  · simp
  · intro s hs
    constructor
    · intro _
      rw [List.getD_eq_getElem _ _ (by simpa using hs)]
      simp
    · intro branch hmem
      cases hmem

/-- One step of the signature construction on a sequence that was not met before. -/
theorem records_set (n : Nat) (seen : List (Nat × Nat)) (signature : List Int)
    (s branch : Nat) (hs : s < n) (hrec : Records n seen signature)
    (hnew : s ∉ seen.map Prod.fst) :
    Records n (seen ++ [(s, branch)]) (signature.set s (branch : Int)) := by
  obtain ⟨hlen, hall⟩ := hrec
  constructor
  · simp [hlen]
  · intro s' hs'
    rw [getD_set_eq]
    by_cases h : s = s'
    · subst h
      rw [if_pos ⟨rfl, by omega⟩]
      constructor
      · intro hnot
        exfalso
        apply hnot
        simp
      · intro branch' hmem
        rcases List.mem_append.1 hmem with h1 | h1
        · exfalso
          apply hnew
          rw [List.mem_map]
          exact ⟨(s, branch'), h1, rfl⟩
        · simp only [List.mem_singleton, Prod.mk.injEq] at h1
          rw [h1.2]
    · rw [if_neg (fun hc => h hc.1)]
      constructor
      · intro hnot
        apply (hall s' hs').1
        intro hmem
        apply hnot
        rw [List.map_append]
        exact List.mem_append_left _ hmem
      · intro branch' hmem
        rcases List.mem_append.1 hmem with h1 | h1
        · exact (hall s' hs').2 branch' h1
        · simp only [List.mem_singleton, Prod.mk.injEq] at h1
          exact absurd h1.1.symm h

/-- The loop over the occurrences of one vertex completes, and records its visits, when
no sequence is met a second time. -/
theorem signatureVertexLoop_ok (n branch : Nat) (occurrences : List (Nat × Nat)) :
    ∀ (seen : List (Nat × Nat)) (signature : List Int),
      (∀ p ∈ occurrences, p.1 < n) → Records n seen signature →
      ((seen ++ occurrences.map fun p => (p.1, branch)).map Prod.fst).Nodup →
      ∃ signature', signatureVertexLoop branch occurrences signature = .ok signature' ∧
        Records n (seen ++ occurrences.map fun p => (p.1, branch)) signature' := by
  induction occurrences with
  | nil =>
    intro seen signature _ hrec _
    exact ⟨signature, rfl, by simpa using hrec⟩
  | cons p rest ih =>
    intro seen signature hrange hrec hnodup
    have hp := hrange p (List.mem_cons_self _ _)
    have hnew : p.1 ∉ seen.map Prod.fst := by
      intro hmem
      simp only [List.map_cons, List.map_append, List.map_map] at hnodup
      rw [List.nodup_append] at hnodup
      exact hnodup.2.2 hmem (List.mem_cons_self _ _)
    have hold : signature.getD p.1 (-1) = -1 := (hrec.2 p.1 hp).1 hnew
    unfold signatureVertexLoop
    dsimp only
    rw [hold, if_neg (by decide), if_pos rfl]
    have hrec' := records_set n seen signature p.1 branch hp hrec hnew
    obtain ⟨signature', h1, h2⟩ := ih (seen ++ [(p.1, branch)]) _
      (fun q hq => hrange q (List.mem_cons_of_mem _ hq)) hrec'
      (by simpa [List.append_assoc] using hnodup)
    refine ⟨signature', h1, ?_⟩
    simpa [List.append_assoc] using h2

/-- The loop over the occurrences of one vertex aborts when a sequence is met a second
time. -/
theorem signatureVertexLoop_error (n branch : Nat) (occurrences : List (Nat × Nat)) :
    ∀ (seen : List (Nat × Nat)) (signature : List Int),
      (∀ p ∈ occurrences, p.1 < n) → Records n seen signature →
      ¬ ((seen ++ occurrences.map fun p => (p.1, branch)).map Prod.fst).Nodup →
      (seen.map Prod.fst).Nodup →
      signatureVertexLoop branch occurrences signature = .error .sequenceInTwoBranches := by
  induction occurrences with
  | nil =>
    intro seen signature _ _ hnot hnodup
    exact absurd (by simpa using hnodup) hnot
  | cons p rest ih =>
    intro seen signature hrange hrec hnot hnodup
    have hp := hrange p (List.mem_cons_self _ _)
    unfold signatureVertexLoop
    dsimp only
    by_cases hnew : p.1 ∈ seen.map Prod.fst
    · rw [List.mem_map] at hnew
      obtain ⟨q, hq, hq1⟩ := hnew
      have hold : signature.getD p.1 (-1) = ((q.2 : Nat) : Int) := by
        apply (hrec.2 p.1 hp).2 q.2
        rw [← hq1]
        exact hq
      rw [hold, if_neg (by omega), if_neg (by omega)]
    · have hold : signature.getD p.1 (-1) = -1 := (hrec.2 p.1 hp).1 hnew
      rw [hold, if_neg (by decide), if_pos rfl]
      have hrec' := records_set n seen signature p.1 branch hp hrec hnew
      apply ih (seen ++ [(p.1, branch)]) _
        (fun q hq => hrange q (List.mem_cons_of_mem _ hq)) hrec'
      · simpa [List.append_assoc] using hnot
      · rw [List.map_append, List.nodup_append]
        refine ⟨hnodup, by simp, ?_⟩
        intro a ha hb
        simp only [List.map_cons, List.map_nil, List.mem_singleton] at hb
        exact hnew (hb ▸ ha)

theorem signatureBranchLoop_ok (n : Nat) (vertices : List (List (Nat × Nat))) :
    ∀ (branch : Nat) (seen : List (Nat × Nat)) (signature : List Int),
      (∀ occurrences ∈ vertices, ∀ p ∈ occurrences, p.1 < n) → Records n seen signature →
      ((seen ++ taggedSequenceIds branch vertices).map Prod.fst).Nodup →
      ∃ signature', signatureBranchLoop branch vertices signature = .ok signature' ∧
        Records n (seen ++ taggedSequenceIds branch vertices) signature' := by
  induction vertices with
  | nil =>
    intro branch seen signature _ hrec _
    exact ⟨signature, rfl, by simpa [taggedSequenceIds] using hrec⟩
  | cons occurrences rest ih =>
    intro branch seen signature hrange hrec hnodup
    unfold taggedSequenceIds at hnodup ⊢
    rw [← List.append_assoc] at hnodup ⊢
    have hnodup1 : ((seen ++ occurrences.map fun p => (p.1, branch)).map Prod.fst).Nodup := by
      rw [List.map_append] at hnodup
      exact (List.nodup_append.1 hnodup).1
    obtain ⟨signature1, h1, hrec1⟩ := signatureVertexLoop_ok n branch occurrences seen
      signature (hrange occurrences (List.mem_cons_self _ _)) hrec hnodup1
    obtain ⟨signature2, h2, hrec2⟩ := ih (branch + 1) _ signature1
      (fun o ho => hrange o (List.mem_cons_of_mem _ ho)) hrec1 hnodup
    refine ⟨signature2, ?_, hrec2⟩
    unfold signatureBranchLoop
    rw [h1]
    exact h2

theorem signatureBranchLoop_error (n : Nat) (vertices : List (List (Nat × Nat))) :
    ∀ (branch : Nat) (seen : List (Nat × Nat)) (signature : List Int),
      (∀ occurrences ∈ vertices, ∀ p ∈ occurrences, p.1 < n) → Records n seen signature →
      ¬ ((seen ++ taggedSequenceIds branch vertices).map Prod.fst).Nodup →
      (seen.map Prod.fst).Nodup →
      signatureBranchLoop branch vertices signature = .error .sequenceInTwoBranches := by
  induction vertices with
  | nil =>
    intro branch seen signature _ _ hnot hnodup
    exact absurd (by simpa [taggedSequenceIds] using hnodup) hnot
  | cons occurrences rest ih =>
    intro branch seen signature hrange hrec hnot hnodup
    unfold taggedSequenceIds at hnot
    rw [← List.append_assoc] at hnot
    unfold signatureBranchLoop
    by_cases hnodup1 :
        ((seen ++ occurrences.map fun p => (p.1, branch)).map Prod.fst).Nodup
    · obtain ⟨signature1, h1, hrec1⟩ := signatureVertexLoop_ok n branch occurrences seen
        signature (hrange occurrences (List.mem_cons_self _ _)) hrec hnodup1
      rw [h1]
      exact ih (branch + 1) _ signature1
        (fun o ho => hrange o (List.mem_cons_of_mem _ ho)) hrec1 hnot hnodup1
    · rw [signatureVertexLoop_error n branch occurrences seen signature
        (hrange occurrences (List.mem_cons_self _ _)) hrec hnodup1 hnodup]

theorem map_fst_taggedSequenceIds (vertices : List (List (Nat × Nat))) :
    ∀ branch : Nat,
      (taggedSequenceIds branch vertices).map Prod.fst = vertices.flatten.map Prod.fst := by
  induction vertices with
  | nil =>
    intro branch
    rfl
  | cons occurrences rest ih =>
    intro branch
    unfold taggedSequenceIds
    rw [List.map_append, ih, List.flatten_cons, List.map_append, List.map_map]
    rfl

theorem mem_taggedSequenceIds (vertices : List (List (Nat × Nat))) :
    ∀ (branch s b : Nat),
      (s, b) ∈ taggedSequenceIds branch vertices ↔
        ∃ i occurrences, vertices[i]? = some occurrences ∧ b = branch + i ∧
          s ∈ occurrences.map Prod.fst := by
  induction vertices with
  | nil =>
    intro branch s b
    simp [taggedSequenceIds]
  | cons occurrences rest ih =>
    intro branch s b
    unfold taggedSequenceIds
    rw [List.mem_append, ih]
    constructor
    · rintro (h | ⟨i, o, hi, hb, hs⟩)
      · rw [List.mem_map] at h
        obtain ⟨p, hp, hpe⟩ := h
        simp only [Prod.mk.injEq] at hpe
        refine ⟨0, occurrences, by simp, by omega, ?_⟩
        rw [List.mem_map]
        exact ⟨p, hp, hpe.1⟩
      · exact ⟨i + 1, o, by simpa using hi, by omega, hs⟩
    · rintro ⟨i, o, hi, hb, hs⟩
      cases i with
      | zero =>
        left
        simp only [List.getElem?_cons_zero, Option.some.injEq] at hi
        subst hi
        rw [List.mem_map] at hs ⊢
        obtain ⟨p, hp, hpe⟩ := hs
        exact ⟨p, hp, by simp [hpe, hb]⟩
      | succ j =>
        right
        exact ⟨j, o, by simpa using hi, by omega, hs⟩

/-- C18. Bubble partition correctness in `analyzeAlignments2`: for one incompatible vertex
set over sequences `0..n-1`, the signature construction completes if and only if every
sequence has at most one occurrence over all vertices of the set, and it then assigns to
each sequence the index of the vertex of the set that holds it, or -1 when none does;
otherwise, a sequence being met a second time in another vertex or in the same vertex, it
aborts on its assertion. -/
theorem buildSignature_iff (n : Nat) (incompatibleVertexVector : List (List (Nat × Nat)))
    (hrange : ∀ occurrences ∈ incompatibleVertexVector, ∀ p ∈ occurrences, p.1 < n) :
    ((∃ signature, buildSignature n incompatibleVertexVector = .ok signature) ↔
      (incompatibleVertexVector.flatten.map Prod.fst).Nodup) ∧
    (¬ (incompatibleVertexVector.flatten.map Prod.fst).Nodup →
      buildSignature n incompatibleVertexVector = .error .sequenceInTwoBranches) ∧
    (∀ signature, buildSignature n incompatibleVertexVector = .ok signature →
      signature.length = n ∧
      ∀ s, s < n →
        (∀ (branch : Nat) (occurrences : List (Nat × Nat)),
          incompatibleVertexVector[branch]? = some occurrences →
          s ∈ occurrences.map Prod.fst → signature.getD s (-1) = (branch : Int)) ∧
        ((∀ occurrences ∈ incompatibleVertexVector, s ∉ occurrences.map Prod.fst) →
          signature.getD s (-1) = -1)) := by
  have hfst := map_fst_taggedSequenceIds incompatibleVertexVector 0
  have herror : ¬ (incompatibleVertexVector.flatten.map Prod.fst).Nodup →
      buildSignature n incompatibleVertexVector = .error .sequenceInTwoBranches := by
    intro hnot
    unfold buildSignature
    apply signatureBranchLoop_error n incompatibleVertexVector 0 [] _ hrange
      (records_replicate n)
    · rw [List.nil_append, hfst]
      exact hnot
    · exact List.nodup_nil
  have hok : (incompatibleVertexVector.flatten.map Prod.fst).Nodup →
      ∃ signature, buildSignature n incompatibleVertexVector = .ok signature ∧
        Records n (taggedSequenceIds 0 incompatibleVertexVector) signature := by
    intro hnodup
    unfold buildSignature
    have h := signatureBranchLoop_ok n incompatibleVertexVector 0 [] _ hrange
      (records_replicate n) (by rw [List.nil_append, hfst]; exact hnodup)
    simpa using h
  refine ⟨⟨?_, ?_⟩, herror, ?_⟩
  · rintro ⟨signature, hsig⟩
    by_contra hnot
    rw [herror hnot] at hsig
    cases hsig
  · intro hnodup
    obtain ⟨signature, hsig, _⟩ := hok hnodup
    exact ⟨signature, hsig⟩
  · intro signature hsig
    have hnodup : (incompatibleVertexVector.flatten.map Prod.fst).Nodup := by
      by_contra hnot
      rw [herror hnot] at hsig
      cases hsig
    obtain ⟨signature', hsig', hrec⟩ := hok hnodup
    rw [hsig] at hsig'
    simp only [Except.ok.injEq] at hsig'
    subst hsig'
    refine ⟨hrec.1, ?_⟩
    intro s hs
    constructor
    · intro branch occurrences hget hmem
      apply (hrec.2 s hs).2 branch
      rw [mem_taggedSequenceIds]
      exact ⟨branch, occurrences, hget, by omega, hmem⟩
    · intro hnone
      apply (hrec.2 s hs).1
      rw [hfst]
      intro hmem
      rw [List.mem_map] at hmem
      obtain ⟨p, hp, hps⟩ := hmem
      rw [List.mem_flatten] at hp
      obtain ⟨occurrences, ho, hpo⟩ := hp
      apply hnone occurrences ho
      rw [List.mem_map]
      exact ⟨p, hpo, hps⟩

/-- C18 at concrete vertex sets over five sequences: two vertices without a common
sequence give the signature `[0, 1, -1, -1, 0]`; the construction aborts when sequence 4 is
in both vertices, and when sequence 0 occurs twice in the first vertex. -/
theorem buildSignature_iff_witness :
    (∃ signature, buildSignature 5 [[(0, 3), (4, 7)], [(1, 2)]] = .ok signature) ∧
    buildSignature 5 [[(0, 3), (4, 7)], [(1, 2), (4, 9)]] = .error .sequenceInTwoBranches ∧
    buildSignature 5 [[(0, 3), (0, 7)], [(1, 2)]] = .error .sequenceInTwoBranches :=
  ⟨(buildSignature_iff 5 [[(0, 3), (4, 7)], [(1, 2)]] (by decide)).1.2 (by decide),
   (buildSignature_iff 5 [[(0, 3), (4, 7)], [(1, 2), (4, 9)]] (by decide)).2.1 (by decide),
   (buildSignature_iff 5 [[(0, 3), (0, 7)], [(1, 2)]] (by decide)).2.1 (by decide)⟩

/-! ## C19: the sequences of `analyzeAlignments3` -/

/-- In a strictly increasing alignment the second ordinal of the first pair is at most the
second ordinal of every pair. -/
theorem head_snd_le_of_strictlyIncreasing (ordinals : List (Nat × Nat))
    (hne : ordinals ≠ []) (hincreasing : StrictlyIncreasing ordinals) :
    ∀ o ∈ ordinals, (ordinals.head hne).2 ≤ o.2 := by
  rw [strictlyIncreasing_iff_chain'] at hincreasing
  have htrans : IsTrans (Nat × Nat)
      (fun previous current => previous.1 < current.1 ∧ previous.2 < current.2) :=
    ⟨fun a b c hab hbc => ⟨Nat.lt_trans hab.1 hbc.1, Nat.lt_trans hab.2 hbc.2⟩⟩
  have hp := (List.chain'_iff_pairwise).1 hincreasing
  cases ordinals with
  | nil => exact absurd rfl hne
  | cons first rest =>
    intro o ho
    rw [List.pairwise_cons] at hp
    rcases List.mem_cons.1 ho with h | h
    · subst h
      exact Nat.le_refl _
    · exact Nat.le_of_lt (hp.1 o h).2

theorem neighborFirstOrdinal_eq (alignment : Alignment) (hne : alignment.ordinals ≠ []) :
    neighborFirstOrdinal alignment = (alignment.ordinals.head hne).2 := by
  unfold neighborFirstOrdinal
  rw [List.head?_eq_head hne]
  rfl

theorem neighborLastOrdinal_eq (alignment : Alignment) (hne : alignment.ordinals ≠ []) :
    neighborLastOrdinal alignment = (alignment.ordinals.getLast hne).2 := by
  unfold neighborLastOrdinal
  rw [List.getLast?_eq_getLast _ hne]
  rfl

/-- The number of tokens gathered for an aligned oriented read, when its alignment is not
empty, is strictly increasing, and has its second ordinals below the marker count of the
partner. -/
theorem length_neighborSequence (assembler : Assembler) (info : StoredAlignmentInformation)
    (hne : info.alignment.ordinals ≠ [])
    (hincreasing : StrictlyIncreasing info.alignment.ordinals)
    (hrange : ∀ o ∈ info.alignment.ordinals, o.2 < assembler.markerCount info.orientedReadId) :
    (neighborSequence assembler info).length =
      (info.alignment.ordinals.getLast hne).2 - (info.alignment.ordinals.head hne).2 + 1 := by
  have hle := head_snd_le_of_strictlyIncreasing _ hne hincreasing _ (List.getLast_mem hne)
  have hlast := hrange _ (List.getLast_mem hne)
  have hcount := assembler.markerCount_lt info.orientedReadId
  unfold neighborSequence
  dsimp only
  rw [List.length_map, List.length_range, neighborFirstOrdinal_eq _ hne,
    neighborLastOrdinal_eq _ hne]
  unfold sub32
  omega

/-- C19. Sequence extraction in `analyzeAlignments3`: for n canonical alignments n+1
sequences are produced. For each aligned oriented read i < n whose alignment is not empty,
is strictly increasing and has its second ordinals below the marker count of the partner,
`firstOrdinals[i]` and `lastOrdinals[i]` are the second ordinals of the first and last
pair, sequence i has `lastOrdinals[i] - firstOrdinals[i] + 1 >= 1` tokens and its j-th
token is the marker token of the partner at ordinal `firstOrdinals[i] + j`. The query is
sequence n, holds all its marker tokens, and has first ordinal 0 and last ordinal
`markerCount0 - 1` (in `uint32_t` arithmetic). -/
theorem gatherSequences_spec (assembler : Assembler) (orientedReadId0 : OrientedReadId)
    (alignments : List StoredAlignmentInformation) :
    (gatherSequences assembler orientedReadId0 alignments).sequences.length =
      alignments.length + 1 ∧
    (∀ (i : Nat) (info : StoredAlignmentInformation), alignments[i]? = some info →
      ∀ hne : info.alignment.ordinals ≠ [],
      StrictlyIncreasing info.alignment.ordinals →
      (∀ o ∈ info.alignment.ordinals, o.2 < assembler.markerCount info.orientedReadId) →
      (gatherSequences assembler orientedReadId0 alignments).orientedReadIds[i]? =
        some info.orientedReadId ∧
      (gatherSequences assembler orientedReadId0 alignments).firstOrdinals[i]? =
        some (info.alignment.ordinals.head hne).2 ∧
      (gatherSequences assembler orientedReadId0 alignments).lastOrdinals[i]? =
        some (info.alignment.ordinals.getLast hne).2 ∧
      ∃ sequence,
        (gatherSequences assembler orientedReadId0 alignments).sequences[i]? = some sequence ∧
        sequence.length =
          (info.alignment.ordinals.getLast hne).2 - (info.alignment.ordinals.head hne).2 + 1 ∧
        1 ≤ sequence.length ∧
        ∀ j, j < sequence.length →
          sequence[j]? = some (assembler.markerKmerId info.orientedReadId.getValue
            ((info.alignment.ordinals.head hne).2 + j))) ∧
    (gatherSequences assembler orientedReadId0 alignments).orientedReadIds[alignments.length]? =
      some orientedReadId0 ∧
    (gatherSequences assembler orientedReadId0 alignments).sequences[alignments.length]? =
      some ((List.range (assembler.markersSize orientedReadId0.getValue)).map fun ordinal =>
        assembler.markerKmerId orientedReadId0.getValue ordinal) ∧
    (gatherSequences assembler orientedReadId0 alignments).firstOrdinals[alignments.length]? =
      some 0 ∧
    (gatherSequences assembler orientedReadId0 alignments).lastOrdinals[alignments.length]? =
      some (sub32 (assembler.markersSize orientedReadId0.getValue) 1) ∧
    (0 < assembler.markersSize orientedReadId0.getValue →
      assembler.markersSize orientedReadId0.getValue < 2 ^ 32 →
      sub32 (assembler.markersSize orientedReadId0.getValue) 1 =
        assembler.markersSize orientedReadId0.getValue - 1) := by
  refine ⟨?_, ?_, ?_, ?_, ?_, ?_, ?_⟩
  · simp [gatherSequences]
  · intro i info hget hne hincreasing hrange
    have hi : i < alignments.length := by
      by_contra hcon
      rw [List.getElem?_eq_none (by omega)] at hget
      cases hget
    have hlen := length_neighborSequence assembler info hne hincreasing hrange
    refine ⟨?_, ?_, ?_, neighborSequence assembler info, ?_, hlen, by omega, ?_⟩
    · simp only [gatherSequences]
      rw [List.getElem?_append_left (by simpa using hi), List.getElem?_map, hget]
      rfl
    · simp only [gatherSequences]
      rw [List.getElem?_append_left (by simpa using hi), List.getElem?_map, hget]
      simp only [Option.map_some']
      rw [neighborFirstOrdinal_eq _ hne]
    · simp only [gatherSequences]
      rw [List.getElem?_append_left (by simpa using hi), List.getElem?_map, hget]
      simp only [Option.map_some']
      rw [neighborLastOrdinal_eq _ hne]
    · simp only [gatherSequences]
      rw [List.getElem?_append_left (by simpa using hi), List.getElem?_map, hget]
      rfl
    · intro j hj
      unfold neighborSequence at hj ⊢
      dsimp only at hj ⊢
      rw [List.length_map, List.length_range] at hj
      rw [List.getElem?_map, List.getElem?_range hj, neighborFirstOrdinal_eq _ hne]
      rfl
  · simp only [gatherSequences]
    rw [List.getElem?_append_right (by simp)]
    simp
  · simp only [gatherSequences]
    rw [List.getElem?_append_right (by simp)]
    simp
  · simp only [gatherSequences]
    rw [List.getElem?_append_right (by simp)]
    simp
  · simp only [gatherSequences]
    rw [List.getElem?_append_right (by simp)]
    simp
  · intro h0 h32
    unfold sub32
    omega

/-- C19 at a concrete store: read 0 of `neighborsAssembler` with its three alignments
`[(0, 1), (2, 3)]`; the sequence of the first aligned oriented read has first ordinal 1,
last ordinal 3 and 3 tokens, and there are 4 sequences. -/
theorem gatherSequences_spec_witness :
    (gatherSequences neighborsAssembler ⟨0⟩
      [⟨0, ⟨[(0, 1), (2, 3)]⟩, ⟨2⟩⟩, ⟨1, ⟨[(0, 1), (2, 3)]⟩, ⟨4⟩⟩,
        ⟨2, ⟨[(0, 1), (2, 3)]⟩, ⟨6⟩⟩]).sequences.length = 3 + 1 ∧
    ∃ sequence,
      (gatherSequences neighborsAssembler ⟨0⟩
        [⟨0, ⟨[(0, 1), (2, 3)]⟩, ⟨2⟩⟩, ⟨1, ⟨[(0, 1), (2, 3)]⟩, ⟨4⟩⟩,
          ⟨2, ⟨[(0, 1), (2, 3)]⟩, ⟨6⟩⟩]).sequences[0]? = some sequence ∧
      sequence.length = 3 - 1 + 1 :=
  have h := gatherSequences_spec neighborsAssembler ⟨0⟩
    [⟨0, ⟨[(0, 1), (2, 3)]⟩, ⟨2⟩⟩, ⟨1, ⟨[(0, 1), (2, 3)]⟩, ⟨4⟩⟩,
      ⟨2, ⟨[(0, 1), (2, 3)]⟩, ⟨6⟩⟩]
  ⟨h.1,
    (h.2.1 0 ⟨0, ⟨[(0, 1), (2, 3)]⟩, ⟨2⟩⟩ rfl (by decide) (by decide) (by decide)).2.2.2.imp
      fun _ hs => ⟨hs.1, hs.2.1⟩⟩

/-! ## C20: the loop of the second merge pass -/

/-- When the store returns no alignment for the first aligned oriented read, the second
merge pass ends there: the bound of its loop is the size of the vector that the query has
just overwritten. -/
theorem pass2Loop_of_first_empty (assembler : Assembler) (orientedReadIds : List OrientedReadId)
    (firstOrdinals lastOrdinals : List Nat) (orientedReadId1 : OrientedReadId)
    (remaining : List OrientedReadId) (alignments : List StoredAlignmentInformation)
    (hempty : getStoredAlignmentsFiltered assembler orientedReadId1 orientedReadIds = .ok []) :
    pass2Loop assembler orientedReadIds firstOrdinals lastOrdinals
      (orientedReadId1 :: remaining) 0 alignments = .ok [] := by
  unfold pass2Loop
  split
  · rw [hempty]
    dsimp only
    unfold pass2Alignments
    dsimp only
    cases remaining with
    | nil => rfl
    | cons next rest =>
      unfold pass2Loop
      rfl
  · rfl

/-- C20, at the failing input. For read 0 on strand 0 of `neighborsAssembler` the analysis
makes the three merges of the first pass and none in the second pass: the query for the
first aligned oriented read returns no alignment, which ends the loop, and the alignment
between the second and the third aligned oriented read is never merged. A second pass over
the whole neighbor set merges it from both sides. -/
theorem mergePass2_stops_early :
    analyzeAlignments3 neighborsAssembler 0 0
        (mergePasses neighborsAssembler (OrientedReadId.ofReadIdStrand 0 0)) =
      .ok [⟨3, 0, [(0, 0), (2, 2)]⟩, ⟨3, 1, [(0, 0), (2, 2)]⟩, ⟨3, 2, [(0, 0), (2, 2)]⟩] ∧
    getStoredAlignmentsFiltered neighborsAssembler ⟨4⟩ [⟨2⟩, ⟨4⟩, ⟨6⟩] =
      .ok [⟨3, ⟨[(1, 2), (2, 3)]⟩, ⟨6⟩⟩] ∧
    pass2WholeNeighborSet neighborsAssembler [⟨2⟩, ⟨4⟩, ⟨6⟩] [1, 1, 1, 0] [3, 3, 3, 4]
        [⟨2⟩, ⟨4⟩, ⟨6⟩] 0 =
      .ok [⟨1, 2, [(0, 1), (1, 2)]⟩, ⟨2, 1, [(1, 0), (2, 1)]⟩] :=
  ⟨by rfl, by rfl, by rfl⟩

/-! ## C21, C22, C29: the pairs passed to merge -/

/-- The inner loop of the first merge pass: it returns the shifted pairs when all pairs
join markers with the same `kmerId`, and aborts otherwise. -/
theorem pass1Pairs_eq (assembler : Assembler) (orientedReadIds : List OrientedReadId)
    (firstOrdinals : List Nat) (sequenceId0 sequenceId1 : Nat) (ordinals : List (Nat × Nat)) :
    pass1Pairs assembler orientedReadIds firstOrdinals sequenceId0 sequenceId1 ordinals =
      if ∀ o ∈ ordinals,
          sameKmerId assembler orientedReadIds sequenceId0 sequenceId1 o.1 o.2 = true then
        .ok (ordinals.map fun o =>
          (sub32 o.1 (firstOrdinals.getD sequenceId0 0),
           sub32 o.2 (firstOrdinals.getD sequenceId1 0)))
      else .error .kmerIdMismatch := by
  induction ordinals with
  | nil => simp [pass1Pairs]
  | cons o rest ih =>
    unfold pass1Pairs
    rw [ih]
    cases hs : sameKmerId assembler orientedReadIds sequenceId0 sequenceId1 o.1 o.2
    · simp [hs]
    · by_cases hall : ∀ o ∈ rest,
          sameKmerId assembler orientedReadIds sequenceId0 sequenceId1 o.1 o.2 = true
      · rw [if_pos hall]
        simp only [Bool.not_true, Bool.false_eq_true, if_false, List.map_cons]
        rw [if_pos]
        intro p hp
        rcases List.mem_cons.1 hp with h | h
        · rw [h]
          exact hs
        · exact hall p h
      · rw [if_neg hall]
        simp only [Bool.not_true, Bool.false_eq_true, if_false]
        rw [if_neg]
        intro hcon
        exact hall (fun p hp => hcon p (List.mem_cons_of_mem _ hp))

/-- The inner loop of the second merge pass: it returns the shifted pairs of the window
when all of them join markers with the same `kmerId`, and aborts otherwise. -/
theorem pass2Pairs_eq (assembler : Assembler) (orientedReadIds : List OrientedReadId)
    (firstOrdinals lastOrdinals : List Nat) (sequenceId1 sequenceId2 : Nat)
    (ordinals : List (Nat × Nat)) :
    pass2Pairs assembler orientedReadIds firstOrdinals lastOrdinals sequenceId1 sequenceId2
        ordinals =
      if ∀ o ∈ ordinals.filter (inWindow firstOrdinals lastOrdinals sequenceId1 sequenceId2),
          sameKmerId assembler orientedReadIds sequenceId1 sequenceId2 o.1 o.2 = true then
        .ok ((ordinals.filter
          (inWindow firstOrdinals lastOrdinals sequenceId1 sequenceId2)).map fun o =>
            (sub32 o.1 (firstOrdinals.getD sequenceId1 0),
             sub32 o.2 (firstOrdinals.getD sequenceId2 0)))
      else .error .kmerIdMismatch := by
  induction ordinals with
  | nil => simp [pass2Pairs]
  | cons o rest ih =>
    unfold pass2Pairs
    rw [ih]
    by_cases hw : inWindow firstOrdinals lastOrdinals sequenceId1 sequenceId2 o = true
    · have hw' := hw
      unfold inWindow at hw'
      rw [decide_eq_true_iff] at hw'
      rw [if_neg (by omega), if_neg (by omega), if_neg (by omega), if_neg (by omega),
        List.filter_cons_of_pos hw]
      cases hs : sameKmerId assembler orientedReadIds sequenceId1 sequenceId2 o.1 o.2
      · simp [hs]
      · by_cases hall : ∀ o ∈ rest.filter
            (inWindow firstOrdinals lastOrdinals sequenceId1 sequenceId2),
            sameKmerId assembler orientedReadIds sequenceId1 sequenceId2 o.1 o.2 = true
        · rw [if_pos hall]
          simp only [Bool.not_true, Bool.false_eq_true, if_false, List.map_cons]
          rw [if_pos]
          intro p hp
          rcases List.mem_cons.1 hp with h | h
          · rw [h]
            exact hs
          · exact hall p h
        · rw [if_neg hall]
          simp only [Bool.not_true, Bool.false_eq_true, if_false]
          rw [if_neg]
          intro hcon
          exact hall (fun p hp => hcon p (List.mem_cons_of_mem _ hp))
    · have hw' := hw
      unfold inWindow at hw'
      rw [decide_eq_true_iff] at hw'
      rw [List.filter_cons_of_neg hw]
      by_cases h1 : o.1 < firstOrdinals.getD sequenceId1 0
      · rw [if_pos h1]
      · rw [if_neg h1]
        by_cases h2 : o.2 < firstOrdinals.getD sequenceId2 0
        · rw [if_pos h2]
        · rw [if_neg h2]
          by_cases h3 : o.1 > lastOrdinals.getD sequenceId1 0
          · rw [if_pos h3]
          · rw [if_neg h3]
            by_cases h4 : o.2 > lastOrdinals.getD sequenceId2 0
            · rw [if_pos h4]
            · exfalso
              omega
/-- In a strictly increasing alignment the second ordinal of every pair is at most the
second ordinal of the last pair. -/
theorem snd_le_getLast_of_strictlyIncreasing (ordinals : List (Nat × Nat))
    (hne : ordinals ≠ []) (hincreasing : StrictlyIncreasing ordinals) :
    ∀ o ∈ ordinals, o.2 ≤ (ordinals.getLast hne).2 := by
  rw [strictlyIncreasing_iff_chain'] at hincreasing
  have htrans : IsTrans (Nat × Nat)
      (fun previous current => previous.1 < current.1 ∧ previous.2 < current.2) :=
    ⟨fun a b c hab hbc => ⟨Nat.lt_trans hab.1 hbc.1, Nat.lt_trans hab.2 hbc.2⟩⟩
  have hp := (List.chain'_iff_pairwise).1 hincreasing
  intro o ho
  rw [← List.dropLast_append_getLast hne, List.pairwise_append] at hp
  rw [← List.dropLast_append_getLast hne, List.mem_append] at ho
  rcases ho with h | h
  · exact Nat.le_of_lt (hp.2.2 o h _ (List.mem_singleton_self _)).2
  · rw [List.mem_singleton] at h
    rw [h]

/-- The entries that `gatherSequences` holds for an aligned oriented read. -/
theorem gatherSequences_neighbor (assembler : Assembler) (orientedReadId0 : OrientedReadId)
    (alignments : List StoredAlignmentInformation) (i : Nat)
    (info : StoredAlignmentInformation) (hget : alignments[i]? = some info) :
    (gatherSequences assembler orientedReadId0 alignments).orientedReadIds.getD i ⟨0⟩ =
      info.orientedReadId ∧
    (gatherSequences assembler orientedReadId0 alignments).firstOrdinals.getD i 0 =
      neighborFirstOrdinal info.alignment ∧
    (gatherSequences assembler orientedReadId0 alignments).lastOrdinals.getD i 0 =
      neighborLastOrdinal info.alignment ∧
    (gatherSequences assembler orientedReadId0 alignments).sequences.getD i [] =
      neighborSequence assembler info := by
  have hi : i < alignments.length := by
    by_contra hcon
    rw [List.getElem?_eq_none (by omega)] at hget
    cases hget
  simp only [gatherSequences, List.getD_eq_getElem?_getD]
  rw [List.getElem?_append_left (by simpa using hi),
    List.getElem?_append_left (by simpa using hi),
    List.getElem?_append_left (by simpa using hi),
    List.getElem?_append_left (by simpa using hi)]
  simp only [List.getElem?_map, hget, Option.map_some', Option.getD_some, and_self]

/-- The entries that `gatherSequences` holds for the query. -/
theorem gatherSequences_query (assembler : Assembler) (orientedReadId0 : OrientedReadId)
    (alignments : List StoredAlignmentInformation) :
    (gatherSequences assembler orientedReadId0 alignments).sequences.length - 1 =
      alignments.length ∧
    (gatherSequences assembler orientedReadId0 alignments).orientedReadIds.getD
      alignments.length ⟨0⟩ = orientedReadId0 ∧
    (gatherSequences assembler orientedReadId0 alignments).firstOrdinals.getD
      alignments.length 0 = 0 ∧
    (gatherSequences assembler orientedReadId0 alignments).sequences.getD
      alignments.length [] =
        (List.range (assembler.markersSize orientedReadId0.getValue)).map fun ordinal =>
          assembler.markerKmerId orientedReadId0.getValue ordinal := by
  simp only [gatherSequences, List.getD_eq_getElem?_getD]
  rw [List.getElem?_append_right (by simp), List.getElem?_append_right (by simp),
    List.getElem?_append_right (by simp)]
  simp

/-- The window of an aligned oriented read whose alignment with the query is good: first
and last ordinal, the number of tokens, and the tokens. -/
theorem neighborSequence_window (assembler : Assembler) (info : StoredAlignmentInformation)
    (hgood : GoodNeighbor assembler info) :
    neighborFirstOrdinal info.alignment ≤ neighborLastOrdinal info.alignment ∧
    neighborLastOrdinal info.alignment < 2 ^ 32 ∧
    (neighborSequence assembler info).length =
      neighborLastOrdinal info.alignment - neighborFirstOrdinal info.alignment + 1 ∧
    (∀ o ∈ info.alignment.ordinals,
      neighborFirstOrdinal info.alignment ≤ o.2 ∧
      o.2 ≤ neighborLastOrdinal info.alignment) ∧
    (∀ j, j < (neighborSequence assembler info).length →
      (neighborSequence assembler info).getD j 0 =
        assembler.markerKmerId info.orientedReadId.getValue
          (neighborFirstOrdinal info.alignment + j)) := by
  obtain ⟨hne, hincreasing, hrange⟩ := hgood
  have hlen := length_neighborSequence assembler info hne hincreasing hrange
  have hfirst := head_snd_le_of_strictlyIncreasing _ hne hincreasing
  have hlast := snd_le_getLast_of_strictlyIncreasing _ hne hincreasing
  have hcount := assembler.markerCount_lt info.orientedReadId
  have hl := hrange _ (List.getLast_mem hne)
  rw [neighborFirstOrdinal_eq _ hne, neighborLastOrdinal_eq _ hne]
  refine ⟨hfirst _ (List.getLast_mem hne), by omega, hlen, fun o ho => ⟨hfirst o ho, hlast o ho⟩,
    ?_⟩
  intro j hj
  rw [List.getD_eq_getElem _ _ hj]
  unfold neighborSequence
  simp only [List.getElem_map, List.getElem_range]
  rw [neighborFirstOrdinal_eq _ hne]

theorem sub32_of_le (a b : Nat) (hb : b ≤ a) (ha : a < 2 ^ 32) : sub32 a b = a - b := by
  unfold sub32
  omega

/-- C21. Pass-2 window filter in `analyzeAlignments3`, for two aligned oriented reads s1
and s2 whose alignments with the query are good: a pair (o0, o1) of an alignment between
them is passed to `merge` if and only if `firstOrdinals[s1] <= o0 <= lastOrdinals[s1]` and
`firstOrdinals[s2] <= o1 <= lastOrdinals[s2]`; it is passed as
`(o0 - firstOrdinals[s1], o1 - firstOrdinals[s2])`, both without unsigned underflow and
both below the length of their sequence, and the kept pairs keep their relative order. -/
theorem pass2Pairs_window (assembler : Assembler) (orientedReadId0 : OrientedReadId)
    (alignments : List StoredAlignmentInformation) (sequenceId1 sequenceId2 : Nat)
    (info1 info2 : StoredAlignmentInformation) (ordinals v : List (Nat × Nat))
    (h1 : alignments[sequenceId1]? = some info1) (h2 : alignments[sequenceId2]? = some info2)
    (hgood1 : GoodNeighbor assembler info1) (hgood2 : GoodNeighbor assembler info2)
    (hret : pass2Pairs assembler
      ((gatherSequences assembler orientedReadId0 alignments).orientedReadIds.take
        alignments.length)
      (gatherSequences assembler orientedReadId0 alignments).firstOrdinals
      (gatherSequences assembler orientedReadId0 alignments).lastOrdinals
      sequenceId1 sequenceId2 ordinals = .ok v) :
    v = (ordinals.filter
        (inWindow (gatherSequences assembler orientedReadId0 alignments).firstOrdinals
          (gatherSequences assembler orientedReadId0 alignments).lastOrdinals
          sequenceId1 sequenceId2)).map (fun o =>
        (o.1 - (gatherSequences assembler orientedReadId0 alignments).firstOrdinals.getD
            sequenceId1 0,
         o.2 - (gatherSequences assembler orientedReadId0 alignments).firstOrdinals.getD
            sequenceId2 0)) ∧
    ∀ p ∈ v,
      p.1 < ((gatherSequences assembler orientedReadId0 alignments).sequences.getD
        sequenceId1 []).length ∧
      p.2 < ((gatherSequences assembler orientedReadId0 alignments).sequences.getD
        sequenceId2 []).length := by
  obtain ⟨-, hf1, hl1, hs1⟩ := gatherSequences_neighbor assembler orientedReadId0 alignments
    sequenceId1 info1 h1
  obtain ⟨-, hf2, hl2, hs2⟩ := gatherSequences_neighbor assembler orientedReadId0 alignments
    sequenceId2 info2 h2
  obtain ⟨hle1, h321, hlen1, -, -⟩ := neighborSequence_window assembler info1 hgood1
  obtain ⟨hle2, h322, hlen2, -, -⟩ := neighborSequence_window assembler info2 hgood2
  rw [pass2Pairs_eq] at hret
  split at hret
  · simp only [Except.ok.injEq] at hret
    have hv : v = (ordinals.filter
        (inWindow (gatherSequences assembler orientedReadId0 alignments).firstOrdinals
          (gatherSequences assembler orientedReadId0 alignments).lastOrdinals
          sequenceId1 sequenceId2)).map (fun o =>
        (o.1 - (gatherSequences assembler orientedReadId0 alignments).firstOrdinals.getD
            sequenceId1 0,
         o.2 - (gatherSequences assembler orientedReadId0 alignments).firstOrdinals.getD
            sequenceId2 0)) := by
      rw [← hret]
      apply List.map_congr_left
      intro o ho
      have hw := (List.mem_filter.1 ho).2
      unfold inWindow at hw
      rw [decide_eq_true_iff] at hw
      rw [hl1, hl2] at hw
      rw [sub32_of_le _ _ hw.1 (by omega), sub32_of_le _ _ hw.2.2.1 (by omega)]
    refine ⟨hv, ?_⟩
    intro p hp
    rw [hv, List.mem_map] at hp
    obtain ⟨o, ho, rfl⟩ := hp
    have hw := (List.mem_filter.1 ho).2
    unfold inWindow at hw
    rw [decide_eq_true_iff] at hw
    rw [hs1, hs2, hlen1, hlen2]
    rw [hf1, hf2, hl1, hl2] at hw
    rw [hf1, hf2]
    dsimp only
    omega
  · cases hret
/-- C21 at a concrete store: with the three alignments of read 0 of `neighborsAssembler`,
the windows of sequences 1 and 2 are both 1..3; of the pairs (0,1), (1,2), (2,3), (4,4)
the second and the third are kept, shifted by 1. -/
theorem pass2Pairs_window_witness :
    ([(0, 1), (1, 2)] : List (Nat × Nat)) =
      (([(0, 1), (1, 2), (2, 3), (4, 4)] : List (Nat × Nat)).filter
        (inWindow [1, 1, 1, 0] [3, 3, 3, 4] 1 2)).map (fun o => (o.1 - 1, o.2 - 1)) ∧
    ∀ p ∈ ([(0, 1), (1, 2)] : List (Nat × Nat)), p.1 < 3 ∧ p.2 < 3 :=
  pass2Pairs_window neighborsAssembler ⟨0⟩
    [⟨0, ⟨[(0, 1), (2, 3)]⟩, ⟨2⟩⟩, ⟨1, ⟨[(0, 1), (2, 3)]⟩, ⟨4⟩⟩,
      ⟨2, ⟨[(0, 1), (2, 3)]⟩, ⟨6⟩⟩]
    1 2 ⟨1, ⟨[(0, 1), (2, 3)]⟩, ⟨4⟩⟩ ⟨2, ⟨[(0, 1), (2, 3)]⟩, ⟨6⟩⟩
    [(0, 1), (1, 2), (2, 3), (4, 4)] [(0, 1), (1, 2)] rfl rfl (by decide) (by decide) (by rfl)

/-- C29. Pass 1 of the merge in `analyzeAlignments3` stays inside the extracted windows:
for a non-empty strictly increasing alignment of the query with the aligned oriented read
i, with second ordinals below the marker count of the partner and first ordinals (32-bit
values) below `markerCount0`, the vector passed to `merge` holds for every pair the pair
`(o0 - 0, o1 - firstOrdinals[i])`, neither subtraction underflows, the first component is
below the length of the query sequence, the second component below the length of sequence
i, and the tokens stored at these positions are the marker tokens at (query, o0) and
(neighbor, o1). -/
theorem pass1Pairs_window (assembler : Assembler) (orientedReadId0 : OrientedReadId)
    (alignments : List StoredAlignmentInformation) (i : Nat)
    (info : StoredAlignmentInformation) (v : List (Nat × Nat))
    (hget : alignments[i]? = some info) (hgood : GoodNeighbor assembler info)
    (hrange0 : ∀ o ∈ info.alignment.ordinals,
      o.1 < 2 ^ 32 ∧ o.1 < assembler.markersSize orientedReadId0.getValue)
    (hret : pass1Pairs assembler
      (gatherSequences assembler orientedReadId0 alignments).orientedReadIds
      (gatherSequences assembler orientedReadId0 alignments).firstOrdinals
      ((gatherSequences assembler orientedReadId0 alignments).sequences.length - 1) i
      info.alignment.ordinals = .ok v) :
    v = info.alignment.ordinals.map (fun o =>
      (o.1 - 0,
       o.2 - (gatherSequences assembler orientedReadId0 alignments).firstOrdinals.getD i 0)) ∧
    ∀ o ∈ info.alignment.ordinals,
      (gatherSequences assembler orientedReadId0 alignments).firstOrdinals.getD
        ((gatherSequences assembler orientedReadId0 alignments).sequences.length - 1) 0 = 0 ∧
      (gatherSequences assembler orientedReadId0 alignments).firstOrdinals.getD i 0 ≤ o.2 ∧
      o.1 - 0 < ((gatherSequences assembler orientedReadId0 alignments).sequences.getD
        ((gatherSequences assembler orientedReadId0 alignments).sequences.length - 1)
        []).length ∧
      o.2 - (gatherSequences assembler orientedReadId0 alignments).firstOrdinals.getD i 0 <
        ((gatherSequences assembler orientedReadId0 alignments).sequences.getD i []).length ∧
      ((gatherSequences assembler orientedReadId0 alignments).sequences.getD
        ((gatherSequences assembler orientedReadId0 alignments).sequences.length - 1)
        []).getD (o.1 - 0) 0 = assembler.markerKmerId orientedReadId0.getValue o.1 ∧
      ((gatherSequences assembler orientedReadId0 alignments).sequences.getD i []).getD
        (o.2 - (gatherSequences assembler orientedReadId0 alignments).firstOrdinals.getD i 0)
        0 = assembler.markerKmerId info.orientedReadId.getValue o.2 := by
  obtain ⟨-, hf, -, hs⟩ := gatherSequences_neighbor assembler orientedReadId0 alignments
    i info hget
  obtain ⟨hlast, -, hf0, hs0⟩ := gatherSequences_query assembler orientedReadId0 alignments
  obtain ⟨hle, h32, hlen, hwin, htok⟩ := neighborSequence_window assembler info hgood
  have hcount := assembler.markerCount_lt info.orientedReadId
  rw [pass1Pairs_eq] at hret
  rw [hlast, hf0, hf, hs, hs0]
  rw [hlast, hf0, hf] at hret
  constructor
  · split at hret
    · simp only [Except.ok.injEq] at hret
      rw [← hret]
      apply List.map_congr_left
      intro o ho
      rw [sub32_of_le _ _ (Nat.zero_le _) (hrange0 o ho).1,
        sub32_of_le _ _ (hwin o ho).1 (by have := hgood.2.2 o ho; omega)]
    · cases hret
  · intro o ho
    have hw := hwin o ho
    have h0 := hrange0 o ho
    have hj : o.2 - neighborFirstOrdinal info.alignment <
        (neighborSequence assembler info).length := by
      rw [hlen]
      omega
    refine ⟨rfl, hw.1, ?_, hj, ?_, ?_⟩
    · simp only [List.length_map, List.length_range, Nat.sub_zero]
      exact h0.2
    · have hlt : o.1 - 0 < ((List.range (assembler.markersSize orientedReadId0.getValue)).map
          fun ordinal => assembler.markerKmerId orientedReadId0.getValue ordinal).length := by
        simp only [List.length_map, List.length_range, Nat.sub_zero]
        exact h0.2
      rw [List.getD_eq_getElem _ _ hlt]
      simp only [List.getElem_map, List.getElem_range, Nat.sub_zero]
    · rw [htok _ hj]
      congr 1
      omega

/-- C29 at a concrete store: the alignment of read 0 of `neighborsAssembler` with its
second aligned read is passed to `merge` as (0, 0), (2, 2), inside the sequences of
lengths 5 and 3. -/
theorem pass1Pairs_window_witness :
    ([(0, 0), (2, 2)] : List (Nat × Nat)) =
      ([(0, 1), (2, 3)] : List (Nat × Nat)).map (fun o => (o.1 - 0, o.2 - 1)) ∧
    ∀ o ∈ ([(0, 1), (2, 3)] : List (Nat × Nat)),
      (0 : Nat) = 0 ∧ 1 ≤ o.2 ∧ o.1 - 0 < 5 ∧ o.2 - 1 < 3 ∧
      ([0, 0, 0, 0, 0] : List Nat).getD (o.1 - 0) 0 = 0 ∧
      ([0, 0, 0] : List Nat).getD (o.2 - 1) 0 = 0 :=
  pass1Pairs_window neighborsAssembler ⟨0⟩
    [⟨0, ⟨[(0, 1), (2, 3)]⟩, ⟨2⟩⟩, ⟨1, ⟨[(0, 1), (2, 3)]⟩, ⟨4⟩⟩,
      ⟨2, ⟨[(0, 1), (2, 3)]⟩, ⟨6⟩⟩]
    1 ⟨1, ⟨[(0, 1), (2, 3)]⟩, ⟨4⟩⟩ [(0, 0), (2, 2)] rfl (by decide) (by decide) (by rfl)
/-- The first merge pass aborts on the first alignment with a pair that joins markers with
different `kmerId`s. -/
theorem pass1Loop_error_of_mismatch (assembler : Assembler)
    (orientedReadIds : List OrientedReadId) (firstOrdinals : List Nat) (sequenceId0 : Nat)
    (alignments : List StoredAlignmentInformation) (start j : Nat)
    (info : StoredAlignmentInformation) (o : Nat × Nat)
    (hget : alignments[j]? = some info) (ho : o ∈ info.alignment.ordinals)
    (hdiff : sameKmerId assembler orientedReadIds sequenceId0 (start + j) o.1 o.2 = false) :
    pass1Loop assembler orientedReadIds firstOrdinals sequenceId0 alignments start =
      .error .kmerIdMismatch := by
  induction alignments generalizing start j with
  | nil => simp at hget
  | cons first rest ih =>
    unfold pass1Loop
    rw [pass1Pairs_eq]
    cases j with
    | zero =>
      simp only [List.getElem?_cons_zero, Option.some.injEq] at hget
      rw [hget, if_neg]
      intro hall
      have := hall o ho
      rw [Nat.add_zero] at hdiff
      rw [hdiff] at this
      cases this
    | succ k =>
      simp only [List.getElem?_cons_succ] at hget
      have hrest := ih (start + 1) k hget (by rw [Nat.add_assoc, Nat.add_comm 1 k]; exact hdiff)
      split
      · rename_i e heq
        split at heq
        · cases heq
        · cases heq
          rfl
      · rw [hrest]


/-! ## C27: the orientation of the partner -/

/-- What the second overload's body tells about an entry it returns: the first-read
assertion held, the binary search found the partner, and the partner is the second
oriented read after the swap and strand-flip decisions. -/
theorem getStoredAlignmentsFilteredBody_some (assembler : Assembler)
    (orientedReadId0 : OrientedReadId) (orientedReadIds1 : List OrientedReadId)
    (alignmentId : Nat) (info : StoredAlignmentInformation)
    (hret : getStoredAlignmentsFilteredBody assembler orientedReadId0 orientedReadIds1
      alignmentId = .ok (some info)) :
    (afterSwap orientedReadId0
      (storedOrientedReadIds (assembler.alignmentData alignmentId))).1.getReadId =
        orientedReadId0.getReadId ∧
    binarySearch orientedReadIds1
      (afterReverseComplement orientedReadId0
        (afterSwap orientedReadId0
          (storedOrientedReadIds (assembler.alignmentData alignmentId)))).2 = true ∧
    info.orientedReadId =
      (afterReverseComplement orientedReadId0
        (afterSwap orientedReadId0
          (storedOrientedReadIds (assembler.alignmentData alignmentId)))).2 := by
  by_cases h : (afterSwap orientedReadId0
      (storedOrientedReadIds (assembler.alignmentData alignmentId))).1.getReadId =
        orientedReadId0.getReadId
  · rw [getStoredAlignmentsFilteredBody_eq assembler orientedReadId0 orientedReadIds1
      alignmentId h] at hret
    dsimp only at hret
    split at hret
    · cases hret
    · rename_i hfound
      split at hret
      · cases hret
      · simp only [Except.ok.injEq, Option.some.injEq] at hret
        rw [← hret]
        refine ⟨h, ?_, rfl⟩
        simpa using hfound
  · rw [getStoredAlignmentsFilteredBody_of_ne assembler orientedReadId0 orientedReadIds1
      alignmentId h] at hret
    cases hret

/-- The second oriented read after the swap and strand-flip decisions is the other read of
the record, on the strand of the query exactly when the record has its same-strand flag
set. -/
theorem partner_orientation (orientedReadId0 : OrientedReadId) (alignmentData : AlignmentData)
    (hread : (afterSwap orientedReadId0
      (storedOrientedReadIds alignmentData)).1.getReadId = orientedReadId0.getReadId) :
    (afterReverseComplement orientedReadId0
        (afterSwap orientedReadId0 (storedOrientedReadIds alignmentData))).2.getReadId =
      (if alignmentData.readIds.1 = orientedReadId0.getReadId then alignmentData.readIds.2
        else alignmentData.readIds.1) ∧
    ((afterReverseComplement orientedReadId0
        (afterSwap orientedReadId0 (storedOrientedReadIds alignmentData))).2.getStrand =
      orientedReadId0.getStrand ↔ alignmentData.isSameStrand = true) := by
  cases orientedReadId0 with
  | mk q =>
    cases alignmentData with
    | mk readIds isSameStrand markerCount =>
      cases readIds with
      | mk r0 r1 =>
        revert hread
        unfold afterReverseComplement needsReverseComplement afterSwap needsSwap
          storedOrientedReadIds
        simp only [OrientedReadId.getReadId, OrientedReadId.getStrand,
          OrientedReadId.flipStrand, OrientedReadId.ofReadIdStrand]
        cases isSameStrand
        · simp only [Bool.false_eq_true, if_false, ne_eq, decide_not, Bool.not_eq_true',
            decide_eq_false_iff_not, ite_not, iff_false]
          by_cases h0 : (2 * r0 + 0) / 2 = q / 2
          · simp only [h0, if_true]
            by_cases hs : (2 * r0 + 0) % 2 = q % 2
            · simp only [hs, if_true]
              intro _
              constructor
              · rw [if_pos (by omega)]
                omega
              · omega
            · simp only [hs, if_false]
              intro _
              constructor
              · rw [if_pos (by omega)]
                omega
              · omega
          · simp only [h0, if_false]
            by_cases hs : (2 * r1 + 1) % 2 = q % 2
            · simp only [hs, if_true]
              intro _
              constructor
              · rw [if_neg (by omega)]
                omega
              · omega
            · simp only [hs, if_false]
              intro _
              constructor
              · rw [if_neg (by omega)]
                omega
              · omega
        · simp only [if_true, ne_eq, decide_not, Bool.not_eq_true',
            decide_eq_false_iff_not, ite_not, iff_true]
          by_cases h0 : (2 * r0 + 0) / 2 = q / 2
          · simp only [h0, if_true]
            by_cases hs : (2 * r0 + 0) % 2 = q % 2
            · simp only [hs, if_true]
              intro _
              constructor
              · rw [if_pos (by omega)]
                omega
              · omega
            · simp only [hs, if_false]
              intro _
              constructor
              · rw [if_pos (by omega)]
                omega
              · omega
          · simp only [h0, if_false]
            by_cases hs : (2 * r1 + 0) % 2 = q % 2
            · simp only [hs, if_true]
              intro _
              constructor
              · rw [if_neg (by omega)]
                omega
              · omega
            · simp only [hs, if_false]
              intro _
              constructor
              · rw [if_neg (by omega)]
                omega
              · omega

/-- C27. The partner orientation returned by `getStoredAlignments` depends only on the
stored same-strand flag and the strand of the query: for every record and every query for
which an overload returns an entry, the returned partner is the other read of the record,
and it is on the strand of the query if and only if the record has `isSameStrand` set,
whether or not a swap or a reverse complement was applied. -/
theorem getStoredAlignments_partner (assembler : Assembler)
    (orientedReadId0 : OrientedReadId) (orientedReadIds1 : List OrientedReadId)
    (alignmentIndex : Nat) (info : StoredAlignmentInformation)
    (hret : getStoredAlignmentsBody assembler orientedReadId0 alignmentIndex = .ok info ∨
      getStoredAlignmentsFilteredBody assembler orientedReadId0 orientedReadIds1
        alignmentIndex = .ok (some info)) :
    info.orientedReadId.getReadId =
      (if (assembler.alignmentData alignmentIndex).readIds.1 = orientedReadId0.getReadId then
        (assembler.alignmentData alignmentIndex).readIds.2
      else (assembler.alignmentData alignmentIndex).readIds.1) ∧
    (info.orientedReadId.getStrand = orientedReadId0.getStrand ↔
      (assembler.alignmentData alignmentIndex).isSameStrand = true) := by
  rcases hret with hret | hret
  · obtain ⟨hread, -, -, hpartner, -⟩ := getStoredAlignmentsBody_ok _ _ _ _ hret
    rw [hpartner]
    exact partner_orientation orientedReadId0 _ hread
  · obtain ⟨hread, -, hpartner⟩ := getStoredAlignmentsFilteredBody_some _ _ _ _ _ hret
    rw [hpartner]
    exact partner_orientation orientedReadId0 _ hread

/-- C27 at a concrete record: alignment 1 of the example store (reads 2 and 0, opposite
strands) seen from read 0 on strand 0, after a swap and a reverse complement: the partner
is read 2 on strand 1. -/
theorem getStoredAlignments_partner_witness :
    (⟨1, ⟨[(1, 0), (4, 4)]⟩, ⟨5⟩⟩ : StoredAlignmentInformation).orientedReadId.getReadId =
      (if (exampleAssembler.alignmentData 1).readIds.1 = (⟨0⟩ : OrientedReadId).getReadId then
        (exampleAssembler.alignmentData 1).readIds.2
      else (exampleAssembler.alignmentData 1).readIds.1) ∧
    ((⟨1, ⟨[(1, 0), (4, 4)]⟩, ⟨5⟩⟩ : StoredAlignmentInformation).orientedReadId.getStrand =
        (⟨0⟩ : OrientedReadId).getStrand ↔
      (exampleAssembler.alignmentData 1).isSameStrand = true) :=
  getStoredAlignments_partner exampleAssembler ⟨0⟩ [] 1 ⟨1, ⟨[(1, 0), (4, 4)]⟩, ⟨5⟩⟩
    (Or.inl (by rfl))
/-! ## C30: the lookup of the partner in the second merge pass -/

/-- In a sorted list `std::lower_bound` finds every element of the list at its index. -/
theorem lowerBound_of_mem (orientedReadIds1 : List OrientedReadId) (x : OrientedReadId)
    (hsorted : SortedIds orientedReadIds1) (hmem : x ∈ orientedReadIds1) :
    lowerBound orientedReadIds1 x < orientedReadIds1.length ∧
    orientedReadIds1.getD (lowerBound orientedReadIds1 x) ⟨0⟩ = x := by
  obtain ⟨hle, hbelow, habove⟩ := lowerBoundLoop_spec orientedReadIds1 x hsorted
    orientedReadIds1.length 0 orientedReadIds1.length (Nat.le_refl _) (by omega)
    (fun i hi => absurd hi (Nat.not_lt_zero i)) (fun i hi hin => by omega)
  change lowerBound orientedReadIds1 x ≤ _ at hle
  change ∀ i, i < lowerBound orientedReadIds1 x → _ at hbelow
  change ∀ i, lowerBound orientedReadIds1 x ≤ i → _ at habove
  generalize lowerBound orientedReadIds1 x = r at hle hbelow habove ⊢
  obtain ⟨j, hj, hjx⟩ := List.getElem_of_mem hmem
  have hjx' : orientedReadIds1.getD j ⟨0⟩ = x := by
    rw [List.getD_eq_getElem _ _ hj]
    exact hjx
  have hrj : r ≤ j := by
    by_contra hcon
    have := hbelow j (by omega)
    rw [hjx'] at this
    omega
  have hr : r < orientedReadIds1.length := by omega
  refine ⟨hr, ?_⟩
  have hmono := sortedIds_getD_le orientedReadIds1 hsorted r j hrj hj
  rw [hjx'] at hmono
  have hge := habove r (Nat.le_refl _) hr
  cases hx : x with
  | mk v =>
    cases hy : orientedReadIds1.getD r ⟨0⟩ with
    | mk w =>
      rw [hx, hy] at hmono hge
      simp only at hmono hge
      have : w = v := by omega
      rw [this]

/-- The second overload fails in its sortedness check on a list that is not sorted. -/
theorem getStoredAlignmentsFiltered_of_not_sorted (assembler : Assembler)
    (orientedReadId0 : OrientedReadId) (orientedReadIds1 : List OrientedReadId)
    (hns : ¬ SortedIds orientedReadIds1) :
    getStoredAlignmentsFiltered assembler orientedReadId0 orientedReadIds1 =
      .error .notSorted := by
  unfold getStoredAlignmentsFiltered
  cases hc : checkSortedLoop orientedReadIds1 with
  | error e =>
    dsimp only
    rw [checkSortedLoop_error _ _ hc]
  | ok u =>
    exact absurd ((checkSortedLoop_ok_iff orientedReadIds1).1 hc) hns

/-- The second overload returns only when its list is sorted. -/
theorem sortedIds_of_getStoredAlignmentsFiltered_ok (assembler : Assembler)
    (orientedReadId0 : OrientedReadId) (orientedReadIds1 : List OrientedReadId)
    (alignments : List StoredAlignmentInformation)
    (hret : getStoredAlignmentsFiltered assembler orientedReadId0 orientedReadIds1 =
      .ok alignments) : SortedIds orientedReadIds1 := by
  by_contra hns
  rw [getStoredAlignmentsFiltered_of_not_sorted _ _ _ hns] at hret
  cases hret

/-- The partner of every entry returned by the second overload is in the list. -/
theorem partner_mem_of_getStoredAlignmentsFiltered (assembler : Assembler)
    (orientedReadId0 : OrientedReadId) (orientedReadIds1 : List OrientedReadId)
    (alignments : List StoredAlignmentInformation)
    (hret : getStoredAlignmentsFiltered assembler orientedReadId0 orientedReadIds1 =
      .ok alignments) :
    ∀ info ∈ alignments, info.orientedReadId ∈ orientedReadIds1 := by
  intro info hmem
  have hsorted := sortedIds_of_getStoredAlignmentsFiltered_ok _ _ _ _ hret
  have hloop := getStoredAlignmentsFiltered_ok _ _ _ _ hret
  obtain ⟨i, -, hb⟩ := (getStoredAlignmentsFilteredLoop_ok _ _ _ _ _ hloop).2 info hmem
  obtain ⟨-, hfound, hpartner⟩ := getStoredAlignmentsFilteredBody_some _ _ _ _ _ hb
  rw [← hpartner, binarySearch_eq_decide_mem _ _ hsorted] at hfound
  exact of_decide_eq_true hfound

theorem pass2Pairs_error (assembler : Assembler) (orientedReadIds : List OrientedReadId)
    (firstOrdinals lastOrdinals : List Nat) (sequenceId1 sequenceId2 : Nat)
    (ordinals : List (Nat × Nat)) (e : Failure)
    (h : pass2Pairs assembler orientedReadIds firstOrdinals lastOrdinals sequenceId1
      sequenceId2 ordinals = .error e) : e = .kmerIdMismatch := by
  induction ordinals with
  | nil => cases h
  | cons o rest ih =>
    unfold pass2Pairs at h
    split at h
    · exact ih h
    · split at h
      · exact ih h
      · split at h
        · exact ih h
        · split at h
          · exact ih h
          · split at h
            · cases h
              rfl
            · cases hrest : pass2Pairs assembler orientedReadIds firstOrdinals lastOrdinals
                  sequenceId1 sequenceId2 rest with
              | error e1 =>
                rw [hrest] at h
                cases h
                exact ih hrest
              | ok v =>
                rw [hrest] at h
                cases h

/-- The loop over the returned alignments does not fail on the lookup assertion when each
partner is found. -/
theorem pass2Alignments_error (assembler : Assembler) (orientedReadIds : List OrientedReadId)
    (firstOrdinals lastOrdinals : List Nat) (sequenceId1 : Nat)
    (alignments : List StoredAlignmentInformation)
    (hfound : ∀ info ∈ alignments,
      lowerBound orientedReadIds info.orientedReadId < orientedReadIds.length)
    (e : Failure)
    (h : pass2Alignments assembler orientedReadIds firstOrdinals lastOrdinals sequenceId1
      alignments = .error e) : e = .kmerIdMismatch := by
  induction alignments with
  | nil => cases h
  | cons info rest ih =>
    have hinfo := hfound info (List.mem_cons_self _ _)
    unfold pass2Alignments at h
    dsimp only at h
    rw [if_neg (by omega)] at h
    cases hp : pass2Pairs assembler orientedReadIds firstOrdinals lastOrdinals sequenceId1
        (lowerBound orientedReadIds info.orientedReadId) info.alignment.ordinals with
    | error e1 =>
      rw [hp] at h
      cases h
      exact pass2Pairs_error _ _ _ _ _ _ _ _ hp
    | ok v =>
      rw [hp] at h
      cases hrest : pass2Alignments assembler orientedReadIds firstOrdinals lastOrdinals
          sequenceId1 rest with
      | error e2 =>
        rw [hrest] at h
        cases h
        exact ih (fun i hi => hfound i (List.mem_cons_of_mem _ hi)) hrest
      | ok merges =>
        rw [hrest] at h
        cases h

/-- The list of oriented reads of the second merge pass: the partners of the alignments of
the query, in their order. -/
theorem take_orientedReadIds_gatherSequences (assembler : Assembler)
    (orientedReadId0 : OrientedReadId) (alignments : List StoredAlignmentInformation) :
    (gatherSequences assembler orientedReadId0 alignments).orientedReadIds.take
      alignments.length = alignments.map fun info => info.orientedReadId := by
  simp only [gatherSequences]
  rw [List.take_append_of_le_length (by simp)]
  exact List.take_of_length_le (by simp)

/-- C30. Pass-2 sequence lookup in `analyzeAlignments3`: for every alignment returned by
the filtered `getStoredAlignments` (which returns only for a strictly increasing neighbor
list) the `lower_bound` lookup yields an index inside the neighbor list at which the list
holds the partner of the alignment, so the assertion on the lookup never fires; when the
neighbor list, the partners of the query alignments in alignment-table order, is not
strictly increasing, pass 2 aborts in the sortedness check of the filtered overload. -/
theorem pass2_lookup (assembler : Assembler) (orientedReadId0 orientedReadId1 : OrientedReadId)
    (orientedReadIds : List OrientedReadId)
    (alignments returned : List StoredAlignmentInformation) :
    (getStoredAlignmentsFiltered assembler orientedReadId1 orientedReadIds = .ok returned →
      (∀ info ∈ returned,
        lowerBound orientedReadIds info.orientedReadId < orientedReadIds.length ∧
        orientedReadIds.getD (lowerBound orientedReadIds info.orientedReadId) ⟨0⟩ =
          info.orientedReadId) ∧
      ∀ (firstOrdinals lastOrdinals : List Nat) (sequenceId1 : Nat),
        pass2Alignments assembler orientedReadIds firstOrdinals lastOrdinals sequenceId1
          returned ≠ .error .sequenceNotFound) ∧
    (¬ SortedIds (alignments.map fun info => info.orientedReadId) →
      mergePass2 assembler (gatherSequences assembler orientedReadId0 alignments) alignments =
        .error .notSorted) := by
  constructor
  · intro hret
    have hsorted := sortedIds_of_getStoredAlignmentsFiltered_ok _ _ _ _ hret
    have hmem := partner_mem_of_getStoredAlignmentsFiltered _ _ _ _ hret
    have hlookup : ∀ info ∈ returned,
        lowerBound orientedReadIds info.orientedReadId < orientedReadIds.length ∧
        orientedReadIds.getD (lowerBound orientedReadIds info.orientedReadId) ⟨0⟩ =
          info.orientedReadId :=
      fun info hinfo => lowerBound_of_mem _ _ hsorted (hmem info hinfo)
    refine ⟨hlookup, ?_⟩
    intro firstOrdinals lastOrdinals sequenceId1 herr
    have := pass2Alignments_error assembler orientedReadIds firstOrdinals lastOrdinals
      sequenceId1 returned (fun info hinfo => (hlookup info hinfo).1) _ herr
    cases this
  · intro hns
    unfold mergePass2
    dsimp only
    rw [take_orientedReadIds_gatherSequences]
    cases halignments : alignments with
    | nil =>
      rw [halignments] at hns
      exact absurd trivial hns
    | cons first rest =>
      rw [halignments] at hns
      rw [List.map_cons]
      unfold pass2Loop
      rw [if_pos (by simp)]
      rw [← List.map_cons (fun info : StoredAlignmentInformation => info.orientedReadId),
        getStoredAlignmentsFiltered_of_not_sorted _ _ _ hns]

/-- C30 at a concrete store: for read 2 of `neighborsAssembler` and the neighbor list
`[2, 4, 6]` the returned alignment has partner 6, which the lookup finds at index 2; the
unsorted neighbor list `[4, 2]` makes the second pass abort. -/
theorem pass2_lookup_witness :
    lowerBound [⟨2⟩, ⟨4⟩, ⟨6⟩] ⟨6⟩ < ([⟨2⟩, ⟨4⟩, ⟨6⟩] : List OrientedReadId).length ∧
    mergePass2 neighborsAssembler
        (gatherSequences neighborsAssembler ⟨0⟩
          [⟨1, ⟨[(0, 1), (2, 3)]⟩, ⟨4⟩⟩, ⟨0, ⟨[(0, 1), (2, 3)]⟩, ⟨2⟩⟩])
        [⟨1, ⟨[(0, 1), (2, 3)]⟩, ⟨4⟩⟩, ⟨0, ⟨[(0, 1), (2, 3)]⟩, ⟨2⟩⟩] =
      .error .notSorted :=
  ⟨(((pass2_lookup neighborsAssembler ⟨0⟩ ⟨4⟩ [⟨2⟩, ⟨4⟩, ⟨6⟩] []
        [⟨3, ⟨[(1, 2), (2, 3)]⟩, ⟨6⟩⟩]).1 (by rfl)).1
      ⟨3, ⟨[(1, 2), (2, 3)]⟩, ⟨6⟩⟩ (by decide)).1,
   (pass2_lookup neighborsAssembler ⟨0⟩ ⟨4⟩ []
      [⟨1, ⟨[(0, 1), (2, 3)]⟩, ⟨4⟩⟩, ⟨0, ⟨[(0, 1), (2, 3)]⟩, ⟨2⟩⟩] []).2 (by decide)⟩

/-! ## C23: the vertex coverage histograms -/

theorem incrementHistogram_nil_zero : incrementHistogram [] 0 = [1] := rfl

theorem incrementHistogram_cons_zero (x : Nat) (xs : List Nat) :
    incrementHistogram (x :: xs) 0 = (x + 1) :: xs := by
  simp [incrementHistogram]

theorem incrementHistogram_nil_succ (c : Nat) :
    incrementHistogram [] (c + 1) = 0 :: incrementHistogram [] c := by
  simp [incrementHistogram, List.replicate_succ]

theorem incrementHistogram_cons_succ (x : Nat) (xs : List Nat) (c : Nat) :
    incrementHistogram (x :: xs) (c + 1) = x :: incrementHistogram xs c := by
  unfold incrementHistogram
  by_cases h : c ≥ xs.length
  · have h1 : c + 1 ≥ (x :: xs).length := by simpa using h
    have h2 : c + 1 + 1 - (x :: xs).length = c + 1 - xs.length := by
      simp only [List.length_cons]
      omega
    simp only [h, h1, if_true, h2]
    simp
  · have h1 : ¬ c + 1 ≥ (x :: xs).length := by simpa using h
    simp only [h, h1, if_false]
    simp

/-- One increment raises the entry of its value by one and leaves the other entries. -/
theorem incrementHistogram_getD (histogram : List Nat) (c j : Nat) :
    (incrementHistogram histogram c).getD j 0 =
      histogram.getD j 0 + if j = c then 1 else 0 := by
  induction c generalizing histogram j with
  | zero =>
    cases histogram with
    | nil =>
      rw [incrementHistogram_nil_zero]
      cases j with
      | zero => rfl
      | succ k => simp
    | cons x xs =>
      rw [incrementHistogram_cons_zero]
      cases j with
      | zero => simp
      | succ k => simp
  | succ c ih =>
    cases histogram with
    | nil =>
      rw [incrementHistogram_nil_succ]
      cases j with
      | zero => simp
      | succ k =>
        have := ih [] k
        simp only [List.getD_eq_getElem?_getD, List.getElem?_cons_succ] at this ⊢
        rw [this]
        simp
    | cons x xs =>
      rw [incrementHistogram_cons_succ]
      cases j with
      | zero => simp
      | succ k =>
        have := ih xs k
        simp only [List.getD_eq_getElem?_getD, List.getElem?_cons_succ] at this ⊢
        rw [this]
        simp

/-- One increment raises the sum of the histogram by one. -/
theorem incrementHistogram_sum (histogram : List Nat) (c : Nat) :
    (incrementHistogram histogram c).sum = histogram.sum + 1 := by
  induction c generalizing histogram with
  | zero =>
    cases histogram with
    | nil => rfl
    | cons x xs =>
      rw [incrementHistogram_cons_zero]
      simp only [List.sum_cons]
      omega
  | succ c ih =>
    cases histogram with
    | nil =>
      rw [incrementHistogram_nil_succ, List.sum_cons, ih]
      simp
    | cons x xs =>
      rw [incrementHistogram_cons_succ, List.sum_cons, ih, List.sum_cons]
      omega

/-- The two entries of `coveragePerStrand` add up to the number of occurrences, so the
assertion of `createVertexCoverageHistograms` holds. -/
theorem coveragePerStrand_sum (orientedReadIds : List OrientedReadId)
    (occurrences : List (Nat × Nat)) :
    (coveragePerStrand orientedReadIds occurrences).1 +
      (coveragePerStrand orientedReadIds occurrences).2 = occurrences.length := by
  unfold coveragePerStrand
  rw [coveragePerStrand_foldl]
  simp only [Nat.zero_add]
  induction occurrences with
  | nil => rfl
  | cons p rest ih =>
    have hlt := getStrand_lt_two (orientedReadIds.getD p.1 ⟨0⟩)
    by_cases h0 : (orientedReadIds.getD p.1 ⟨0⟩).getStrand = 0
    · have h1 : ¬ (orientedReadIds.getD p.1 ⟨0⟩).getStrand = 1 := by omega
      rw [List.filter_cons_of_pos (by simpa using h0),
        List.filter_cons_of_neg (by simpa using h1)]
      simp only [List.length_cons]
      omega
    · have h1 : (orientedReadIds.getD p.1 ⟨0⟩).getStrand = 1 := by omega
      rw [List.filter_cons_of_neg (by simpa using h0),
        List.filter_cons_of_pos (by simpa using h1)]
      simp only [List.length_cons]
      omega

/-- The loop over the vertices, from any start: it returns, every entry has grown by the
number of vertices with that coverage, and every sum by the number of vertices. -/
theorem vertexCoverageHistogramsLoop_spec (orientedReadIds : List OrientedReadId)
    (strand0 : Nat) (hstrand : strand0 < 2) (vertices : List DeBruijnVertex)
    (start : VertexCoverageHistograms) :
    ∃ histograms,
      vertexCoverageHistogramsLoop orientedReadIds strand0 vertices start = .ok histograms ∧
      (∀ c, histograms.totalCoverageHistogram.getD c 0 =
        start.totalCoverageHistogram.getD c 0 +
          (vertices.filter fun v => v.occurrences.length = c).length) ∧
      (∀ c, histograms.sameStrandCoverageHistogram.getD c 0 =
        start.sameStrandCoverageHistogram.getD c 0 +
          (vertices.filter fun v =>
            occurrencesOnStrand orientedReadIds strand0 v = c).length) ∧
      (∀ c, histograms.oppositeStrandCoverageHistogram.getD c 0 =
        start.oppositeStrandCoverageHistogram.getD c 0 +
          (vertices.filter fun v =>
            occurrencesOnStrand orientedReadIds (1 - strand0) v = c).length) ∧
      histograms.totalCoverageHistogram.sum =
        start.totalCoverageHistogram.sum + vertices.length ∧
      histograms.sameStrandCoverageHistogram.sum =
        start.sameStrandCoverageHistogram.sum + vertices.length ∧
      histograms.oppositeStrandCoverageHistogram.sum =
        start.oppositeStrandCoverageHistogram.sum + vertices.length := by
  induction vertices generalizing start with
  | nil => exact ⟨start, rfl, by simp, by simp, by simp, by simp, by simp, by simp⟩
  | cons v rest ih =>
    unfold vertexCoverageHistogramsLoop vertexCoverageHistogramsStep
    dsimp only
    rw [if_neg (by rw [coveragePerStrand_sum]; exact fun h => h rfl)]
    dsimp only
    obtain ⟨histograms, hret, ht, hs, ho, hts, hss, hos⟩ := ih
      { totalCoverageHistogram :=
          incrementHistogram start.totalCoverageHistogram v.occurrences.length
        sameStrandCoverageHistogram :=
          incrementHistogram start.sameStrandCoverageHistogram
            (coverageOfStrand (coveragePerStrand orientedReadIds v.occurrences) strand0)
        oppositeStrandCoverageHistogram :=
          incrementHistogram start.oppositeStrandCoverageHistogram
            (coverageOfStrand (coveragePerStrand orientedReadIds v.occurrences)
              (1 - strand0)) }
    refine ⟨histograms, hret, ?_, ?_, ?_, ?_, ?_, ?_⟩
    · intro c
      rw [ht c]
      dsimp only
      rw [incrementHistogram_getD]
      by_cases h : v.occurrences.length = c
      · rw [List.filter_cons_of_pos (by simpa using h), if_pos h.symm, List.length_cons]
        omega
      · rw [List.filter_cons_of_neg (by simpa using h), if_neg (fun h' => h h'.symm)]
        omega
    · intro c
      rw [hs c]
      dsimp only
      rw [incrementHistogram_getD, coverageOfStrand_coveragePerStrand _ _ _ hstrand]
      by_cases h : occurrencesOnStrand orientedReadIds strand0 v = c
      · rw [List.filter_cons_of_pos (by simpa using h), if_pos h.symm, List.length_cons]
        omega
      · rw [List.filter_cons_of_neg (by simpa using h), if_neg (fun h' => h h'.symm)]
        omega
    · intro c
      rw [ho c]
      dsimp only
      rw [incrementHistogram_getD, coverageOfStrand_coveragePerStrand _ _ _ (by omega)]
      by_cases h : occurrencesOnStrand orientedReadIds (1 - strand0) v = c
      · rw [List.filter_cons_of_pos (by simpa using h), if_pos h.symm, List.length_cons]
        omega
      · rw [List.filter_cons_of_neg (by simpa using h), if_neg (fun h' => h h'.symm)]
        omega
    · rw [hts]
      dsimp only
      rw [incrementHistogram_sum, List.length_cons]
      omega
    · rw [hss]
      dsimp only
      rw [incrementHistogram_sum, List.length_cons]
      omega
    · rw [hos]
      dsimp only
      rw [incrementHistogram_sum, List.length_cons]
      omega

/-- C23. Vertex coverage histograms: `createVertexCoverageHistograms` returns (its
assertion never fires), and for every c, `totalCoverageHistogram[c]` is the number of
graph vertices with exactly c occurrences, `sameStrandCoverageHistogram[c]` the number with
exactly c occurrences on the strand of the query and `oppositeStrandCoverageHistogram[c]`
the number with exactly c on the other strand, entries past the end of a histogram
counting as 0; each histogram sums to the number of vertices. -/
theorem createVertexCoverageHistograms_spec (graph : AnalyzeAlignments2Graph)
    (orientedReadIds : List OrientedReadId) :
    ∃ histograms,
      createVertexCoverageHistograms graph orientedReadIds = .ok histograms ∧
      (∀ c, histograms.totalCoverageHistogram.getD c 0 =
        (graph.vertices.filter fun v => v.occurrences.length = c).length) ∧
      (∀ c, histograms.sameStrandCoverageHistogram.getD c 0 =
        (graph.vertices.filter fun v =>
          occurrencesOnStrand orientedReadIds (queryStrand orientedReadIds) v = c).length) ∧
      (∀ c, histograms.oppositeStrandCoverageHistogram.getD c 0 =
        (graph.vertices.filter fun v =>
          occurrencesOnStrand orientedReadIds (1 - queryStrand orientedReadIds) v =
            c).length) ∧
      histograms.totalCoverageHistogram.sum = graph.vertices.length ∧
      histograms.sameStrandCoverageHistogram.sum = graph.vertices.length ∧
      histograms.oppositeStrandCoverageHistogram.sum = graph.vertices.length := by
  obtain ⟨histograms, hret, ht, hs, ho, hts, hss, hos⟩ :=
    vertexCoverageHistogramsLoop_spec orientedReadIds (queryStrand orientedReadIds)
      (getStrand_lt_two _) graph.vertices
      { totalCoverageHistogram := []
        sameStrandCoverageHistogram := []
        oppositeStrandCoverageHistogram := [] }
  refine ⟨histograms, hret, ?_, ?_, ?_, ?_, ?_, ?_⟩
  · intro c
    rw [ht c]
    simp
  · intro c
    rw [hs c]
    simp
  · intro c
    rw [ho c]
    simp
  · rw [hts]
    simp
  · rw [hss]
    simp
  · rw [hos]
    simp

/-! ## C24: the order of induced alignment data -/

theorem InducedAlignmentData.less_iff (x y : InducedAlignmentData) :
    x.less y = true ↔
      x.ordinal0 < y.ordinal0 ∨ (x.ordinal0 = y.ordinal0 ∧ x.ordinal1 < y.ordinal1) := by
  unfold InducedAlignmentData.less
  simp only [Bool.or_eq_true, Bool.and_eq_true, Bool.not_eq_true', decide_eq_true_eq,
    decide_eq_false_iff_not]
  omega

theorem InducedAlignmentData.notGreater_iff (x y : InducedAlignmentData) :
    x.notGreater y ↔
      x.ordinal0 < y.ordinal0 ∨ (x.ordinal0 = y.ordinal0 ∧ x.ordinal1 ≤ y.ordinal1) := by
  unfold InducedAlignmentData.notGreater
  rw [← Bool.not_eq_true, InducedAlignmentData.less_iff]
  omega

/-- C24. The method `InducedAlignment::sort` orders by the ordinals: after `sort()`, `data`
is a permutation of its previous content and consecutive entries are non-decreasing in the
lexicographic order on (ordinal0, ordinal1); `operator<` ignores `vertexId` and is a strict
weak order: irreflexive, transitive, with transitive incomparability. -/
theorem InducedAlignment.sort_spec :
    (∀ alignment : InducedAlignment,
      alignment.sort.data.Perm alignment.data ∧
      List.Chain' (fun x y =>
        x.ordinal0 < y.ordinal0 ∨ (x.ordinal0 = y.ordinal0 ∧ x.ordinal1 ≤ y.ordinal1))
        alignment.sort.data) ∧
    (∀ (x y : InducedAlignmentData) (v w : Nat),
      InducedAlignmentData.less { x with vertexId := v } { y with vertexId := w } =
        x.less y) ∧
    (∀ x : InducedAlignmentData, x.less x = false) ∧
    (∀ x y z : InducedAlignmentData, x.less y = true → y.less z = true → x.less z = true) ∧
    (∀ x y z : InducedAlignmentData,
      x.less y = false → y.less x = false → y.less z = false → z.less y = false →
      x.less z = false ∧ z.less x = false) := by
  refine ⟨fun alignment => ⟨List.perm_insertionSort _ _, ?_⟩, fun x y v w => rfl, ?_, ?_, ?_⟩
  · haveI : IsTotal InducedAlignmentData InducedAlignmentData.notGreater :=
      ⟨fun x y => by
        rw [InducedAlignmentData.notGreater_iff, InducedAlignmentData.notGreater_iff]
        omega⟩
    haveI : IsTrans InducedAlignmentData InducedAlignmentData.notGreater :=
      ⟨fun x y z hxy hyz => by
        rw [InducedAlignmentData.notGreater_iff] at hxy hyz ⊢
        omega⟩
    have hsorted : (alignment.data.insertionSort InducedAlignmentData.notGreater).Pairwise
        InducedAlignmentData.notGreater :=
      List.sorted_insertionSort InducedAlignmentData.notGreater _
    have hchain := List.Pairwise.chain' hsorted
    unfold InducedAlignment.sort
    exact hchain.imp fun {x y} h => (InducedAlignmentData.notGreater_iff x y).1 h
  · intro x
    rw [← Bool.not_eq_true, InducedAlignmentData.less_iff]
    omega
  · intro x y z hxy hyz
    rw [InducedAlignmentData.less_iff] at hxy hyz ⊢
    omega
  · intro x y z hxy hyx hyz hzy
    rw [← Bool.not_eq_true, InducedAlignmentData.less_iff] at hxy hyx hyz hzy
    rw [← Bool.not_eq_true, ← Bool.not_eq_true, InducedAlignmentData.less_iff,
      InducedAlignmentData.less_iff]
    omega

/-- C24 at a concrete alignment: four entries, two of them with the same ordinals and
different vertices, are sorted by (ordinal0, ordinal1); (1, 5) is less than (2, 0), which
is less than (2, 3), hence (1, 5) is less than (2, 3). -/
theorem InducedAlignment.sort_spec_witness :
    (InducedAlignment.sort ⟨[⟨7, 2, 3⟩, ⟨8, 1, 5⟩, ⟨9, 2, 0⟩, ⟨6, 1, 5⟩]⟩).data =
      [⟨8, 1, 5⟩, ⟨6, 1, 5⟩, ⟨9, 2, 0⟩, ⟨7, 2, 3⟩] ∧
    InducedAlignmentData.less ⟨8, 1, 5⟩ ⟨7, 2, 3⟩ = true :=
  ⟨by decide,
   InducedAlignment.sort_spec.2.2.2.1 ⟨8, 1, 5⟩ ⟨9, 2, 0⟩ ⟨7, 2, 3⟩ (by decide) (by decide)⟩

/-! ## C26: the counts of the bubble summary -/

/-- The general form of the loop over the bubbles, from any start. -/
theorem bubbleCounts_foldl (bubbles : List (List Int)) (a b : Nat) (start : Nat × Nat) :
    bubbles.foldl
      (fun counts branchTable =>
        let branchId0 := branchTableAt branchTable a
        if branchId0 < 0 then counts
        else
          let branchId1 := branchTableAt branchTable b
          if branchId1 < 0 then counts
          else if branchId0 = branchId1 then (counts.1 + 1, counts.2)
          else (counts.1, counts.2 + 1))
      start =
    (start.1 + (bubbles.filter fun branchTable =>
        decide (0 ≤ branchTableAt branchTable a ∧ 0 ≤ branchTableAt branchTable b ∧
          branchTableAt branchTable a = branchTableAt branchTable b)).length,
     start.2 + (bubbles.filter fun branchTable =>
        decide (0 ≤ branchTableAt branchTable a ∧ 0 ≤ branchTableAt branchTable b ∧
          branchTableAt branchTable a ≠ branchTableAt branchTable b)).length) := by
  induction bubbles generalizing start with
  | nil => simp
  | cons branchTable rest ih =>
    rw [List.foldl_cons, ih]
    dsimp only
    by_cases h0 : branchTableAt branchTable a < 0
    · have h1 : ¬ (0 ≤ branchTableAt branchTable a ∧ 0 ≤ branchTableAt branchTable b ∧
          branchTableAt branchTable a = branchTableAt branchTable b) := by omega
      have h2 : ¬ (0 ≤ branchTableAt branchTable a ∧ 0 ≤ branchTableAt branchTable b ∧
          branchTableAt branchTable a ≠ branchTableAt branchTable b) := by omega
      rw [if_pos h0, List.filter_cons_of_neg (by simpa using h1),
        List.filter_cons_of_neg (by simpa using h2)]
    · rw [if_neg h0]
      by_cases hb : branchTableAt branchTable b < 0
      · have h1 : ¬ (0 ≤ branchTableAt branchTable a ∧ 0 ≤ branchTableAt branchTable b ∧
            branchTableAt branchTable a = branchTableAt branchTable b) := by omega
        have h2 : ¬ (0 ≤ branchTableAt branchTable a ∧ 0 ≤ branchTableAt branchTable b ∧
            branchTableAt branchTable a ≠ branchTableAt branchTable b) := by omega
        rw [if_pos hb, List.filter_cons_of_neg (by simpa using h1),
          List.filter_cons_of_neg (by simpa using h2)]
      · rw [if_neg hb]
        by_cases heq : branchTableAt branchTable a = branchTableAt branchTable b
        · have h1 : 0 ≤ branchTableAt branchTable a ∧ 0 ≤ branchTableAt branchTable b ∧
              branchTableAt branchTable a = branchTableAt branchTable b := by omega
          have h2 : ¬ (0 ≤ branchTableAt branchTable a ∧ 0 ≤ branchTableAt branchTable b ∧
              branchTableAt branchTable a ≠ branchTableAt branchTable b) := by omega
          rw [if_pos heq, List.filter_cons_of_pos (by simpa using h1),
            List.filter_cons_of_neg (by simpa using h2), List.length_cons]
          ext
          · simp only
            omega
          · simp only
        · have h1 : ¬ (0 ≤ branchTableAt branchTable a ∧ 0 ≤ branchTableAt branchTable b ∧
              branchTableAt branchTable a = branchTableAt branchTable b) := by omega
          have h2 : 0 ≤ branchTableAt branchTable a ∧ 0 ≤ branchTableAt branchTable b ∧
              branchTableAt branchTable a ≠ branchTableAt branchTable b := by omega
          rw [if_neg heq, List.filter_cons_of_neg (by simpa using h1),
            List.filter_cons_of_pos (by simpa using h2), List.length_cons]
          ext
          · simp only
          · simp only
            omega

/-- The bubbles in which both sequences are present split into those with equal and those
with different branches. -/
theorem length_filter_both_present (bubbles : List (List Int)) (a b : Nat) :
    (bubbles.filter fun branchTable =>
        decide (0 ≤ branchTableAt branchTable a ∧ 0 ≤ branchTableAt branchTable b ∧
          branchTableAt branchTable a = branchTableAt branchTable b)).length +
      (bubbles.filter fun branchTable =>
        decide (0 ≤ branchTableAt branchTable a ∧ 0 ≤ branchTableAt branchTable b ∧
          branchTableAt branchTable a ≠ branchTableAt branchTable b)).length =
    (bubbles.filter fun branchTable =>
        decide (0 ≤ branchTableAt branchTable a ∧ 0 ≤ branchTableAt branchTable b)).length := by
  induction bubbles with
  | nil => rfl
  | cons branchTable rest ih =>
    by_cases hboth : 0 ≤ branchTableAt branchTable a ∧ 0 ≤ branchTableAt branchTable b
    · by_cases heq : branchTableAt branchTable a = branchTableAt branchTable b
      · have h1 : 0 ≤ branchTableAt branchTable a ∧ 0 ≤ branchTableAt branchTable b ∧
            branchTableAt branchTable a = branchTableAt branchTable b := ⟨hboth.1, hboth.2, heq⟩
        have h2 : ¬ (0 ≤ branchTableAt branchTable a ∧ 0 ≤ branchTableAt branchTable b ∧
            branchTableAt branchTable a ≠ branchTableAt branchTable b) := fun h => h.2.2 heq
        rw [List.filter_cons_of_pos (by simpa using h1),
          List.filter_cons_of_neg (by simpa using h2),
          List.filter_cons_of_pos (by simpa using hboth)]
        simp only [List.length_cons]
        omega
      · have h1 : ¬ (0 ≤ branchTableAt branchTable a ∧ 0 ≤ branchTableAt branchTable b ∧
            branchTableAt branchTable a = branchTableAt branchTable b) := fun h => heq h.2.2
        have h2 : 0 ≤ branchTableAt branchTable a ∧ 0 ≤ branchTableAt branchTable b ∧
            branchTableAt branchTable a ≠ branchTableAt branchTable b := ⟨hboth.1, hboth.2, heq⟩
        rw [List.filter_cons_of_neg (by simpa using h1),
          List.filter_cons_of_pos (by simpa using h2),
          List.filter_cons_of_pos (by simpa using hboth)]
        simp only [List.length_cons]
        omega
    · have h1 : ¬ (0 ≤ branchTableAt branchTable a ∧ 0 ≤ branchTableAt branchTable b ∧
          branchTableAt branchTable a = branchTableAt branchTable b) :=
        fun h => hboth ⟨h.1, h.2.1⟩
      have h2 : ¬ (0 ≤ branchTableAt branchTable a ∧ 0 ≤ branchTableAt branchTable b ∧
          branchTableAt branchTable a ≠ branchTableAt branchTable b) :=
        fun h => hboth ⟨h.1, h.2.1⟩
      rw [List.filter_cons_of_neg (by simpa using h1),
        List.filter_cons_of_neg (by simpa using h2),
        List.filter_cons_of_neg (by simpa using hboth)]
      exact ih

/-- C26. The counts of `BubbleSummary.csv` in `analyzeAlignments3`: for every list of
bubbles and every aligned sequence s (a sequence below `orientedReadIds.size() - 1`), the
summary has a line for s, on which `sameCount` is the number of bubbles whose branch table
is non-negative for both the query and s with equal values, `differentCount` the number
where both are non-negative and differ, and `totalCount = sameCount + differentCount` is
the number of bubbles in which both the query and s are present. -/
theorem bubbleSummary_counts (bubbles : List (List Int))
    (orientedReadIds : List OrientedReadId) (sequenceId0 s : Nat)
    (hs : s < orientedReadIds.length - 1) :
    ∃ line, (bubbleSummary bubbles orientedReadIds sequenceId0)[s]? = some line ∧
      line.sequenceId1 = s ∧
      line.sameCount = (bubbles.filter fun branchTable =>
        decide (0 ≤ branchTableAt branchTable sequenceId0 ∧ 0 ≤ branchTableAt branchTable s ∧
          branchTableAt branchTable sequenceId0 = branchTableAt branchTable s)).length ∧
      line.differentCount = (bubbles.filter fun branchTable =>
        decide (0 ≤ branchTableAt branchTable sequenceId0 ∧ 0 ≤ branchTableAt branchTable s ∧
          branchTableAt branchTable sequenceId0 ≠ branchTableAt branchTable s)).length ∧
      line.totalCount = line.sameCount + line.differentCount ∧
      line.totalCount = (bubbles.filter fun branchTable =>
        decide (0 ≤ branchTableAt branchTable sequenceId0 ∧
          0 ≤ branchTableAt branchTable s)).length := by
  have hcounts : bubbleCounts bubbles sequenceId0 s =
      ((bubbles.filter fun branchTable =>
        decide (0 ≤ branchTableAt branchTable sequenceId0 ∧ 0 ≤ branchTableAt branchTable s ∧
          branchTableAt branchTable sequenceId0 = branchTableAt branchTable s)).length,
       (bubbles.filter fun branchTable =>
        decide (0 ≤ branchTableAt branchTable sequenceId0 ∧ 0 ≤ branchTableAt branchTable s ∧
          branchTableAt branchTable sequenceId0 ≠ branchTableAt branchTable s)).length) := by
    unfold bubbleCounts
    rw [bubbleCounts_foldl]
    simp
  refine ⟨⟨s, orientedReadIds.getD s ⟨0⟩, (bubbleCounts bubbles sequenceId0 s).1,
    (bubbleCounts bubbles sequenceId0 s).2,
    (bubbleCounts bubbles sequenceId0 s).1 + (bubbleCounts bubbles sequenceId0 s).2⟩,
    ?_, rfl, ?_, ?_, rfl, ?_⟩
  · unfold bubbleSummary
    rw [List.getElem?_map, List.getElem?_range hs]
    rfl
  · dsimp only
    rw [hcounts]
  · dsimp only
    rw [hcounts]
  · dsimp only
    rw [hcounts]
    exact length_filter_both_present bubbles sequenceId0 s

/-- C26 at concrete bubbles: with `exampleBubbles` and the query as sequence 3, the line
of sequence 1 has one bubble with different branches and one with the same branch. -/
theorem bubbleSummary_counts_witness :
    ∃ line, (bubbleSummary exampleBubbles [⟨2⟩, ⟨4⟩, ⟨6⟩, ⟨0⟩] 3)[1]? = some line ∧
      line.sequenceId1 = 1 ∧ line.sameCount = 1 ∧ line.differentCount = 1 ∧
      line.totalCount = line.sameCount + line.differentCount ∧ line.totalCount = 2 :=
  (bubbleSummary_counts exampleBubbles [⟨2⟩, ⟨4⟩, ⟨6⟩, ⟨0⟩] 3 1 (by decide)).imp
    fun _ h => ⟨h.1, h.2.1, h.2.2.1.trans (by decide), h.2.2.2.1.trans (by decide),
      h.2.2.2.2.1, h.2.2.2.2.2.trans (by decide)⟩

/-! ## C25, C28: coverage and range coverage -/

theorem strandIndex_lt_two (orientedReadId0 orientedReadId1 : OrientedReadId) :
    strandIndex orientedReadId0 orientedReadId1 < 2 := by
  unfold strandIndex
  split
  · decide
  · decide

theorem length_incrementCoverage (coverage : List (Nat × Nat)) (ordinal0 index : Nat) :
    (incrementCoverage coverage ordinal0 index).length = coverage.length := by
  unfold incrementCoverage
  simp

/-- One increment: the counter of the ordinal and of the strand class grows by one modulo
2^32, the others stay. -/
theorem incrementCoverage_getD (coverage : List (Nat × Nat)) (ordinal0 index j t : Nat)
    (hordinal : ordinal0 < coverage.length) (hindex : index < 2) (ht : t < 2) :
    coverageOfStrand ((incrementCoverage coverage ordinal0 index).getD j (0, 0)) t =
      if ordinal0 = j ∧ index = t then
        (coverageOfStrand (coverage.getD j (0, 0)) t + 1) % 2 ^ 32
      else coverageOfStrand (coverage.getD j (0, 0)) t := by
  unfold incrementCoverage
  dsimp only
  rw [getD_set_eq]
  by_cases hj : ordinal0 = j
  · subst hj
    rw [if_pos ⟨rfl, hordinal⟩]
    unfold coverageOfStrand
    have hi : index = 0 ∨ index = 1 := by omega
    have ht' : t = 0 ∨ t = 1 := by omega
    rcases hi with hi | hi
    · rcases ht' with ht' | ht'
      · subst hi
        subst ht'
        simp
      · subst hi
        subst ht'
        simp
    · rcases ht' with ht' | ht'
      · subst hi
        subst ht'
        simp
      · subst hi
        subst ht'
        simp
  · rw [if_neg (fun h => hj h.1), if_neg (fun h => hj h.1)]

/-- A run of increments for one strand class: every counter grows, modulo 2^32, by the
number of times its ordinal occurs in the run. -/
theorem foldl_incrementCoverage (index : Nat) (hindex : index < 2) (run : List Nat)
    (coverage : List (Nat × Nat)) (hrun : ∀ o ∈ run, o < coverage.length) :
    (run.foldl (fun c o => incrementCoverage c o index) coverage).length = coverage.length ∧
    ∀ j t, t < 2 → coverageOfStrand (coverage.getD j (0, 0)) t < 2 ^ 32 →
      coverageOfStrand
        ((run.foldl (fun c o => incrementCoverage c o index) coverage).getD j (0, 0)) t =
      (coverageOfStrand (coverage.getD j (0, 0)) t +
        if index = t then run.count j else 0) % 2 ^ 32 := by
  induction run generalizing coverage with
  | nil =>
    refine ⟨rfl, fun j t _ hlt => ?_⟩
    simp only [List.foldl_nil, List.count_nil, ite_self, Nat.add_zero]
    exact (Nat.mod_eq_of_lt hlt).symm
  | cons o rest ih =>
    have ho : o < coverage.length := hrun o (List.mem_cons_self _ _)
    have hrest : ∀ x ∈ rest, x < (incrementCoverage coverage o index).length := by
      intro x hx
      rw [length_incrementCoverage]
      exact hrun x (List.mem_cons_of_mem _ hx)
    obtain ⟨hlen, hentries⟩ := ih (incrementCoverage coverage o index) hrest
    rw [List.foldl_cons]
    refine ⟨by rw [hlen, length_incrementCoverage], fun j t ht hlt => ?_⟩
    have hstep := incrementCoverage_getD coverage o index j t ho hindex ht
    have hlt' : coverageOfStrand ((incrementCoverage coverage o index).getD j (0, 0)) t <
        2 ^ 32 := by
      rw [hstep]
      split
      · exact Nat.mod_lt _ (by decide)
      · exact hlt
    rw [hentries j t ht hlt', hstep, List.count_cons]
    by_cases hit : index = t
    · by_cases hoj : o = j
      · subst hoj
        simp only [hit, and_self, if_true, beq_self_eq_true]
        omega
      · have hb : (o == j) = false := by simpa using hoj
        simp only [hit, hoj, false_and, if_false, if_true, hb, Bool.false_eq_true,
          Nat.add_zero]
    · simp only [hit, and_false, if_false, Nat.add_zero]

/-- The coverage loop of one alignment is the run of increments at its first ordinals,
unless its assertion fires. -/
theorem coverageOrdinalsLoop_eq (markerCount0 index : Nat) (ordinals : List (Nat × Nat))
    (coverage : List (Nat × Nat)) :
    coverageOrdinalsLoop markerCount0 index ordinals coverage =
      if ∀ o ∈ ordinals, o.1 < markerCount0 then
        .ok ((ordinals.map Prod.fst).foldl (fun c o => incrementCoverage c o index) coverage)
      else .error .ordinalOutOfRange := by
  induction ordinals generalizing coverage with
  | nil => simp [coverageOrdinalsLoop]
  | cons o rest ih =>
    unfold coverageOrdinalsLoop
    by_cases ho : o.1 < markerCount0
    · rw [if_pos ho, ih]
      by_cases hall : ∀ x ∈ rest, x.1 < markerCount0
      · rw [if_pos hall, if_pos]
        · rfl
        · intro x hx
          rcases List.mem_cons.1 hx with h | h
          · rw [h]
            exact ho
          · exact hall x h
      · rw [if_neg hall, if_neg]
        intro hcon
        exact hall fun x hx => hcon x (List.mem_cons_of_mem _ hx)
    · rw [if_neg ho, if_neg]
      intro hcon
      exact ho (hcon o (List.mem_cons_self _ _))

theorem count_map_fst (ordinals : List (Nat × Nat)) (j : Nat) :
    (ordinals.map Prod.fst).count j = (ordinals.filter fun pair => pair.1 = j).length := by
  induction ordinals with
  | nil => rfl
  | cons o rest ih =>
    rw [List.map_cons, List.count_cons, ih]
    by_cases h : o.1 = j
    · rw [List.filter_cons_of_pos (by simpa using h), List.length_cons]
      simp [h]
    · rw [List.filter_cons_of_neg (by simpa using h)]
      simp [h]

theorem count_range' (first count j : Nat) :
    (List.range' first count).count j = if first ≤ j ∧ j < first + count then 1 else 0 := by
  by_cases h : first ≤ j ∧ j < first + count
  · rw [if_pos h]
    exact List.count_eq_one_of_mem (List.nodup_range' _ _) (List.mem_range'_1.2 h)
  · rw [if_neg h]
    exact List.count_eq_zero_of_not_mem fun hmem => h (List.mem_range'_1.1 hmem)

theorem firstOrdinal0_eq (alignment : Alignment) (hne : alignment.ordinals ≠ []) :
    firstOrdinal0 alignment = (alignment.ordinals.head hne).1 := by
  unfold firstOrdinal0
  rw [List.head?_eq_head hne]
  rfl

theorem lastOrdinal0_eq (alignment : Alignment) (hne : alignment.ordinals ≠ []) :
    lastOrdinal0 alignment = (alignment.ordinals.getLast hne).1 := by
  unfold lastOrdinal0
  rw [List.getLast?_eq_getLast _ hne]
  rfl

theorem coverageCount_cons (orientedReadId0 : OrientedReadId) (p : StoredAlignmentInformation)
    (rest : List StoredAlignmentInformation) (s o : Nat) :
    coverageCount orientedReadId0 (p :: rest) s o =
      (if strandIndex orientedReadId0 p.orientedReadId = s then
        (p.alignment.ordinals.filter fun pair => pair.1 = o).length else 0) +
      coverageCount orientedReadId0 rest s o := by
  unfold coverageCount
  by_cases h : strandIndex orientedReadId0 p.orientedReadId = s
  · rw [List.filter_cons_of_pos (by simpa using h), if_pos h, List.map_cons, List.sum_cons]
  · rw [List.filter_cons_of_neg (by simpa using h), if_neg h, Nat.zero_add]

theorem rangeCoverageCount_cons (orientedReadId0 : OrientedReadId)
    (p : StoredAlignmentInformation) (rest : List StoredAlignmentInformation) (s o : Nat) :
    rangeCoverageCount orientedReadId0 (p :: rest) s o =
      (if strandIndex orientedReadId0 p.orientedReadId = s ∧
          firstOrdinal0 p.alignment ≤ o ∧ o ≤ lastOrdinal0 p.alignment then 1 else 0) +
      rangeCoverageCount orientedReadId0 rest s o := by
  unfold rangeCoverageCount
  by_cases h : strandIndex orientedReadId0 p.orientedReadId = s ∧
      firstOrdinal0 p.alignment ≤ o ∧ o ≤ lastOrdinal0 p.alignment
  · rw [List.filter_cons_of_pos (by simpa using h), if_pos h, List.length_cons]
    omega
  · rw [List.filter_cons_of_neg (by simpa using h), if_neg h, Nat.zero_add]

/-- The loop over the alignments, from any start with counters below 2^32: it returns when
no first ordinal reaches `markerCount0`, and every counter has grown, modulo 2^32, by the
count of its ordinal and strand class. -/
theorem coverageLoop_spec (orientedReadId0 : OrientedReadId) (markerCount0 : Nat)
    (alignments : List StoredAlignmentInformation)
    (state : List (Nat × Nat) × List (Nat × Nat))
    (hne : ∀ p ∈ alignments, p.alignment.ordinals ≠ [])
    (hrange : ∀ p ∈ alignments, ∀ o ∈ p.alignment.ordinals, o.1 < markerCount0)
    (hlength1 : state.1.length = markerCount0) (hlength2 : state.2.length = markerCount0)
    (hstart : ∀ j t, t < 2 →
      coverageOfStrand (state.1.getD j (0, 0)) t < 2 ^ 32 ∧
      coverageOfStrand (state.2.getD j (0, 0)) t < 2 ^ 32) :
    ∃ result, coverageLoop orientedReadId0 markerCount0 alignments state = .ok result ∧
      result.1.length = markerCount0 ∧ result.2.length = markerCount0 ∧
      ∀ j t, t < 2 →
        coverageOfStrand (result.1.getD j (0, 0)) t =
          (coverageOfStrand (state.1.getD j (0, 0)) t +
            coverageCount orientedReadId0 alignments t j) % 2 ^ 32 ∧
        coverageOfStrand (result.2.getD j (0, 0)) t =
          (coverageOfStrand (state.2.getD j (0, 0)) t +
            rangeCoverageCount orientedReadId0 alignments t j) % 2 ^ 32 := by
  induction alignments generalizing state with
  | nil =>
    refine ⟨state, rfl, hlength1, hlength2, fun j t ht => ?_⟩
    have h := hstart j t ht
    simp only [coverageCount, rangeCoverageCount, List.filter_nil, List.map_nil, List.sum_nil,
      List.length_nil, Nat.add_zero]
    exact ⟨(Nat.mod_eq_of_lt h.1).symm, (Nat.mod_eq_of_lt h.2).symm⟩
  | cons p rest ih =>
    have hp : ∀ o ∈ p.alignment.ordinals, o.1 < markerCount0 :=
      hrange p (List.mem_cons_self _ _)
    have hpne : p.alignment.ordinals ≠ [] := hne p (List.mem_cons_self _ _)
    have hindex := strandIndex_lt_two orientedReadId0 p.orientedReadId
    have hlast : lastOrdinal0 p.alignment < markerCount0 := by
      rw [lastOrdinal0_eq _ hpne]
      exact hp _ (List.getLast_mem hpne)
    obtain ⟨hlen1, hrun1⟩ := foldl_incrementCoverage
      (strandIndex orientedReadId0 p.orientedReadId) hindex
      (p.alignment.ordinals.map Prod.fst) state.1 (by
        intro o ho
        rw [List.mem_map] at ho
        obtain ⟨pair, hpair, rfl⟩ := ho
        rw [hlength1]
        exact hp pair hpair)
    obtain ⟨hlen2, hrun2⟩ := foldl_incrementCoverage
      (strandIndex orientedReadId0 p.orientedReadId) hindex
      (List.range' (firstOrdinal0 p.alignment)
        (lastOrdinal0 p.alignment + 1 - firstOrdinal0 p.alignment)) state.2 (by
        intro o ho
        rw [List.mem_range'_1] at ho
        rw [hlength2]
        omega)
    obtain ⟨result, hret, hr1, hr2, hentries⟩ := ih
      ((p.alignment.ordinals.map Prod.fst).foldl
          (fun c o => incrementCoverage c o (strandIndex orientedReadId0 p.orientedReadId))
          state.1,
        rangeCoverageLoop (strandIndex orientedReadId0 p.orientedReadId) p.alignment state.2)
      (fun q hq => hne q (List.mem_cons_of_mem _ hq))
      (fun q hq => hrange q (List.mem_cons_of_mem _ hq))
      (by rw [hlen1, hlength1])
      (by
        unfold rangeCoverageLoop
        dsimp only
        rw [hlen2, hlength2])
      (by
        intro j t ht
        have h := hstart j t ht
        constructor
        · dsimp only
          rw [hrun1 j t ht h.1]
          exact Nat.mod_lt _ (by decide)
        · unfold rangeCoverageLoop
          dsimp only
          rw [hrun2 j t ht h.2]
          exact Nat.mod_lt _ (by decide))
    refine ⟨result, ?_, hr1, hr2, fun j t ht => ?_⟩
    · unfold coverageLoop
      dsimp only
      rw [coverageOrdinalsLoop_eq, if_pos hp]
      exact hret
    · have h := hstart j t ht
      obtain ⟨he1, he2⟩ := hentries j t ht
      constructor
      · rw [he1]
        dsimp only
        rw [hrun1 j t ht h.1, coverageCount_cons, count_map_fst]
        omega
      · rw [he2]
        unfold rangeCoverageLoop
        dsimp only
        rw [hrun2 j t ht h.2, rangeCoverageCount_cons, count_range']
        by_cases hit : strandIndex orientedReadId0 p.orientedReadId = t
        · by_cases hw : firstOrdinal0 p.alignment ≤ j ∧ j ≤ lastOrdinal0 p.alignment
          · rw [if_pos hit, if_pos (by omega), if_pos ⟨hit, hw⟩]
            omega
          · rw [if_pos hit, if_neg (by omega), if_neg (fun hcon => hw hcon.2)]
            omega
        · rw [if_neg hit, if_neg (fun hcon => hit hcon.1)]
          omega

/-- The two arrays that `analyzeAlignments1` computes: the computation returns when all
alignments are non-empty with first ordinals below `markerCount0`, and every counter is
the count of its ordinal and strand class modulo 2^32. -/
theorem computeCoverage_eq (orientedReadId0 : OrientedReadId) (markerCount0 : Nat)
    (alignments : List StoredAlignmentInformation)
    (hne : ∀ p ∈ alignments, p.alignment.ordinals ≠ [])
    (hrange : ∀ p ∈ alignments, ∀ o ∈ p.alignment.ordinals, o.1 < markerCount0) :
    ∃ coverage rangeCoverage,
      computeCoverage orientedReadId0 markerCount0 alignments = .ok (coverage, rangeCoverage) ∧
      coverage.length = markerCount0 ∧ rangeCoverage.length = markerCount0 ∧
      ∀ o s, s < 2 →
        coverageOfStrand (coverage.getD o (0, 0)) s =
          coverageCount orientedReadId0 alignments s o % 2 ^ 32 ∧
        coverageOfStrand (rangeCoverage.getD o (0, 0)) s =
          rangeCoverageCount orientedReadId0 alignments s o % 2 ^ 32 := by
  have hzero : ∀ j t, coverageOfStrand
      ((List.replicate markerCount0 ((0 : Nat), (0 : Nat))).getD j (0, 0)) t = 0 := by
    intro j t
    have hentry : (List.replicate markerCount0 ((0 : Nat), (0 : Nat))).getD j (0, 0) =
        (0, 0) := by
      simp only [List.getD_eq_getElem?_getD, List.getElem?_replicate]
      split
      · rfl
      · rfl
    rw [hentry]
    unfold coverageOfStrand
    split
    · rfl
    · rfl
  obtain ⟨result, hret, hr1, hr2, hentries⟩ := coverageLoop_spec orientedReadId0 markerCount0
    alignments (List.replicate markerCount0 (0, 0), List.replicate markerCount0 (0, 0))
    hne hrange (by simp) (by simp) (by
      intro j t _
      dsimp only
      rw [hzero j t]
      exact ⟨by decide, by decide⟩)
  refine ⟨result.1, result.2, hret, hr1, hr2, fun o s hs => ?_⟩
  obtain ⟨h1, h2⟩ := hentries o s hs
  dsimp only at h1 h2
  rw [hzero o s, Nat.zero_add] at h1 h2
  exact ⟨h1, h2⟩

/-- C25. Per-ordinal coverage in `analyzeAlignments1`, for non-empty alignments whose
first ordinals are below `markerCount0` (the assertion of the loop): the two arrays are
computed, and for every query ordinal o and strand class s (0 when the partner is on the
strand of the query, 1 otherwise), `coverage[o][s]` is the number of pairs with
`ordinal0 = o` in the alignments of class s, and `rangeCoverage[o][s]` is the number of
alignments of class s whose first pair has `ordinal0 <= o` and whose last pair has
`ordinal0 >= o`. The counters are `uint32_t`: they hold these numbers modulo 2^32, hence
the numbers themselves whenever these are below 2^32. -/
theorem computeCoverage_counts (orientedReadId0 : OrientedReadId) (markerCount0 : Nat)
    (alignments : List StoredAlignmentInformation)
    (hne : ∀ p ∈ alignments, p.alignment.ordinals ≠ [])
    (hrange : ∀ p ∈ alignments, ∀ o ∈ p.alignment.ordinals, o.1 < markerCount0) :
    ∃ coverage rangeCoverage,
      computeCoverage orientedReadId0 markerCount0 alignments = .ok (coverage, rangeCoverage) ∧
      ∀ o s, s < 2 →
        coverageOfStrand (coverage.getD o (0, 0)) s =
          coverageCount orientedReadId0 alignments s o % 2 ^ 32 ∧
        coverageOfStrand (rangeCoverage.getD o (0, 0)) s =
          rangeCoverageCount orientedReadId0 alignments s o % 2 ^ 32 ∧
        (coverageCount orientedReadId0 alignments s o < 2 ^ 32 →
          coverageOfStrand (coverage.getD o (0, 0)) s =
            coverageCount orientedReadId0 alignments s o) ∧
        (alignments.length < 2 ^ 32 →
          coverageOfStrand (rangeCoverage.getD o (0, 0)) s =
            rangeCoverageCount orientedReadId0 alignments s o) := by
  obtain ⟨coverage, rangeCoverage, hret, -, -, hentries⟩ :=
    computeCoverage_eq orientedReadId0 markerCount0 alignments hne hrange
  refine ⟨coverage, rangeCoverage, hret, fun o s hs => ?_⟩
  obtain ⟨h1, h2⟩ := hentries o s hs
  refine ⟨h1, h2, fun hlt => ?_, fun hlt => ?_⟩
  · rw [h1, Nat.mod_eq_of_lt hlt]
  · have hle : rangeCoverageCount orientedReadId0 alignments s o ≤ alignments.length := by
      unfold rangeCoverageCount
      exact List.length_filter_le _ _
    rw [h2, Nat.mod_eq_of_lt (by omega)]

/-- C25 at concrete alignments: for `coverageAlignments` and a query on strand 0 with 6
markers, ordinal 2 has two pairs in the alignments of the same strand and one in that of
the opposite strand; ordinal 1 has one pair in the alignments of the same strand, while two
of them range over it. -/
theorem computeCoverage_counts_witness :
    ∃ coverage rangeCoverage,
      computeCoverage ⟨0⟩ 6 coverageAlignments = .ok (coverage, rangeCoverage) ∧
      coverageOfStrand (coverage.getD 2 (0, 0)) 0 = 2 ∧
      coverageOfStrand (coverage.getD 2 (0, 0)) 1 = 1 ∧
      coverageOfStrand (coverage.getD 1 (0, 0)) 0 = 1 ∧
      coverageOfStrand (rangeCoverage.getD 1 (0, 0)) 0 = 2 :=
  (computeCoverage_counts ⟨0⟩ 6 coverageAlignments (by decide) (by decide)).imp
    fun _ h => h.imp fun _ h =>
      ⟨h.1, (h.2 2 0 (by decide)).1.trans (by decide),
        (h.2 2 1 (by decide)).1.trans (by decide),
        (h.2 1 0 (by decide)).1.trans (by decide),
        (h.2 1 0 (by decide)).2.1.trans (by decide)⟩

/-- In a strictly increasing alignment the first ordinal of every pair lies between those
of the first and of the last pair. -/
theorem fst_bounds_of_strictlyIncreasing (ordinals : List (Nat × Nat))
    (hne : ordinals ≠ []) (hincreasing : StrictlyIncreasing ordinals) :
    ∀ o ∈ ordinals, (ordinals.head hne).1 ≤ o.1 ∧ o.1 ≤ (ordinals.getLast hne).1 := by
  rw [strictlyIncreasing_iff_chain'] at hincreasing
  have htrans : IsTrans (Nat × Nat)
      (fun previous current => previous.1 < current.1 ∧ previous.2 < current.2) :=
    ⟨fun a b c hab hbc => ⟨Nat.lt_trans hab.1 hbc.1, Nat.lt_trans hab.2 hbc.2⟩⟩
  have hp := (List.chain'_iff_pairwise).1 hincreasing
  intro o ho
  constructor
  · cases ordinals with
    | nil => exact absurd rfl hne
    | cons first rest =>
      rw [List.pairwise_cons] at hp
      rcases List.mem_cons.1 ho with h | h
      · subst h
        exact Nat.le_refl _
      · exact Nat.le_of_lt (hp.1 o h).1
  · rw [← List.dropLast_append_getLast hne, List.pairwise_append] at hp
    rw [← List.dropLast_append_getLast hne, List.mem_append] at ho
    rcases ho with h | h
    · exact Nat.le_of_lt (hp.2.2 o h _ (List.mem_singleton_self _)).1
    · rw [List.mem_singleton] at h
      rw [h]

/-- A strictly increasing alignment has at most one pair with a given first ordinal. -/
theorem length_filter_fst_le_one (ordinals : List (Nat × Nat))
    (hincreasing : StrictlyIncreasing ordinals) (j : Nat) :
    (ordinals.filter fun pair => pair.1 = j).length ≤ 1 := by
  rw [strictlyIncreasing_iff_chain'] at hincreasing
  have htrans : IsTrans (Nat × Nat)
      (fun previous current => previous.1 < current.1 ∧ previous.2 < current.2) :=
    ⟨fun a b c hab hbc => ⟨Nat.lt_trans hab.1 hbc.1, Nat.lt_trans hab.2 hbc.2⟩⟩
  have hp := (List.chain'_iff_pairwise).1 hincreasing
  clear hincreasing
  induction ordinals with
  | nil => simp
  | cons o rest ih =>
    rw [List.pairwise_cons] at hp
    by_cases h : o.1 = j
    · have hnone : (rest.filter fun pair => decide (pair.1 = j)) = [] := by
        rw [List.filter_eq_nil_iff]
        intro x hx
        have := (hp.1 x hx).1
        simp only [decide_eq_true_eq]
        omega
      rw [List.filter_cons_of_pos (by simpa using h), hnone]
      simp
    · rw [List.filter_cons_of_neg (by simpa using h)]
      exact ih hp.2

/-- For a non-empty strictly increasing alignment, the pairs with first ordinal `j` are at
most one, and none unless the alignment ranges over `j`. -/
theorem length_filter_fst_le_range (alignment : Alignment) (hne : alignment.ordinals ≠ [])
    (hincreasing : StrictlyIncreasing alignment.ordinals) (j : Nat) :
    (alignment.ordinals.filter fun pair => pair.1 = j).length ≤
      if firstOrdinal0 alignment ≤ j ∧ j ≤ lastOrdinal0 alignment then 1 else 0 := by
  by_cases hw : firstOrdinal0 alignment ≤ j ∧ j ≤ lastOrdinal0 alignment
  · rw [if_pos hw]
    exact length_filter_fst_le_one _ hincreasing j
  · rw [if_neg hw]
    have hnone : (alignment.ordinals.filter fun pair => decide (pair.1 = j)) = [] := by
      rw [List.filter_eq_nil_iff]
      intro x hx
      have hb := fst_bounds_of_strictlyIncreasing _ hne hincreasing x hx
      rw [firstOrdinal0_eq _ hne, lastOrdinal0_eq _ hne] at hw
      simp only [decide_eq_true_eq]
      intro hxj
      exact hw (by rw [← hxj]; exact hb)
    rw [hnone]
    simp

/-- For non-empty strictly increasing alignments the number of pairs at an ordinal is at
most the number of alignments that range over it, which is at most the number of
alignments. -/
theorem coverageCount_le_rangeCoverageCount (orientedReadId0 : OrientedReadId)
    (alignments : List StoredAlignmentInformation)
    (hgood : ∀ p ∈ alignments,
      p.alignment.ordinals ≠ [] ∧ StrictlyIncreasing p.alignment.ordinals) (s o : Nat) :
    coverageCount orientedReadId0 alignments s o ≤
      rangeCoverageCount orientedReadId0 alignments s o ∧
    rangeCoverageCount orientedReadId0 alignments s o ≤ alignments.length := by
  refine ⟨?_, by unfold rangeCoverageCount; exact List.length_filter_le _ _⟩
  induction alignments with
  | nil => simp [coverageCount, rangeCoverageCount]
  | cons p rest ih =>
    have hrest := ih fun q hq => hgood q (List.mem_cons_of_mem _ hq)
    obtain ⟨hne, hincreasing⟩ := hgood p (List.mem_cons_self _ _)
    have hp := length_filter_fst_le_range p.alignment hne hincreasing o
    rw [coverageCount_cons, rangeCoverageCount_cons]
    by_cases hs : strandIndex orientedReadId0 p.orientedReadId = s
    · by_cases hw : firstOrdinal0 p.alignment ≤ o ∧ o ≤ lastOrdinal0 p.alignment
      · rw [if_pos hw] at hp
        rw [if_pos hs, if_pos ⟨hs, hw⟩]
        omega
      · rw [if_neg hw] at hp
        rw [if_pos hs, if_neg (fun hcon => hw hcon.2)]
        omega
    · rw [if_neg hs, if_neg (fun hcon => hs hcon.1)]
      omega

theorem length_incrementEntry (matrix : List (List Nat)) (i j : Nat) :
    (incrementEntry matrix i j).length = matrix.length := by
  unfold incrementEntry setEntry
  simp

/-- One step of the histogram loop at an ordinal whose coverage is at most its range
coverage, per strand class: no assertion fires, and the histogram then has at least
`rc + 1` rows. -/
theorem histogramStep_ok (state : List (List Nat) × List (List Nat))
    (coverage rangeCoverage : Nat × Nat) (hsame : coverage.1 ≤ rangeCoverage.1)
    (hopposite : coverage.2 ≤ rangeCoverage.2) :
    ∃ state', histogramStep state coverage rangeCoverage = .ok state' ∧
      rangeCoverage.1 + rangeCoverage.2 + 1 ≤ state'.1.length ∧
      state.1.length ≤ state'.1.length := by
  unfold histogramStep
  dsimp only
  rw [if_neg (by omega), if_neg (by omega)]
  refine ⟨_, rfl, ?_, ?_⟩
  · dsimp only
    simp only [length_incrementEntry]
    split
    · rw [List.length_append, List.length_replicate]
      omega
    · omega
  · dsimp only
    simp only [length_incrementEntry]
    split
    · rw [List.length_append, List.length_replicate]
      omega
    · omega

/-- The histogram loop returns when, at every ordinal, coverage is at most range coverage
per strand class. -/
theorem histogramLoop_ok (ordinals : List ((Nat × Nat) × (Nat × Nat)))
    (state : List (List Nat) × List (List Nat))
    (hle : ∀ x ∈ ordinals, x.1.1 ≤ x.2.1 ∧ x.1.2 ≤ x.2.2) :
    ∃ result, histogramLoop ordinals state = .ok result := by
  induction ordinals generalizing state with
  | nil => exact ⟨state, rfl⟩
  | cons x rest ih =>
    obtain ⟨hx1, hx2⟩ := hle x (List.mem_cons_self _ _)
    obtain ⟨state', hstep, -, -⟩ := histogramStep_ok state x.1 x.2 hx1 hx2
    obtain ⟨result, hret⟩ := ih state' fun y hy => hle y (List.mem_cons_of_mem _ hy)
    refine ⟨result, ?_⟩
    unfold histogramLoop
    rw [hstep]
    exact hret

/-- C28. In `analyzeAlignments1`, when every canonical alignment is non-empty, strictly
increasing and has all `ordinal0` below `markerCount0`, and there are fewer than 2^32
alignments (the counters are `uint32_t`), then the two arrays are computed and for every
ordinal and each strand class coverage <= rangeCoverage; so the histogram loop returns,
its two assertions never fire, and at every ordinal, whatever the histogram is at that
point, the step succeeds and every histogram index used (c, cSameStrand, cOppositeStrand,
rc, rcSameStrand, rcOppositeStrand) is below `rc + 1`, which the histogram has as rows
after its resize. -/
theorem coverage_le_rangeCoverage (orientedReadId0 : OrientedReadId) (markerCount0 : Nat)
    (alignments : List StoredAlignmentInformation)
    (hgood : ∀ p ∈ alignments,
      p.alignment.ordinals ≠ [] ∧ StrictlyIncreasing p.alignment.ordinals ∧
      ∀ o ∈ p.alignment.ordinals, o.1 < markerCount0)
    (hcount : alignments.length < 2 ^ 32) :
    ∃ coverage rangeCoverage,
      computeCoverage orientedReadId0 markerCount0 alignments = .ok (coverage, rangeCoverage) ∧
      (∀ o, (coverage.getD o (0, 0)).1 ≤ (rangeCoverage.getD o (0, 0)).1 ∧
        (coverage.getD o (0, 0)).2 ≤ (rangeCoverage.getD o (0, 0)).2) ∧
      (∃ histograms, coverageHistograms coverage rangeCoverage = .ok histograms) ∧
      ∀ o state, ∃ state',
        histogramStep state (coverage.getD o (0, 0)) (rangeCoverage.getD o (0, 0)) =
          .ok state' ∧
        (rangeCoverage.getD o (0, 0)).1 + (rangeCoverage.getD o (0, 0)).2 + 1 ≤
          state'.1.length ∧
        (coverage.getD o (0, 0)).1 + (coverage.getD o (0, 0)).2 <
          (rangeCoverage.getD o (0, 0)).1 + (rangeCoverage.getD o (0, 0)).2 + 1 ∧
        (coverage.getD o (0, 0)).1 <
          (rangeCoverage.getD o (0, 0)).1 + (rangeCoverage.getD o (0, 0)).2 + 1 ∧
        (coverage.getD o (0, 0)).2 <
          (rangeCoverage.getD o (0, 0)).1 + (rangeCoverage.getD o (0, 0)).2 + 1 ∧
        (rangeCoverage.getD o (0, 0)).1 <
          (rangeCoverage.getD o (0, 0)).1 + (rangeCoverage.getD o (0, 0)).2 + 1 ∧
        (rangeCoverage.getD o (0, 0)).2 <
          (rangeCoverage.getD o (0, 0)).1 + (rangeCoverage.getD o (0, 0)).2 + 1 := by
  obtain ⟨coverage, rangeCoverage, hret, hlen1, hlen2, hentries⟩ :=
    computeCoverage_eq orientedReadId0 markerCount0 alignments
      (fun p hp => (hgood p hp).1) (fun p hp => (hgood p hp).2.2)
  have hle : ∀ o, (coverage.getD o (0, 0)).1 ≤ (rangeCoverage.getD o (0, 0)).1 ∧
      (coverage.getD o (0, 0)).2 ≤ (rangeCoverage.getD o (0, 0)).2 := by
    intro o
    have h0 := hentries o 0 (by decide)
    have h1 := hentries o 1 (by decide)
    have hc0 := coverageCount_le_rangeCoverageCount orientedReadId0 alignments
      (fun p hp => ⟨(hgood p hp).1, (hgood p hp).2.1⟩) 0 o
    have hc1 := coverageCount_le_rangeCoverageCount orientedReadId0 alignments
      (fun p hp => ⟨(hgood p hp).1, (hgood p hp).2.1⟩) 1 o
    unfold coverageOfStrand at h0 h1
    simp only [if_true, Nat.succ_ne_zero, if_false] at h0 h1
    rw [h0.1, h0.2, h1.1, h1.2, Nat.mod_eq_of_lt (by omega), Nat.mod_eq_of_lt (by omega),
      Nat.mod_eq_of_lt (by omega), Nat.mod_eq_of_lt (by omega)]
    exact ⟨hc0.1, hc1.1⟩
  refine ⟨coverage, rangeCoverage, hret, hle, ?_, ?_⟩
  · unfold coverageHistograms
    apply histogramLoop_ok
    intro x hx
    obtain ⟨i, hi, hxi⟩ := List.mem_iff_getElem.1 hx
    have hi1 : i < coverage.length := by
      rw [List.length_zip] at hi
      omega
    have hi2 : i < rangeCoverage.length := by
      rw [List.length_zip] at hi
      omega
    rw [List.getElem_zip] at hxi
    have h := hle i
    rw [List.getD_eq_getElem _ _ hi1, List.getD_eq_getElem _ _ hi2] at h
    rw [← hxi]
    exact h
  · intro o state
    obtain ⟨state', hstep, hrows, -⟩ := histogramStep_ok state (coverage.getD o (0, 0))
      (rangeCoverage.getD o (0, 0)) (hle o).1 (hle o).2
    have h := hle o
    exact ⟨state', hstep, hrows, by omega, by omega, by omega, by omega, by omega⟩

/-- C28 at concrete alignments: `coverageAlignments` are non-empty, strictly increasing and
within the 6 markers of the query; the coverage at ordinal 3 is (0, 1), its range coverage
(1, 1), and the histogram loop returns. -/
theorem coverage_le_rangeCoverage_witness :
    ∃ coverage rangeCoverage,
      computeCoverage ⟨0⟩ 6 coverageAlignments = .ok (coverage, rangeCoverage) ∧
      ((coverage.getD 3 (0, 0)).1 ≤ (rangeCoverage.getD 3 (0, 0)).1 ∧
        (coverage.getD 3 (0, 0)).2 ≤ (rangeCoverage.getD 3 (0, 0)).2) ∧
      ∃ histograms, coverageHistograms coverage rangeCoverage = .ok histograms :=
  (coverage_le_rangeCoverage ⟨0⟩ 6 coverageAlignments (by decide) (by decide)).imp
    fun _ h => h.imp fun _ h => ⟨h.1, h.2.1 3, h.2.2.1⟩

/-! ## C31: the bins of the coverage ratios -/

theorem floorLog2Loop_spec (fuel n : Nat) (hfuel : n ≤ fuel) (hn : n ≠ 0) :
    2 ^ floorLog2Loop fuel n ≤ n ∧ n < 2 ^ (floorLog2Loop fuel n + 1) := by
  induction fuel generalizing n with
  | zero => omega
  | succ fuel ih =>
    unfold floorLog2Loop
    by_cases h2 : n < 2
    · rw [if_pos h2]
      have h1 : n = 1 := by omega
      subst h1
      exact ⟨by decide, by decide⟩
    · rw [if_neg h2]
      obtain ⟨hlow, hhigh⟩ := ih (n / 2) (by omega) (by omega)
      rw [Nat.pow_succ] at hhigh
      rw [Nat.pow_succ, Nat.pow_succ, Nat.pow_succ]
      constructor
      · omega
      · omega

theorem floorLog2_zero : floorLog2 0 = 0 := rfl

theorem two_pow_floorLog2_le (n : Nat) (hn : n ≠ 0) : 2 ^ floorLog2 n ≤ n :=
  (floorLog2Loop_spec n n (Nat.le_refl n) hn).1

/-- The unit in which a quotient is rounded divides every double that is not below the
quotient. -/
theorem unit_dvd_of_isDouble (quotient x : Nat) (hle : quotient ≤ x) (hx : IsDouble x) :
    2 ^ (floorLog2 quotient - 52) ∣ x := by
  obtain ⟨mantissa, exponent, rfl, hmantissa⟩ := hx
  by_cases hsmall : floorLog2 quotient ≤ 52
  · rw [Nat.sub_eq_zero_of_le hsmall, Nat.pow_zero]
    exact one_dvd _
  · have hne : quotient ≠ 0 := by
      intro h0
      rw [h0, floorLog2_zero] at hsmall
      omega
    have hlow := two_pow_floorLog2_le quotient hne
    have hlt : 2 ^ floorLog2 quotient < 2 ^ (53 + exponent) := by
      rw [Nat.pow_add]
      calc 2 ^ floorLog2 quotient ≤ mantissa * 2 ^ exponent := Nat.le_trans hlow hle
        _ < 2 ^ 53 * 2 ^ exponent :=
          Nat.mul_lt_mul_of_pos_right hmantissa (Nat.pow_pos (by decide))
    have hexp : floorLog2 quotient < 53 + exponent :=
      (Nat.pow_lt_pow_iff_right (by decide)).1 hlt
    exact Dvd.dvd.mul_left (Nat.pow_dvd_pow 2 (by omega)) mantissa

theorem roundQuotient_le (numerator denominator x : Nat) (hpos : 0 < denominator)
    (hx : IsDouble x) (hle : numerator ≤ x * denominator) :
    roundQuotient numerator denominator ≤ x := by
  have hquotient : numerator / denominator ≤ x :=
    Nat.div_le_of_le_mul (by rw [Nat.mul_comm]; exact hle)
  obtain ⟨t, ht⟩ := unit_dvd_of_isDouble _ x hquotient hx
  unfold roundQuotient
  dsimp only
  have hunit : 0 < 2 ^ (floorLog2 (numerator / denominator) - 52) := Nat.pow_pos (by decide)
  generalize 2 ^ (floorLog2 (numerator / denominator) - 52) = unit at ht hunit
  have hdivisor : 0 < denominator * unit := Nat.mul_pos hpos hunit
  have hdecomposition := Nat.div_add_mod numerator (denominator * unit)
  generalize numerator / (denominator * unit) = quotient at hdecomposition
  generalize numerator % (denominator * unit) = remainder at hdecomposition
  rw [ht] at hle
  rw [ht]
  split
  · rename_i hup
    have hremainder : 0 < remainder := by
      rcases hup with h | h
      · omega
      · omega
    have hlt : denominator * unit * quotient < unit * t * denominator := by omega
    have hlt2 : quotient * (unit * denominator) < t * (unit * denominator) := by
      calc quotient * (unit * denominator) = denominator * unit * quotient := by ring
        _ < unit * t * denominator := hlt
        _ = t * (unit * denominator) := by ring
    have hqt : quotient < t := Nat.lt_of_mul_lt_mul_right hlt2
    calc (quotient + 1) * unit ≤ t * unit := Nat.mul_le_mul_right _ hqt
      _ = unit * t := Nat.mul_comm _ _
  · have hle2 : quotient * (unit * denominator) ≤ t * (unit * denominator) := by
      calc quotient * (unit * denominator) = denominator * unit * quotient := by ring
        _ ≤ unit * t * denominator := by omega
        _ = t * (unit * denominator) := by ring
    have hqt : quotient ≤ t :=
      Nat.le_of_mul_le_mul_right hle2 (Nat.mul_pos hunit hpos)
    calc quotient * unit ≤ t * unit := Nat.mul_le_mul_right _ hqt
      _ = unit * t := Nat.mul_comm _ _

theorem roundQuotient_exact (denominator x : Nat) (hpos : 0 < denominator) (hx : IsDouble x) :
    roundQuotient (x * denominator) denominator = x := by
  have hquotient : x * denominator / denominator = x := Nat.mul_div_cancel x hpos
  have hdvd := unit_dvd_of_isDouble (x * denominator / denominator) x (by rw [hquotient]) hx
  unfold roundQuotient
  dsimp only
  have hunit : 0 < 2 ^ (floorLog2 (x * denominator / denominator) - 52) :=
    Nat.pow_pos (by decide)
  generalize 2 ^ (floorLog2 (x * denominator / denominator) - 52) = unit at hdvd hunit
  obtain ⟨t, rfl⟩ := hdvd
  have hfactor : unit * t * denominator = t * (denominator * unit) := by ring
  rw [hfactor, Nat.mul_mod_left, Nat.mul_div_cancel _ (Nat.mul_pos hpos hunit)]
  rw [if_neg]
  · exact Nat.mul_comm _ _
  · have hd : 0 < denominator * unit := Nat.mul_pos hpos hunit
    omega

theorem isDouble_mul_doubleScale (x : Nat) (hx : x < 2 ^ 53) : IsDouble (x * doubleScale) :=
  ⟨x, 1074, rfl, hx⟩

/-- The conversion of an integer below 2^53 to a double is exact. -/
theorem toDouble_eq (x : Nat) (hx : x < 2 ^ 53) : toDouble x = x * doubleScale := by
  unfold toDouble
  have h := roundQuotient_exact 1 (x * doubleScale) (by decide)
    (isDouble_mul_doubleScale x hx)
  rw [Nat.mul_one] at h
  exact h

theorem doubleScale_pos : 0 < doubleScale := by
  have h : ∀ n : Nat, 0 < 2 ^ n := fun n => Nat.two_pow_pos n
  exact h 1074

theorem isDouble_doubleScale : IsDouble doubleScale := by
  refine ⟨1, 1074, ?_, by decide⟩
  unfold doubleScale
  rw [Nat.one_mul]

/-- The ratio of a positive count to itself is the double 1. -/
theorem coverageRatio_self (c : Nat) (hpos : 0 < c) (hc : c < 2 ^ 53) :
    coverageRatio c c = doubleScale := by
  unfold coverageRatio doubleDiv
  rw [if_neg (by omega), toDouble_eq c hc]
  have h := roundQuotient_exact (c * doubleScale) doubleScale
    (Nat.mul_pos hpos doubleScale_pos) isDouble_doubleScale
  rw [Nat.mul_comm doubleScale] at h
  exact h

/-- The ratio of a count to a larger count below 2^33 is at most the double
`1 - 2^-33`. -/
theorem coverageRatio_le_of_lt (c rc : Nat) (hlt : c < rc) (hrc : rc < 2 ^ 33) :
    coverageRatio c rc ≤ (2 ^ 33 - 1) * 2 ^ 1041 := by
  unfold coverageRatio doubleDiv
  rw [if_neg (by omega), toDouble_eq c (by omega), toDouble_eq rc (by omega)]
  apply roundQuotient_le _ _ _ (Nat.mul_pos (by omega) doubleScale_pos)
    ⟨2 ^ 33 - 1, 1041, rfl, by decide⟩
  have hscale : doubleScale = 2 ^ 33 * 2 ^ 1041 := by
    unfold doubleScale
    rw [← Nat.pow_add]
  have hcount : c * 2 ^ 33 ≤ (2 ^ 33 - 1) * rc := by
    have h1 : c + 1 ≤ rc := hlt
    calc c * 2 ^ 33 ≤ c * 2 ^ 33 + (2 ^ 33 - 1 - c) := Nat.le_add_right _ _
      _ = (2 ^ 33 - 1) * (c + 1) := by
        have h2 : c ≤ 2 ^ 33 - 1 := by omega
        obtain ⟨k, hk⟩ := Nat.exists_eq_add_of_le h2
        rw [hk]
        have h3 : c + k - c = k := by omega
        rw [h3]
        have h4 : c + k + 1 = 2 ^ 33 := by omega
        rw [← h4]
        ring
      _ ≤ (2 ^ 33 - 1) * rc := Nat.mul_le_mul_left _ h1
  calc c * doubleScale * doubleScale = c * 2 ^ 33 * (2 ^ 1041 * doubleScale) := by
        rw [hscale]
        ring
    _ ≤ (2 ^ 33 - 1) * rc * (2 ^ 1041 * doubleScale) := Nat.mul_le_mul_right _ hcount
    _ = (2 ^ 33 - 1) * 2 ^ 1041 * (rc * doubleScale) := by ring

theorem binSize_pos : 0 < binSize := by decide!

theorem ratioBin_doubleScale : ratioBin doubleScale = 10 := by decide!

/-- A ratio of at most `1 - 2^-33` falls in a bin below 10. -/
theorem ratioBin_le_nine (r : Nat) (hr : r ≤ (2 ^ 33 - 1) * 2 ^ 1041) : ratioBin r ≤ 9 := by
  unfold ratioBin doubleToUint64 doubleDiv
  have hbound : roundQuotient (r * doubleScale) binSize ≤ (5 * 2 ^ 50 - 1) * 2 ^ 1025 := by
    apply roundQuotient_le _ _ _ binSize_pos ⟨5 * 2 ^ 50 - 1, 1025, rfl, by decide⟩
    have hconstant : (2 ^ 33 - 1) * 2 ^ 1041 * doubleScale ≤
        (5 * 2 ^ 50 - 1) * 2 ^ 1025 * binSize := by decide!
    exact Nat.le_trans (Nat.mul_le_mul_right _ hr) hconstant
  have hnine : (5 * 2 ^ 50 - 1) * 2 ^ 1025 / doubleScale = 9 := by decide!
  rw [← hnine]
  exact Nat.div_le_div_right hbound

theorem length_histogramStep_ratio (state state' : List (List Nat) × List (List Nat))
    (coverage rangeCoverage : Nat × Nat)
    (hstep : histogramStep state coverage rangeCoverage = .ok state') :
    state'.2.length = state.2.length := by
  unfold histogramStep at hstep
  dsimp only at hstep
  split at hstep
  · cases hstep
  · split at hstep
    · cases hstep
    · simp only [Except.ok.injEq] at hstep
      rw [← hstep]
      simp only [length_incrementEntry]

theorem length_histogramLoop_ratio (ordinals : List ((Nat × Nat) × (Nat × Nat)))
    (state result : List (List Nat) × List (List Nat))
    (hret : histogramLoop ordinals state = .ok result) :
    result.2.length = state.2.length := by
  induction ordinals generalizing state with
  | nil =>
    simp only [histogramLoop, Except.ok.injEq] at hret
    rw [hret]
  | cons x rest ih =>
    unfold histogramLoop at hret
    split at hret
    · cases hret
    · rename_i state' hstep
      rw [ih state' hret, length_histogramStep_ratio _ _ _ _ hstep]

/-- The claim C31 as stated fails for the program: the code divides doubles, and the
bin of the ratio 3/10 is 2, that of 3/5 is 5, where floor(10 * c / rc) is 3 and 6. -/
theorem ratioBin_floor_counterexample :
    ratioBin (coverageRatio 3 10) = 2 ∧ 10 * 3 / 10 = 3 ∧
    ratioBin (coverageRatio 3 5) = 5 ∧ 10 * 3 / 5 = 6 :=
  ⟨by decide!, by decide, by decide!, by decide⟩

/-- C31, amended. Coverage-ratio binning in `analyzeAlignments1`, in the double arithmetic
of the code: for every ordinal with coverage c <= range coverage rc, both below 2^33 (they
are sums of two 32-bit counters), the bin index `uint64_t(r/binSize)` of the ratio
`r = double(c)/double(rc)`, taken as 0 when rc = 0, lies in 0..10, so it is a valid index
of the ratio histogram, which has 11 rows from its creation to the end of the histogram
loop; the index equals 10 exactly when c = rc > 0. -/
theorem ratioBin_range (c rc : Nat) (hle : c ≤ rc) (hrc : rc < 2 ^ 33) :
    ratioBin (coverageRatio c rc) ≤ 10 ∧
    ratioBin (coverageRatio c rc) < binCount + 1 ∧
    (ratioBin (coverageRatio c rc) = 10 ↔ c = rc ∧ 0 < rc) ∧
    (∀ (coverage rangeCoverage : List (Nat × Nat))
        (histograms : List (List Nat) × List (List Nat)),
      coverageHistograms coverage rangeCoverage = .ok histograms →
        histograms.2.length = 11) := by
  have hcases : (ratioBin (coverageRatio c rc) = 10 ∧ c = rc ∧ 0 < rc) ∨
      (ratioBin (coverageRatio c rc) ≤ 9 ∧ ¬ (c = rc ∧ 0 < rc)) := by
    by_cases hzero : rc = 0
    · right
      subst hzero
      have hc : c = 0 := by omega
      subst hc
      refine ⟨?_, by omega⟩
      rw [coverageRatio_zero, ratioBin_zero]
      decide
    · by_cases heq : c = rc
      · left
        subst heq
        rw [coverageRatio_self c (by omega) (by omega)]
        exact ⟨ratioBin_doubleScale, rfl, by omega⟩
      · right
        exact ⟨ratioBin_le_nine _ (coverageRatio_le_of_lt c rc (by omega) hrc), by omega⟩
  have hrows : ∀ (coverage rangeCoverage : List (Nat × Nat))
      (histograms : List (List Nat) × List (List Nat)),
      coverageHistograms coverage rangeCoverage = .ok histograms →
        histograms.2.length = 11 := by
    intro coverage rangeCoverage histograms hret
    unfold coverageHistograms at hret
    rw [length_histogramLoop_ratio _ _ _ hret]
    rfl
  unfold binCount
  rcases hcases with ⟨h10, h⟩ | ⟨h9, h⟩
  · rw [h10]
    exact ⟨by decide, by decide, ⟨fun _ => h, fun _ => rfl⟩, hrows⟩
  · refine ⟨by omega, by omega, ⟨fun h10 => ?_, fun hc => absurd hc h⟩, hrows⟩
    omega

/-- C31 at concrete coverages: 7 of 10 falls in a bin of the histogram, 7 of 7 in
bin 10. -/
theorem ratioBin_range_witness :
    ratioBin (coverageRatio 7 10) < binCount + 1 ∧ ratioBin (coverageRatio 7 7) = 10 :=
  ⟨(ratioBin_range 7 10 (by decide) (by decide)).2.1,
    (ratioBin_range 7 7 (by decide) (by decide)).2.2.1.2 ⟨rfl, by decide⟩⟩

/-! ## C32: the assertion on the branch tables -/

/-- The line of one bubble is written when all values of the visited sequences are below
10, and the loop aborts with the assertion otherwise. -/
theorem writeBranchTableLine_eq (branchTable : List Int) (sequenceIds : List Nat) :
    writeBranchTableLine branchTable sequenceIds =
      if ∀ s ∈ sequenceIds, branchTableAt branchTable s < 10 then
        .ok (sequenceIds.map fun s =>
          if branchTableAt branchTable s < 0 then '.'
          else Nat.digitChar (branchTableAt branchTable s).toNat)
      else .error .branchIdTooLarge := by
  induction sequenceIds with
  | nil => simp [writeBranchTableLine]
  | cons s rest ih =>
    unfold writeBranchTableLine
    dsimp only
    rw [ih]
    by_cases hs : branchTableAt branchTable s < 10
    · rw [if_neg (not_not.2 hs)]
      by_cases hall : ∀ x ∈ rest, branchTableAt branchTable x < 10
      · have hcons : ∀ x ∈ s :: rest, branchTableAt branchTable x < 10 := by
          intro x hx
          rcases List.mem_cons.1 hx with h | h
          · rw [h]
            exact hs
          · exact hall x h
        rw [if_pos hall, if_pos hcons]
        rfl
      · have hcons : ¬ ∀ x ∈ s :: rest, branchTableAt branchTable x < 10 :=
          fun hcon => hall fun x hx => hcon x (List.mem_cons_of_mem _ hx)
        rw [if_neg hall, if_neg hcons]
    · have hcons : ¬ ∀ x ∈ s :: rest, branchTableAt branchTable x < 10 :=
        fun hcon => hs (hcon s (List.mem_cons_self _ _))
      rw [if_pos hs, if_neg hcons]

/-- The branch tables are written, one line of `sequenceCount` characters per bubble, when
all values of all bubbles are below 10, and the loop aborts with the assertion
otherwise. -/
theorem writeBranchTables_eq (sequenceCount : Nat) (bubbles : List (List Int)) :
    writeBranchTables sequenceCount bubbles =
      if ∀ branchTable ∈ bubbles, ∀ s, s < sequenceCount →
          branchTableAt branchTable s < 10 then
        .ok (bubbles.map fun branchTable =>
          (List.range sequenceCount).map fun s =>
            if branchTableAt branchTable s < 0 then '.'
            else Nat.digitChar (branchTableAt branchTable s).toNat)
      else .error .branchIdTooLarge := by
  induction bubbles with
  | nil => simp [writeBranchTables]
  | cons branchTable rest ih =>
    unfold writeBranchTables
    rw [writeBranchTableLine_eq, ih]
    by_cases hfirst : ∀ s ∈ List.range sequenceCount, branchTableAt branchTable s < 10
    · rw [if_pos hfirst]
      dsimp only
      by_cases hall : ∀ b ∈ rest, ∀ s, s < sequenceCount → branchTableAt b s < 10
      · have hcons : ∀ b ∈ branchTable :: rest, ∀ s, s < sequenceCount →
            branchTableAt b s < 10 := by
          intro b hb s hs
          rcases List.mem_cons.1 hb with h | h
          · rw [h]
            exact hfirst s (List.mem_range.2 hs)
          · exact hall b h s hs
        rw [if_pos hall, if_pos hcons]
        rfl
      · have hcons : ¬ ∀ b ∈ branchTable :: rest, ∀ s, s < sequenceCount →
            branchTableAt b s < 10 :=
          fun hcon => hall fun b hb => hcon b (List.mem_cons_of_mem _ hb)
        rw [if_neg hall, if_neg hcons]
    · have hcons : ¬ ∀ b ∈ branchTable :: rest, ∀ s, s < sequenceCount →
          branchTableAt b s < 10 :=
        fun hcon => hfirst fun s hs =>
          hcon branchTable (List.mem_cons_self _ _) s (List.mem_range.1 hs)
      rw [if_neg hfirst, if_neg hcons]

/-- C32. The loop of `analyzeAlignments3` that writes the branch tables accepts only
branch indices of a single digit: it aborts, with the assertion `value < 10`, if and only
if the branch table of some bubble holds a value >= 10 for some sequence, and otherwise it
writes one line per bubble; negative values (absent) are always accepted. -/
theorem writeBranchTables_abort_iff (sequenceCount : Nat) (bubbles : List (List Int)) :
    ((∃ e, writeBranchTables sequenceCount bubbles = .error e) ↔
      ∃ branchTable ∈ bubbles, ∃ s, s < sequenceCount ∧ 10 ≤ branchTableAt branchTable s) ∧
    (∀ e, writeBranchTables sequenceCount bubbles = .error e → e = .branchIdTooLarge) ∧
    ((∃ lines, writeBranchTables sequenceCount bubbles = .ok lines ∧
        lines.length = bubbles.length ∧ ∀ line ∈ lines, line.length = sequenceCount) ↔
      ∀ branchTable ∈ bubbles, ∀ s, s < sequenceCount → branchTableAt branchTable s < 10) ∧
    ((∀ branchTable ∈ bubbles, ∀ s, s < sequenceCount → branchTableAt branchTable s < 0) →
      ∃ lines, writeBranchTables sequenceCount bubbles = .ok lines ∧
        ∀ line ∈ lines, ∀ character ∈ line, character = '.') := by
  rw [writeBranchTables_eq]
  by_cases hall : ∀ branchTable ∈ bubbles, ∀ s, s < sequenceCount →
      branchTableAt branchTable s < 10
  · rw [if_pos hall]
    refine ⟨⟨?_, ?_⟩, ?_, ⟨fun _ => hall, fun _ => ⟨_, rfl, ?_, ?_⟩⟩, ?_⟩
    · rintro ⟨e, he⟩
      cases he
    · rintro ⟨branchTable, hb, s, hs, hvalue⟩
      have := hall branchTable hb s hs
      omega
    · intro e he
      cases he
    · simp
    · intro line hline
      rw [List.mem_map] at hline
      obtain ⟨_, _, rfl⟩ := hline
      simp
    · intro hneg
      refine ⟨_, rfl, ?_⟩
      intro line hline character hcharacter
      rw [List.mem_map] at hline
      obtain ⟨branchTable, hb, rfl⟩ := hline
      rw [List.mem_map] at hcharacter
      obtain ⟨s, hs, rfl⟩ := hcharacter
      rw [if_pos (hneg branchTable hb s (List.mem_range.1 hs))]
  · rw [if_neg hall]
    refine ⟨⟨fun _ => ?_, fun _ => ⟨_, rfl⟩⟩, ?_, ⟨?_, fun h => absurd h hall⟩, ?_⟩
    · by_contra hcon
      apply hall
      intro branchTable hb s hs
      by_contra hvalue
      exact hcon ⟨branchTable, hb, s, hs, by omega⟩
    · intro e he
      cases he
      rfl
    · rintro ⟨lines, hlines, -⟩
      cases hlines
    · intro hneg
      exfalso
      apply hall
      intro branchTable hb s hs
      have := hneg branchTable hb s hs
      omega

/-- C32 at concrete bubbles: the two branch tables of `exampleBubbles` are written; a
bubble with branch index 10 for the second sequence makes the loop abort. -/
theorem writeBranchTables_abort_iff_witness :
    (∃ lines, writeBranchTables 4 exampleBubbles = .ok lines ∧
      lines.length = exampleBubbles.length ∧ ∀ line ∈ lines, line.length = 4) ∧
    ∃ e, writeBranchTables 4 [[0, 10, -1, 0]] = .error e :=
  ⟨(writeBranchTables_abort_iff 4 exampleBubbles).2.2.1.2 (by decide),
   (writeBranchTables_abort_iff 4 [[0, 10, -1, 0]]).1.2
     ⟨[0, 10, -1, 0], List.mem_singleton_self _, 1, by decide, by decide⟩⟩

/-! ## C33: the order of the similarity edge table -/

theorem edgeGreater_irrefl (x : Int × (Nat × Nat)) : ¬ edgeGreater x x := by
  unfold edgeGreater
  omega

theorem edgeGreater_asymm (x y : Int × (Nat × Nat)) (hxy : edgeGreater x y) :
    ¬ edgeGreater y x := by
  unfold edgeGreater at *
  omega

theorem edgeNotLess_antisymm (x y : Int × (Nat × Nat)) (hxy : edgeNotLess x y)
    (hyx : edgeNotLess y x) : x = y := by
  unfold edgeNotLess edgeGreater at *
  have h1 : x.1 = y.1 := by omega
  have h2 : x.2.1 = y.2.1 := by omega
  have h3 : x.2.2 = y.2.2 := by omega
  exact Prod.ext h1 (Prod.ext h2 h3)

theorem edgeGreater_of_edgeNotLess_of_ne (x y : Int × (Nat × Nat)) (hxy : edgeNotLess x y)
    (hne : x ≠ y) : edgeGreater x y := by
  by_contra hcon
  exact hne (edgeNotLess_antisymm x y hxy hcon)

theorem nodup_edgeTableSorted (sameBranchMatrix differentBranchMatrix : List (List Nat))
    (n : Nat) : (edgeTableSorted sameBranchMatrix differentBranchMatrix n).Nodup := by
  rw [(perm_edgeTableSorted sameBranchMatrix differentBranchMatrix n).nodup_iff]
  unfold edgeTableUnsorted
  apply List.Nodup.map _ (nodup_sequencePairs n)
  intro p q hpq
  simp only [Prod.mk.injEq] at hpq
  exact hpq.2

/-- The sorted edge table is strictly decreasing for the lexicographic order of the
triples. -/
theorem edgeTableSorted_strict (sameBranchMatrix differentBranchMatrix : List (List Nat))
    (n : Nat) :
    (edgeTableSorted sameBranchMatrix differentBranchMatrix n).Pairwise edgeGreater :=
  ((sorted_edgeTableSorted sameBranchMatrix differentBranchMatrix n).and
    (nodup_edgeTableSorted sameBranchMatrix differentBranchMatrix n)).imp
    fun {x y} h => edgeGreater_of_edgeNotLess_of_ne x y h.1 h.2

/-- C33. The similarity edge table is a deterministic function of the two matrices: its
entries are in strictly decreasing lexicographic order of the triple
(delta, sequenceId0, sequenceId1), it is the only sorted permutation of the entries (so
any result of `std::sort` is this table), and among two pairs of equal delta the pair with
the larger (sequenceId0, sequenceId1) comes first and is kept by the truncation whenever
the other one is. -/
theorem edgeTable_deterministic (neighborCount : Nat)
    (sameBranchMatrix differentBranchMatrix : List (List Nat)) (n : Nat) :
    (edgeTableSorted sameBranchMatrix differentBranchMatrix n).Pairwise edgeGreater ∧
    (∀ sorted : List (Int × (Nat × Nat)),
      sorted.Perm (edgeTableUnsorted sameBranchMatrix differentBranchMatrix n) →
      sorted.Pairwise edgeNotLess →
      sorted = edgeTableSorted sameBranchMatrix differentBranchMatrix n) ∧
    (∀ (i j : Nat) (x y : Int × (Nat × Nat)),
      (edgeTableSorted sameBranchMatrix differentBranchMatrix n)[i]? = some x →
      (edgeTableSorted sameBranchMatrix differentBranchMatrix n)[j]? = some y →
      x.1 = y.1 →
      (y.2.1 < x.2.1 ∨ (y.2.1 = x.2.1 ∧ y.2.2 < x.2.2)) →
      i < j ∧
      (y ∈ edgeTable neighborCount sameBranchMatrix differentBranchMatrix n →
        x ∈ edgeTable neighborCount sameBranchMatrix differentBranchMatrix n)) := by
  have hstrict := edgeTableSorted_strict sameBranchMatrix differentBranchMatrix n
  refine ⟨hstrict, ?_, ?_⟩
  · intro sorted hperm hsorted
    haveI : IsAntisymm (Int × (Nat × Nat)) edgeNotLess := ⟨edgeNotLess_antisymm⟩
    exact List.eq_of_perm_of_sorted
      (hperm.trans (perm_edgeTableSorted sameBranchMatrix differentBranchMatrix n).symm)
      hsorted (sorted_edgeTableSorted sameBranchMatrix differentBranchMatrix n)
  · intro i j x y hx hy hdelta hpair
    have hgreater : edgeGreater x y := by
      unfold edgeGreater
      omega
    obtain ⟨hi, hxi⟩ := List.getElem?_eq_some_iff.1 hx
    obtain ⟨hj, hyj⟩ := List.getElem?_eq_some_iff.1 hy
    constructor
    · by_contra hij
      rcases Nat.lt_or_eq_of_le (Nat.le_of_not_lt hij) with hlt | heq
      · have := List.pairwise_iff_getElem.1 hstrict j i hj hi hlt
        rw [hxi, hyj] at this
        exact edgeGreater_asymm x y hgreater this
      · subst heq
        rw [hxi] at hyj
        rw [hyj] at hgreater
        exact edgeGreater_irrefl y hgreater
    · intro hkept
      rw [edgeTable_eq_take] at hkept ⊢
      have hmem : x ∈ edgeTableSorted sameBranchMatrix differentBranchMatrix n := by
        rw [← hxi]
        exact List.getElem_mem _
      rw [← List.take_append_drop (neighborCount * n / 2)
        (edgeTableSorted sameBranchMatrix differentBranchMatrix n)] at hmem hstrict
      rw [List.pairwise_append] at hstrict
      rcases List.mem_append.1 hmem with h | h
      · exact h
      · exact absurd (hstrict.2.2 y hkept x h) (edgeGreater_asymm x y hgreater)

/-- C33 at a concrete table: with the two signatures of `exampleSignatures` over five
sequences the sorted table holds the pairs (2, 4) and (2, 3), both of delta -1, at indices
6 and 7; seven entries are kept, so (2, 4) is kept and (2, 3) is dropped. -/
theorem edgeTable_deterministic_witness :
    6 < 7 ∧
    ((-1, (2, 4)) : Int × (Nat × Nat)) ∈
      edgeTable 3 (branchMatrices exampleSignatures 5).1
        (branchMatrices exampleSignatures 5).2 5 ∧
    ((-1, (2, 3)) : Int × (Nat × Nat)) ∉
      edgeTable 3 (branchMatrices exampleSignatures 5).1
        (branchMatrices exampleSignatures 5).2 5 :=
  ⟨((edgeTable_deterministic 3 (branchMatrices exampleSignatures 5).1
      (branchMatrices exampleSignatures 5).2 5).2.2 6 7 (-1, (2, 4)) (-1, (2, 3))
      (by decide) (by decide) rfl (Or.inr ⟨rfl, by decide⟩)).1,
    by decide, by decide⟩

/-! ## C22: the check of the precondition of merge -/

theorem pass1Loop_error (assembler : Assembler) (orientedReadIds : List OrientedReadId)
    (firstOrdinals : List Nat) (sequenceId0 : Nat)
    (alignments : List StoredAlignmentInformation) (start : Nat) (e : Failure)
    (h : pass1Loop assembler orientedReadIds firstOrdinals sequenceId0 alignments start =
      .error e) : e = .kmerIdMismatch := by
  induction alignments generalizing start with
  | nil => cases h
  | cons info rest ih =>
    unfold pass1Loop at h
    rw [pass1Pairs_eq] at h
    split at h
    · rename_i e1 he1
      split at he1
      · cases he1
      · cases he1
        cases h
        rfl
    · split at h
      · rename_i e2 he2
        cases h
        exact ih _ he2
      · cases h

/-- The calls of `merge` of the first pass: one per alignment of the query, each with all
the pairs of its alignment, all checked. -/
theorem pass1Loop_checked (assembler : Assembler) (orientedReadIds : List OrientedReadId)
    (firstOrdinals : List Nat) (sequenceId0 : Nat)
    (alignments : List StoredAlignmentInformation) (start : Nat) (merges : List MergeCall)
    (h : pass1Loop assembler orientedReadIds firstOrdinals sequenceId0 alignments start =
      .ok merges) :
    ∀ call ∈ merges, ∃ i info, alignments[i]? = some info ∧
      call.sequenceId0 = sequenceId0 ∧ call.sequenceId1 = start + i ∧
      CheckedMerge assembler orientedReadIds firstOrdinals call info.alignment.ordinals := by
  induction alignments generalizing start merges with
  | nil =>
    simp only [pass1Loop, Except.ok.injEq] at h
    rw [← h]
    intro call hcall
    cases hcall
  | cons info rest ih =>
    unfold pass1Loop at h
    rw [pass1Pairs_eq] at h
    split at h
    · cases h
    · rename_i v hv
      split at hv
      · rename_i hall
        simp only [Except.ok.injEq] at hv
        split at h
        · cases h
        · rename_i tail htail
          simp only [Except.ok.injEq] at h
          rw [← h]
          intro call hcall
          rcases List.mem_cons.1 hcall with hhead | hrest
          · refine ⟨0, info, List.getElem?_cons_zero, ?_, ?_, ?_, ?_⟩
            · rw [hhead]
            · rw [hhead]
              rfl
            · intro o ho
              rw [hhead]
              have := hall o ho
              unfold sameKmerId at this
              exact of_decide_eq_true this
            · rw [hhead, ← hv]
          · obtain ⟨i, info', hget, h0, h1, hchecked⟩ := ih (start + 1) tail htail call hrest
            refine ⟨i + 1, info', ?_, h0, ?_, hchecked⟩
            · rw [List.getElem?_cons_succ]
              exact hget
            · rw [h1]
              omega
      · cases hv

/-- The calls of `merge` for the alignments returned for one aligned oriented read: one per
returned alignment, each with the pairs of the window, all checked. -/
theorem pass2Alignments_checked (assembler : Assembler)
    (orientedReadIds : List OrientedReadId) (firstOrdinals lastOrdinals : List Nat)
    (sequenceId1 : Nat) (returned : List StoredAlignmentInformation)
    (merges : List MergeCall)
    (h : pass2Alignments assembler orientedReadIds firstOrdinals lastOrdinals sequenceId1
      returned = .ok merges) :
    ∀ call ∈ merges, ∃ storedAlignment ∈ returned,
      call.sequenceId0 = sequenceId1 ∧
      call.sequenceId1 = lowerBound orientedReadIds storedAlignment.orientedReadId ∧
      CheckedMerge assembler orientedReadIds firstOrdinals call
        (storedAlignment.alignment.ordinals.filter
          (inWindow firstOrdinals lastOrdinals call.sequenceId0 call.sequenceId1)) := by
  induction returned generalizing merges with
  | nil =>
    simp only [pass2Alignments, Except.ok.injEq] at h
    rw [← h]
    intro call hcall
    cases hcall
  | cons head rest ih =>
    unfold pass2Alignments at h
    dsimp only at h
    split at h
    · cases h
    · rw [pass2Pairs_eq] at h
      split at h
      · cases h
      · rename_i v hv
        split at hv
        · rename_i hall
          simp only [Except.ok.injEq] at hv
          split at h
          · cases h
          · rename_i tail htail
            simp only [Except.ok.injEq] at h
            rw [← h]
            intro call hcall
            rcases List.mem_cons.1 hcall with hhead | hrest
            · refine ⟨head, List.mem_cons_self _ _, ?_, ?_, ?_, ?_⟩
              · rw [hhead]
              · rw [hhead]
              · intro o ho
                rw [hhead] at ho ⊢
                have := hall o ho
                unfold sameKmerId at this
                exact of_decide_eq_true this
              · rw [hhead, ← hv]
            · obtain ⟨storedAlignment, hmem, h0, h1, hchecked⟩ := ih tail htail call hrest
              exact ⟨storedAlignment, List.mem_cons_of_mem _ hmem, h0, h1, hchecked⟩
        · cases hv

/-- An alignment returned for an aligned oriented read with a pair of the window that joins
markers of different `kmerId`s makes the loop over the returned alignments abort. -/
theorem pass2Alignments_error_of_mismatch (assembler : Assembler)
    (orientedReadIds : List OrientedReadId) (firstOrdinals lastOrdinals : List Nat)
    (sequenceId1 : Nat) (returned : List StoredAlignmentInformation)
    (hfound : ∀ info ∈ returned,
      lowerBound orientedReadIds info.orientedReadId < orientedReadIds.length)
    (storedAlignment : StoredAlignmentInformation) (hmem : storedAlignment ∈ returned)
    (o : Nat × Nat) (ho : o ∈ storedAlignment.alignment.ordinals)
    (hwindow : inWindow firstOrdinals lastOrdinals sequenceId1
      (lowerBound orientedReadIds storedAlignment.orientedReadId) o = true)
    (hdiff : assembler.markerKmerId (orientedReadIds.getD sequenceId1 ⟨0⟩).getValue o.1 ≠
      assembler.markerKmerId (orientedReadIds.getD
        (lowerBound orientedReadIds storedAlignment.orientedReadId) ⟨0⟩).getValue o.2) :
    pass2Alignments assembler orientedReadIds firstOrdinals lastOrdinals sequenceId1
      returned = .error .kmerIdMismatch := by
  cases hresult : pass2Alignments assembler orientedReadIds firstOrdinals lastOrdinals
      sequenceId1 returned with
  | error e =>
    rw [pass2Alignments_error assembler orientedReadIds firstOrdinals lastOrdinals sequenceId1
      returned hfound e hresult]
  | ok merges =>
    exfalso
    clear hfound
    induction returned generalizing merges with
    | nil => cases hmem
    | cons head rest ih =>
      unfold pass2Alignments at hresult
      dsimp only at hresult
      split at hresult
      · cases hresult
      · rw [pass2Pairs_eq] at hresult
        split at hresult
        · cases hresult
        · rename_i v hv
          split at hv
          · rename_i hall
            split at hresult
            · cases hresult
            · rename_i tail htail
              rcases List.mem_cons.1 hmem with hhead | hrest
              · rw [← hhead] at hall
                have := hall o (List.mem_filter.2 ⟨ho, hwindow⟩)
                unfold sameKmerId at this
                exact hdiff (of_decide_eq_true this)
              · exact ih hrest tail htail
          · cases hv

/-- The calls of `merge` of the second pass: each comes from an alignment returned by the
filtered query for an aligned oriented read that the loop visits, with the pairs of the
window, all checked. -/
theorem pass2Loop_checked (assembler : Assembler) (orientedReadIds : List OrientedReadId)
    (firstOrdinals lastOrdinals : List Nat) (remaining : List OrientedReadId)
    (sequenceId1 : Nat) (alignments : List StoredAlignmentInformation)
    (merges : List MergeCall)
    (h : pass2Loop assembler orientedReadIds firstOrdinals lastOrdinals remaining sequenceId1
      alignments = .ok merges) :
    ∀ call ∈ merges, ∃ (k : Nat) (orientedReadId1 : OrientedReadId)
        (returned : List StoredAlignmentInformation),
      remaining[k]? = some orientedReadId1 ∧ call.sequenceId0 = sequenceId1 + k ∧
      getStoredAlignmentsFiltered assembler orientedReadId1 orientedReadIds = .ok returned ∧
      ∃ storedAlignment ∈ returned,
        call.sequenceId1 = lowerBound orientedReadIds storedAlignment.orientedReadId ∧
        CheckedMerge assembler orientedReadIds firstOrdinals call
          (storedAlignment.alignment.ordinals.filter
            (inWindow firstOrdinals lastOrdinals call.sequenceId0 call.sequenceId1)) := by
  induction remaining generalizing sequenceId1 alignments merges with
  | nil =>
    simp only [pass2Loop, Except.ok.injEq] at h
    rw [← h]
    intro call hcall
    cases hcall
  | cons orientedReadId1 rest ih =>
    unfold pass2Loop at h
    split at h
    · split at h
      · cases h
      · rename_i returned hreturned
        split at h
        · cases h
        · rename_i merges1 hmerges1
          split at h
          · cases h
          · rename_i merges2 hmerges2
            simp only [Except.ok.injEq] at h
            rw [← h]
            intro call hcall
            rcases List.mem_append.1 hcall with h1 | h2
            · obtain ⟨storedAlignment, hmem, h0, hs2, hchecked⟩ :=
                pass2Alignments_checked _ _ _ _ _ _ _ hmerges1 call h1
              exact ⟨0, orientedReadId1, returned, List.getElem?_cons_zero, by rw [h0]; rfl, hreturned,
                storedAlignment, hmem, hs2, hchecked⟩
            · obtain ⟨k, r, returned', hget, h0, hret', hrest⟩ :=
                ih (sequenceId1 + 1) returned merges2 hmerges2 call h2
              refine ⟨k + 1, r, returned', ?_, ?_, hret', hrest⟩
              · rw [List.getElem?_cons_succ]
                exact hget
              · rw [h0]
                omega
    · simp only [Except.ok.injEq] at h
      rw [← h]
      intro call hcall
      cases hcall

/-- An iteration of the second pass whose query returns an alignment with a pair of the
window that joins markers of different `kmerId`s aborts. -/
theorem pass2Loop_error_of_mismatch (assembler : Assembler)
    (orientedReadIds : List OrientedReadId) (firstOrdinals lastOrdinals : List Nat)
    (orientedReadId1 : OrientedReadId) (remaining : List OrientedReadId) (sequenceId1 : Nat)
    (alignments returned : List StoredAlignmentInformation)
    (hvisited : sequenceId1 < alignments.length)
    (hreturned : getStoredAlignmentsFiltered assembler orientedReadId1 orientedReadIds =
      .ok returned)
    (storedAlignment : StoredAlignmentInformation) (hmem : storedAlignment ∈ returned)
    (o : Nat × Nat) (ho : o ∈ storedAlignment.alignment.ordinals)
    (hwindow : inWindow firstOrdinals lastOrdinals sequenceId1
      (lowerBound orientedReadIds storedAlignment.orientedReadId) o = true)
    (hdiff : assembler.markerKmerId (orientedReadIds.getD sequenceId1 ⟨0⟩).getValue o.1 ≠
      assembler.markerKmerId (orientedReadIds.getD
        (lowerBound orientedReadIds storedAlignment.orientedReadId) ⟨0⟩).getValue o.2) :
    pass2Loop assembler orientedReadIds firstOrdinals lastOrdinals
      (orientedReadId1 :: remaining) sequenceId1 alignments = .error .kmerIdMismatch := by
  have hsorted := sortedIds_of_getStoredAlignmentsFiltered_ok _ _ _ _ hreturned
  have hpartner := partner_mem_of_getStoredAlignmentsFiltered _ _ _ _ hreturned
  unfold pass2Loop
  rw [if_pos hvisited, hreturned]
  dsimp only
  rw [pass2Alignments_error_of_mismatch assembler orientedReadIds firstOrdinals lastOrdinals
    sequenceId1 returned
    (fun info hinfo => (lowerBound_of_mem _ _ hsorted (hpartner info hinfo)).1)
    storedAlignment hmem o ho hwindow hdiff]

/-- C22. The code diverges from the claim: in `kmerNeighborsAssembler` the alignment
between reads 2 and 3 has the pair (1, 2) inside both windows, which joins markers of different
`kmerId`s, but the second pass ends after the first aligned oriented read (read 1, which
has no alignment with the others) and never reaches that alignment: `analyzeAlignments3`
does not abort, it returns with the three merges of the first pass. -/
theorem mergePasses_skips_check :
    getStoredAlignmentsFiltered kmerNeighborsAssembler ⟨4⟩ [⟨2⟩, ⟨4⟩, ⟨6⟩] =
      .ok [⟨3, ⟨[(1, 2), (2, 3)]⟩, ⟨6⟩⟩] ∧
    inWindow
      (gatherSequences kmerNeighborsAssembler ⟨0⟩
        [⟨0, ⟨[(0, 1), (2, 3)]⟩, ⟨2⟩⟩, ⟨1, ⟨[(0, 1), (2, 3)]⟩, ⟨4⟩⟩,
          ⟨2, ⟨[(0, 1), (2, 3)]⟩, ⟨6⟩⟩]).firstOrdinals
      (gatherSequences kmerNeighborsAssembler ⟨0⟩
        [⟨0, ⟨[(0, 1), (2, 3)]⟩, ⟨2⟩⟩, ⟨1, ⟨[(0, 1), (2, 3)]⟩, ⟨4⟩⟩,
          ⟨2, ⟨[(0, 1), (2, 3)]⟩, ⟨6⟩⟩]).lastOrdinals 1 2 (1, 2) = true ∧
    kmerNeighborsAssembler.markerKmerId 4 1 ≠ kmerNeighborsAssembler.markerKmerId 6 2 ∧
    analyzeAlignments3 kmerNeighborsAssembler 0 0 (mergePasses kmerNeighborsAssembler ⟨0⟩) =
      .ok [⟨3, 0, [(0, 0), (2, 2)]⟩, ⟨3, 1, [(0, 0), (2, 2)]⟩, ⟨3, 2, [(0, 0), (2, 2)]⟩] :=
  ⟨by rfl, by decide, by decide, by rfl⟩

/-- What `analyzeAlignments3` does check before `merge` (the part of C22 that holds): every
vector that reaches `merge`, in pass 1 and in pass 2, holds only pairs that passed the
`kmerId` assertion, so no pair that joins markers of different `kmerId`s reaches `merge`.
The merge stage aborts with that assertion if any ordinal pair of a query alignment joins
markers of different `kmerId`s (pass 1), and so does every iteration of pass 2 whose query
returns an alignment with such a pair inside the window, in particular that of the first
aligned oriented read. -/
theorem merge_precondition_checked (assembler : Assembler) :
    (∀ (orientedReadIds : List OrientedReadId) (firstOrdinals : List Nat)
        (sequenceId0 sequenceId1 : Nat) (ordinals v : List (Nat × Nat)),
      pass1Pairs assembler orientedReadIds firstOrdinals sequenceId0 sequenceId1 ordinals =
          .ok v →
        ∀ o ∈ ordinals,
          assembler.markerKmerId (orientedReadIds.getD sequenceId0 ⟨0⟩).getValue o.1 =
          assembler.markerKmerId (orientedReadIds.getD sequenceId1 ⟨0⟩).getValue o.2) ∧
    (∀ (orientedReadIds : List OrientedReadId) (firstOrdinals : List Nat)
        (sequenceId0 sequenceId1 : Nat) (ordinals : List (Nat × Nat)) (o : Nat × Nat),
      o ∈ ordinals →
      assembler.markerKmerId (orientedReadIds.getD sequenceId0 ⟨0⟩).getValue o.1 ≠
        assembler.markerKmerId (orientedReadIds.getD sequenceId1 ⟨0⟩).getValue o.2 →
      pass1Pairs assembler orientedReadIds firstOrdinals sequenceId0 sequenceId1 ordinals =
        .error .kmerIdMismatch) ∧
    (∀ (orientedReadIds : List OrientedReadId) (firstOrdinals lastOrdinals : List Nat)
        (sequenceId1 sequenceId2 : Nat) (ordinals v : List (Nat × Nat)),
      pass2Pairs assembler orientedReadIds firstOrdinals lastOrdinals sequenceId1 sequenceId2
          ordinals = .ok v →
        ∀ o ∈ ordinals,
          inWindow firstOrdinals lastOrdinals sequenceId1 sequenceId2 o = true →
          assembler.markerKmerId (orientedReadIds.getD sequenceId1 ⟨0⟩).getValue o.1 =
          assembler.markerKmerId (orientedReadIds.getD sequenceId2 ⟨0⟩).getValue o.2) ∧
    (∀ (orientedReadIds : List OrientedReadId) (firstOrdinals lastOrdinals : List Nat)
        (sequenceId1 sequenceId2 : Nat) (ordinals : List (Nat × Nat)) (o : Nat × Nat),
      o ∈ ordinals →
      inWindow firstOrdinals lastOrdinals sequenceId1 sequenceId2 o = true →
      assembler.markerKmerId (orientedReadIds.getD sequenceId1 ⟨0⟩).getValue o.1 ≠
        assembler.markerKmerId (orientedReadIds.getD sequenceId2 ⟨0⟩).getValue o.2 →
      pass2Pairs assembler orientedReadIds firstOrdinals lastOrdinals sequenceId1 sequenceId2
        ordinals = .error .kmerIdMismatch) ∧
    (∀ (orientedReadId0 : OrientedReadId) (alignments : List StoredAlignmentInformation)
        (sequenceId1 : Nat) (info : StoredAlignmentInformation) (o : Nat × Nat),
      alignments[sequenceId1]? = some info → o ∈ info.alignment.ordinals →
      assembler.markerKmerId orientedReadId0.getValue o.1 ≠
        assembler.markerKmerId info.orientedReadId.getValue o.2 →
      mergePasses assembler orientedReadId0 alignments = .error .kmerIdMismatch) ∧
    (∀ (orientedReadIds : List OrientedReadId) (firstOrdinals lastOrdinals : List Nat)
        (orientedReadId1 : OrientedReadId) (remaining : List OrientedReadId)
        (sequenceId1 : Nat) (alignments returned : List StoredAlignmentInformation)
        (storedAlignment : StoredAlignmentInformation) (o : Nat × Nat),
      sequenceId1 < alignments.length →
      getStoredAlignmentsFiltered assembler orientedReadId1 orientedReadIds = .ok returned →
      storedAlignment ∈ returned → o ∈ storedAlignment.alignment.ordinals →
      inWindow firstOrdinals lastOrdinals sequenceId1
        (lowerBound orientedReadIds storedAlignment.orientedReadId) o = true →
      assembler.markerKmerId (orientedReadIds.getD sequenceId1 ⟨0⟩).getValue o.1 ≠
        assembler.markerKmerId (orientedReadIds.getD
          (lowerBound orientedReadIds storedAlignment.orientedReadId) ⟨0⟩).getValue o.2 →
      pass2Loop assembler orientedReadIds firstOrdinals lastOrdinals
        (orientedReadId1 :: remaining) sequenceId1 alignments = .error .kmerIdMismatch) ∧
    (∀ (orientedReadId0 : OrientedReadId) (first : StoredAlignmentInformation)
        (rest returned : List StoredAlignmentInformation)
        (storedAlignment : StoredAlignmentInformation) (o : Nat × Nat),
      getStoredAlignmentsFiltered assembler first.orientedReadId
        ((first :: rest).map fun info : StoredAlignmentInformation =>
          info.orientedReadId) = .ok returned →
      storedAlignment ∈ returned → o ∈ storedAlignment.alignment.ordinals →
      inWindow (gatherSequences assembler orientedReadId0 (first :: rest)).firstOrdinals
        (gatherSequences assembler orientedReadId0 (first :: rest)).lastOrdinals 0
        (lowerBound
          ((first :: rest).map fun info : StoredAlignmentInformation => info.orientedReadId)
          storedAlignment.orientedReadId) o = true →
      assembler.markerKmerId first.orientedReadId.getValue o.1 ≠
        assembler.markerKmerId
          ((((first :: rest).map fun info : StoredAlignmentInformation =>
              info.orientedReadId).getD
            (lowerBound
              ((first :: rest).map fun info : StoredAlignmentInformation =>
                info.orientedReadId)
              storedAlignment.orientedReadId) ⟨0⟩).getValue) o.2 →
      mergePasses assembler orientedReadId0 (first :: rest) = .error .kmerIdMismatch) ∧
    (∀ (orientedReadId0 : OrientedReadId) (alignments : List StoredAlignmentInformation)
        (merges : List MergeCall),
      mergePasses assembler orientedReadId0 alignments = .ok merges →
      ∀ call ∈ merges,
        (∃ i info, alignments[i]? = some info ∧
          call.sequenceId0 =
            (gatherSequences assembler orientedReadId0 alignments).sequences.length - 1 ∧
          call.sequenceId1 = i ∧
          CheckedMerge assembler
            (gatherSequences assembler orientedReadId0 alignments).orientedReadIds
            (gatherSequences assembler orientedReadId0 alignments).firstOrdinals call
            info.alignment.ordinals) ∨
        (∃ (orientedReadId1 : OrientedReadId) (returned : List StoredAlignmentInformation),
          ((gatherSequences assembler orientedReadId0 alignments).orientedReadIds.take
            alignments.length)[call.sequenceId0]? = some orientedReadId1 ∧
          getStoredAlignmentsFiltered assembler orientedReadId1
            ((gatherSequences assembler orientedReadId0 alignments).orientedReadIds.take
              alignments.length) = .ok returned ∧
          ∃ storedAlignment ∈ returned,
            call.sequenceId1 =
              lowerBound
                ((gatherSequences assembler orientedReadId0 alignments).orientedReadIds.take
                  alignments.length) storedAlignment.orientedReadId ∧
            CheckedMerge assembler
              ((gatherSequences assembler orientedReadId0 alignments).orientedReadIds.take
                alignments.length)
              (gatherSequences assembler orientedReadId0 alignments).firstOrdinals call
              (storedAlignment.alignment.ordinals.filter
                (inWindow (gatherSequences assembler orientedReadId0 alignments).firstOrdinals
                  (gatherSequences assembler orientedReadId0 alignments).lastOrdinals
                  call.sequenceId0 call.sequenceId1)))) := by
  refine ⟨?_, ?_, ?_, ?_, ?_, ?_, ?_, ?_⟩
  · intro ids first s0 s1 ordinals v hret o ho
    rw [pass1Pairs_eq] at hret
    split at hret
    · rename_i hall
      have := hall o ho
      unfold sameKmerId at this
      exact of_decide_eq_true this
    · cases hret
  · intro ids first s0 s1 ordinals o ho hne
    rw [pass1Pairs_eq, if_neg]
    intro hall
    have := hall o ho
    unfold sameKmerId at this
    exact hne (of_decide_eq_true this)
  · intro ids first last s1 s2 ordinals v hret o ho hw
    rw [pass2Pairs_eq] at hret
    split at hret
    · rename_i hall
      have := hall o (List.mem_filter.2 ⟨ho, hw⟩)
      unfold sameKmerId at this
      exact of_decide_eq_true this
    · cases hret
  · intro ids first last s1 s2 ordinals o ho hw hne
    rw [pass2Pairs_eq, if_neg]
    intro hall
    have := hall o (List.mem_filter.2 ⟨ho, hw⟩)
    unfold sameKmerId at this
    exact hne (of_decide_eq_true this)
  · intro q alignments s1 info o hget ho hne
    obtain ⟨hid, -, -, -⟩ := gatherSequences_neighbor assembler q alignments s1 info hget
    obtain ⟨hlast, hid0, -, -⟩ := gatherSequences_query assembler q alignments
    unfold mergePasses
    dsimp only
    rw [pass1Loop_error_of_mismatch assembler _ _ _ alignments 0 s1 info o hget ho]
    unfold sameKmerId
    rw [hlast, hid0, Nat.zero_add, hid]
    exact decide_eq_false hne
  · intro ids first last r remaining s1 alignments returned storedAlignment o hvisited hret
      hmem ho hwindow hdiff
    exact pass2Loop_error_of_mismatch assembler ids first last r remaining s1 alignments
      returned hvisited hret storedAlignment hmem o ho hwindow hdiff
  · intro q first rest returned storedAlignment o hret hmem ho hwindow hdiff
    unfold mergePasses
    dsimp only
    cases hpass1 : pass1Loop assembler
        (gatherSequences assembler q (first :: rest)).orientedReadIds
        (gatherSequences assembler q (first :: rest)).firstOrdinals
        ((gatherSequences assembler q (first :: rest)).sequences.length - 1)
        (first :: rest) 0 with
    | error e =>
      dsimp only
      rw [pass1Loop_error _ _ _ _ _ _ _ hpass1]
    | ok merges1 =>
      dsimp only
      unfold mergePass2
      dsimp only
      rw [take_orientedReadIds_gatherSequences]
      have hloop := pass2Loop_error_of_mismatch assembler
        ((first :: rest).map fun info : StoredAlignmentInformation => info.orientedReadId)
        (gatherSequences assembler q (first :: rest)).firstOrdinals
        (gatherSequences assembler q (first :: rest)).lastOrdinals
        first.orientedReadId
        (rest.map fun info : StoredAlignmentInformation => info.orientedReadId) 0
        (first :: rest)
        returned (by simp) hret storedAlignment hmem o ho hwindow hdiff
      rw [List.map_cons] at hloop ⊢
      rw [hloop]
  · intro q alignments merges hret call hcall
    unfold mergePasses at hret
    dsimp only at hret
    split at hret
    · cases hret
    · rename_i merges1 hmerges1
      split at hret
      · cases hret
      · rename_i merges2 hmerges2
        simp only [Except.ok.injEq] at hret
        rw [← hret] at hcall
        rcases List.mem_append.1 hcall with h1 | h2
        · left
          obtain ⟨i, info, hget, h0, hs1, hchecked⟩ :=
            pass1Loop_checked _ _ _ _ _ _ _ hmerges1 call h1
          exact ⟨i, info, hget, h0, by rw [hs1, Nat.zero_add], hchecked⟩
        · right
          unfold mergePass2 at hmerges2
          dsimp only at hmerges2
          obtain ⟨k, r, returned, hget, h0, hreturned, hrest⟩ :=
            pass2Loop_checked _ _ _ _ _ _ _ _ hmerges2 call h2
          rw [Nat.zero_add] at h0
          exact ⟨r, returned, by rw [h0]; exact hget, hreturned, hrest⟩

/-- The checks at concrete stores: in `mismatchKmerAssembler` the markers of read 1 carry
another `kmerId` than those of read 0 and the merge stage aborts in pass 1; in
`kmerFirstNeighborAssembler` the alignment between the first aligned oriented read and the
second one has the mismatching pair (1, 2) inside the window and the merge stage aborts in
pass 2. -/
theorem merge_precondition_checked_witness :
    mergePasses mismatchKmerAssembler ⟨0⟩ [⟨0, ⟨[(0, 1), (2, 3)]⟩, ⟨2⟩⟩] =
      .error .kmerIdMismatch ∧
    mergePasses kmerFirstNeighborAssembler ⟨0⟩
        [⟨0, ⟨[(0, 1), (2, 3)]⟩, ⟨2⟩⟩, ⟨1, ⟨[(0, 1), (2, 3)]⟩, ⟨4⟩⟩] =
      .error .kmerIdMismatch :=
  ⟨(merge_precondition_checked mismatchKmerAssembler).2.2.2.2.1 ⟨0⟩
      [⟨0, ⟨[(0, 1), (2, 3)]⟩, ⟨2⟩⟩] 0 ⟨0, ⟨[(0, 1), (2, 3)]⟩, ⟨2⟩⟩ (0, 1) rfl
      (by decide) (by decide),
   (merge_precondition_checked kmerFirstNeighborAssembler).2.2.2.2.2.2.1 ⟨0⟩
      ⟨0, ⟨[(0, 1), (2, 3)]⟩, ⟨2⟩⟩ [⟨1, ⟨[(0, 1), (2, 3)]⟩, ⟨4⟩⟩]
      [⟨2, ⟨[(1, 2), (2, 3)]⟩, ⟨4⟩⟩] ⟨2, ⟨[(1, 2), (2, 3)]⟩, ⟨4⟩⟩ (1, 2) (by rfl)
      (by decide) (by decide) (by decide) (by decide)⟩

end Shasta
